import Mathlib

/-! # Connect Four server (`backend/`, `analytics/`)

A shallow embedding of the game state machine (the 6×7 grid, `MakeMove`,
`checkWin`, `isBoardFull`, `GetValidMoves`, `NewGame`, `StartGame`), of the bot
(`GetMove`, `findWinningMove`, `clone`), of the matchmaking queue
(`AddPlayer`, `startMatchmakingTimeout`, `RemovePlayer`), of the registry
(`GetGame`, `CompleteGame`, `GetLeaderboard`, the loop body of
`CheckDisconnections`) and of the event channel with its consumer
(`PublishEvent`, `processEvent`), followed by the theorems that relate them to
the written specification.

Conventions of the embedding:

* Go's `int` values (players, states, rows, columns) are integers, so a
  `Player` may be any integer and not only `Empty`, `Player1`, `Player2`.
* A method that works on a `*Game` or on the package-level state returns the
  state after the call next to its result; `checkWin` and `isBoardFull`, which
  only read, are functions of the game. The `time.Now()` readings of a call are
  passed in as arguments, and so is the value of `generateGameID()`.
* An `error` is `Option String`: `none` for `nil`, `some msg` for `errors.New(msg)`.
* Each `for` loop recurses on its variant (the distance of the cursor to the
  edge it walks towards), which makes the functions total and computable;
  `countLoop_unroll` and `countLoop_stable` show that the bound is never the
  reason a loop stops.
* A Go map is the list of its key/value pairs; the order in which `range`
  visits a map is an argument of the function that iterates.
* The methods of the queue run under its mutex, so each call is one step.
-/

namespace ConnectFour

/-! ## Data model -/

abbrev BoardWidth : Nat := 7
abbrev BoardHeight : Nat := 6

/-- Go `type Player int`. -/
abbrev Player := Int

abbrev Empty : Player := 0
abbrev Player1 : Player := 1
abbrev Player2 : Player := 2

/-- Go `type GameState int`. -/
abbrev GameState := Int

abbrev Waiting : GameState := 0
abbrev InProgress : GameState := 1
abbrev Finished : GameState := 2

/-- A reading of the clock (`time.Time`); the zero time is `0`. -/
abbrev Time := Int

/-- Identity of a `*Connection`. -/
abbrev ConnRef := Nat

/-- The array type `[BoardHeight][BoardWidth]Player`. -/
abbrev Grid := Fin BoardHeight → Fin BoardWidth → Player

/-- The zero value `[BoardHeight][BoardWidth]Player{}`. -/
def Grid.zero : Grid := fun _ _ => Empty

/-- The predicate `0 ≤ r < BoardHeight ∧ 0 ≤ c < BoardWidth`: the index pairs Go accepts. -/
def inBounds (r c : Int) : Prop :=
  0 ≤ r ∧ r < BoardHeight ∧ 0 ≤ c ∧ c < BoardWidth

instance (r c : Int) : Decidable (inBounds r c) := by
  unfold inBounds; infer_instance

/-- The read `b[r][c]` with `int` indices. Every read in the code is
guarded by the bounds it needs; outside the array the model yields `Empty`. -/
def Grid.get (b : Grid) (r c : Int) : Player :=
  if h : inBounds r c then
    b ⟨r.toNat, by unfold inBounds at h; omega⟩ ⟨c.toNat, by unfold inBounds at h; omega⟩
  else Empty

/-- The write `b[r][c] = p` on a copy of the array. -/
def Grid.set (b : Grid) (r c : Int) (p : Player) : Grid :=
  fun i j => if (i.val : Int) = r ∧ (j.val : Int) = c then p else b i j

/-- A grid from its rows, top row first (used to write concrete boards). -/
def Grid.ofRows (rows : List (List Player)) : Grid :=
  fun i j => (rows.getD i.val []).getD j.val Empty

structure Game where
  ID : String
  Player1 : String
  Player2 : String
  Board : Grid
  CurrentTurn : Player
  State : GameState
  Winner : Player
  IsDraw : Bool
  CreatedAt : Time
  StartedAt : Option Time
  EndedAt : Option Time
  LastMoveAt : Time
  IsBotGame : Bool
  Player1Conn : Option ConnRef
  Player2Conn : Option ConnRef

/-! ## Operations -/

/-- The function `NewGame(id, player1)`; `now` is the reading of `time.Now()`. -/
def NewGame (id player1 : String) (now : Time) : Game :=
  { ID := id
    Player1 := player1
    Player2 := ""
    Board := Grid.zero
    CurrentTurn := Player1
    State := Waiting
    Winner := Empty
    IsDraw := false
    CreatedAt := now
    StartedAt := none
    EndedAt := none
    LastMoveAt := 0
    IsBotGame := false
    Player1Conn := none
    Player2Conn := none }

/-- The method `StartGame(player2)`; `now` is the reading of `time.Now()`. -/
def StartGame (g : Game) (player2 : String) (now : Time) : Game :=
  { g with Player2 := player2, State := InProgress, StartedAt := some now, LastMoveAt := now }

/-- One counting loop of `checkWin`:
`for ; cond(r, c); r, c = r + dr, c + dc { count++ }`.
The first argument is the loop variant (the distance of the cursor to the
edge it walks towards): it is `0` only where `cond` is false. -/
def countLoop (cond : Int → Int → Bool) (dr dc : Int) : Nat → Int → Int → Nat → Nat
  | 0, _, _, count => count
  | n + 1, r, c, count =>
    if cond r c then countLoop cond dr dc n (r + dr) (c + dc) (count + 1) else count

/-- Variant of a loop that decrements `i` while `i >= 0`. -/
def toLow (i : Int) : Nat := (i + 1).toNat

/-- Variant of a loop that increments `i` while `i < bound`. -/
def toHigh (bound : Nat) (i : Int) : Nat := ((bound : Int) - i).toNat

/-- The method `checkWin(row, col, player)`. -/
def checkWin (g : Game) (row col : Int) (player : Player) : Bool :=
  -- Check horizontal
  let count := 1
  let count := countLoop (fun r c => decide (c ≥ 0) && decide (g.Board.get r c = player))
    0 (-1) (toLow (col - 1)) row (col - 1) count
  let count := countLoop (fun r c => decide (c < BoardWidth) && decide (g.Board.get r c = player))
    0 1 (toHigh BoardWidth (col + 1)) row (col + 1) count
  if count ≥ 4 then true else
  -- Check vertical
  let count := 1
  let count := countLoop (fun r c => decide (r ≥ 0) && decide (g.Board.get r c = player))
    (-1) 0 (toLow (row - 1)) (row - 1) col count
  let count := countLoop (fun r c => decide (r < BoardHeight) && decide (g.Board.get r c = player))
    1 0 (toHigh BoardHeight (row + 1)) (row + 1) col count
  if count ≥ 4 then true else
  -- Check diagonal (top-left to bottom-right)
  let count := 1
  let count := countLoop
    (fun r c => decide (r ≥ 0) && decide (c ≥ 0) && decide (g.Board.get r c = player))
    (-1) (-1) (toLow (row - 1)) (row - 1) (col - 1) count
  let count := countLoop
    (fun r c => decide (r < BoardHeight) && decide (c < BoardWidth)
      && decide (g.Board.get r c = player))
    1 1 (toHigh BoardHeight (row + 1)) (row + 1) (col + 1) count
  if count ≥ 4 then true else
  -- Check diagonal (top-right to bottom-left)
  let count := 1
  let count := countLoop
    (fun r c => decide (r ≥ 0) && decide (c < BoardWidth) && decide (g.Board.get r c = player))
    (-1) 1 (toLow (row - 1)) (row - 1) (col + 1) count
  let count := countLoop
    (fun r c => decide (r < BoardHeight) && decide (c ≥ 0) && decide (g.Board.get r c = player))
    1 (-1) (toHigh BoardHeight (row + 1)) (row + 1) (col - 1) count
  if count ≥ 4 then true else
  false

/-- The method `isBoardFull()`: scans the top row. -/
def isBoardFull (g : Game) : Bool :=
  (List.range BoardWidth).all fun (c : Nat) => decide (g.Board.get 0 (c : Int) ≠ Empty)

/-- The row search of `MakeMove`:
`row := -1; for r := ...; r >= 0; r-- { if Board[r][column] == Empty { row = r; break } }`,
entered at `r` with variant `r + 1`. -/
def findRow (b : Grid) (column : Int) : Nat → Int → Int
  | 0, _ => -1
  | n + 1, r =>
    if r ≥ 0 then
      if b.get r column = Empty then r else findRow b column n (r - 1)
    else -1

/-- The method `MakeMove(column, player)`: the game after the call and the
returned error (`none` for `nil`). `tMove` and `tEnd` are the readings of
`time.Now()` for `LastMoveAt` and `EndedAt`. -/
def MakeMove (g : Game) (column : Int) (player : Player) (tMove tEnd : Time) :
    Game × Option String :=
  if g.State ≠ InProgress then (g, some "game is not in progress")
  else if player ≠ g.CurrentTurn then (g, some "not your turn")
  else if column < 0 ∨ column ≥ BoardWidth then (g, some "invalid column")
  else
    -- Find the lowest empty row in the column
    let row := findRow g.Board column (toLow (BoardHeight - 1)) (BoardHeight - 1)
    if row = -1 then (g, some "column is full")
    else
      -- Place the disc
      let g := { g with Board := g.Board.set row column player, LastMoveAt := tMove }
      -- Check for win
      if checkWin g row column player then
        ({ g with State := Finished, Winner := player, EndedAt := some tEnd }, none)
      -- Check for draw
      else if isBoardFull g then
        ({ g with State := Finished, IsDraw := true, EndedAt := some tEnd }, none)
      -- Switch turn
      else if g.CurrentTurn = Player1 then ({ g with CurrentTurn := Player2 }, none)
      else ({ g with CurrentTurn := Player1 }, none)

/-- The row `MakeMove` computes for `column`: the search entered at the bottom row. -/
def landingRow (b : Grid) (column : Int) : Int :=
  findRow b column (toLow ((BoardHeight : Int) - 1)) ((BoardHeight : Int) - 1)

/-! ## Valid moves and the bot (`backend/game.go`, `backend/bot.go`) -/

/-- The loop of `GetValidMoves`:
`for c := ...; c < BoardWidth; c++ { if g.Board[0][c] == Empty { valid = append(valid, c) } }`,
entered at `c` with variant `BoardWidth - c`. -/
def validLoop (b : Grid) : Nat → Int → List Int → List Int
  | 0, _, valid => valid
  | n + 1, c, valid =>
    if c < BoardWidth then
      if b.get 0 c = Empty then validLoop b n (c + 1) (valid ++ [c])
      else validLoop b n (c + 1) valid
    else valid

/-- The method `GetValidMoves()`: the game after the call and the returned slice. -/
def GetValidMoves (g : Game) : Game × List Int :=
  (g, validLoop g.Board (toHigh BoardWidth 0) 0 [])

/-- The type `BotPlayer`. -/
structure BotPlayer where
  name : String

/-- The function `NewBotPlayer()`. -/
def NewBotPlayer : BotPlayer := { name := "Bot" }

/-- The board copy of `clone`:
`for r := 0; r < BoardHeight; r++ { for c := 0; c < BoardWidth; c++ { dst[r][c] = src[r][c] } }`. -/
def copyBoard (src dst : Grid) : Grid :=
  (List.range BoardHeight).foldl
    (fun (acc : Grid) (r : Nat) =>
      (List.range BoardWidth).foldl
        (fun (acc : Grid) (c : Nat) => acc.set (r : Int) (c : Int) (src.get (r : Int) (c : Int)))
        acc)
    dst

/-- The method `clone()`: a fresh `Game` with the listed fields copied, every
other field at its zero value, and the board copied cell by cell. -/
def clone (g : Game) : Game :=
  { ID := g.ID
    Player1 := g.Player1
    Player2 := g.Player2
    Board := copyBoard g.Board Grid.zero
    CurrentTurn := g.CurrentTurn
    State := g.State
    Winner := g.Winner
    IsDraw := g.IsDraw
    CreatedAt := 0
    StartedAt := none
    EndedAt := none
    LastMoveAt := 0
    IsBotGame := g.IsBotGame
    Player1Conn := none
    Player2Conn := none }

/-- The loop `for _, col := range validMoves` of `findWinningMove`: the game
after the loop (all writes go to the clone `testGame`) and the returned column. -/
def findWinningMoveLoop (game : Game) (player : Player) : List Int → Game × Int
  | [] => (game, -1)
  | col :: rest =>
    -- Create a temporary game state to test the move
    let testGame := clone game
    let row := findRow testGame.Board col (toLow ((BoardHeight : Int) - 1)) ((BoardHeight : Int) - 1)
    if row = -1 then findWinningMoveLoop game player rest
    else
      -- Test the move
      let testGame := { testGame with Board := testGame.Board.set row col player }
      if checkWin testGame row col player then (game, col)
      else findWinningMoveLoop game player rest

/-- The method `findWinningMove(game, player)`. -/
def findWinningMove (_b : BotPlayer) (game : Game) (player : Player) : Game × Int :=
  let (game, validMoves) := GetValidMoves game
  findWinningMoveLoop game player validMoves

/-- The method `GetMove(game)`: the game after the call and the returned column. -/
def GetMove (b : BotPlayer) (game : Game) : Game × Int :=
  -- Priority 1: Play winning move if available
  let (game, move) := findWinningMove b game Player2
  if move ≠ -1 then (game, move)
  else
    -- Priority 2: Block opponent's immediate winning move
    let (game, move) := findWinningMove b game Player1
    if move ≠ -1 then (game, move)
    else
      -- Priority 3: Choose the first valid column
      let (game, validMoves) := GetValidMoves game
      if validMoves.length > 0 then (game, validMoves.headD 0)
      else (game, -1)

/-! ## Matchmaking and the game registry (`backend/matchmaking.go`, `backend/gamemanager.go`) -/

/-- A Go `map[string]T`: its key/value pairs, each key at most once. The
order of the pairs carries no meaning. -/
structure GoMap (α : Type) where
  entries : List (String × α)

/-- The empty map `make(map[string]T)`. -/
def GoMap.empty {α : Type} : GoMap α := { entries := [] }

/-- The read `v, exists := m[k]`. -/
def GoMap.find {α : Type} (m : GoMap α) (k : String) : Option α :=
  (m.entries.find? fun e => decide (e.1 = k)).map fun e => e.2

/-- The statement `delete(m, k)`. -/
def GoMap.delete {α : Type} (m : GoMap α) (k : String) : GoMap α :=
  { entries := m.entries.filter fun e => decide (e.1 ≠ k) }

/-- The statement `m[k] = v`. -/
def GoMap.store {α : Type} (m : GoMap α) (k : String) (v : α) : GoMap α :=
  { entries := (m.entries.filter fun e => decide (e.1 ≠ k)) ++ [(k, v)] }

/-- The type `WaitingPlayer`. -/
structure WaitingPlayer where
  Username : String
  Conn : Option ConnRef
  GameID : String
  JoinedAt : Time
deriving DecidableEq

/-- The type `MatchmakingQueue` (without its mutex). -/
structure MatchmakingQueue where
  waitingPlayers : GoMap WaitingPlayer

/-- The function `NewMatchmakingQueue()`. -/
def NewMatchmakingQueue : MatchmakingQueue := { waitingPlayers := GoMap.empty }

/-- The type `GameManager` (without its mutex). -/
structure GameManager where
  games : GoMap Game
  completedGames : GoMap Game

/-- The function `NewGameManager()`. -/
def NewGameManager : GameManager := { games := GoMap.empty, completedGames := GoMap.empty }

/-- The method `AddGame(game)`. -/
def GameManager.AddGame (gm : GameManager) (game : Game) : GameManager :=
  { gm with games := gm.games.store game.ID game }

/-- The type `Event`. -/
structure Event where
  /-- The field `Type` of the Go struct. -/
  EventType : String
  GameID : String
  Player1 : String
  Player2 : String
  Player : String
  Column : Int
  Winner : String
  IsDraw : Bool
  Timestamp : Time

/-- The type `EventProducer`: the buffered channel is its queued events, oldest
first, and its capacity. -/
structure EventProducer where
  eventChannel : List Event
  capacity : Nat

/-- The function `NewEventProducer(bufferSize)`. -/
def NewEventProducer (bufferSize : Nat) : EventProducer :=
  { eventChannel := [], capacity := bufferSize }

/-- The method `PublishEvent(event)`: a non-blocking send that drops the event
when the buffer is full. -/
def EventProducer.PublishEvent (ep : EventProducer) (event : Event) : EventProducer :=
  if ep.eventChannel.length < ep.capacity then
    { ep with eventChannel := ep.eventChannel ++ [event] }
  else ep

/-- The package-level state the matchmaking code works on: the variables
`matchmakingQueue`, `gameManager` and `eventProducer`, and the goroutines
started by `go mq.startMatchmakingTimeout(username, gameID)` that have not yet
run their body. Pushes to connections (`sendGameState`) are not part of the state. -/
structure Server where
  matchmakingQueue : MatchmakingQueue
  gameManager : GameManager
  eventProducer : EventProducer
  pendingTimeouts : List (String × String)

/-- The state after `main` has set up the package-level variables. -/
def Server.init : Server :=
  { matchmakingQueue := NewMatchmakingQueue
    gameManager := NewGameManager
    eventProducer := NewEventProducer 1000
    pendingTimeouts := [] }

/-- The method `AddPlayer(username, conn)`: the state after the call and the
returned game id. `order` is the order in which `range` visits the waiting
entries (Go leaves it unspecified), `newID` the value of `generateGameID()`,
and `t1`, `t2`, `t3` the successive readings of `time.Now()`. -/
def AddPlayer (s : Server) (username : String) (conn : Option ConnRef)
    (order : List (String × WaitingPlayer)) (newID : String) (t1 t2 t3 : Time) :
    Server × String :=
  -- Check if player is already waiting
  match s.matchmakingQueue.waitingPlayers.find username with
  | some wp => (s, wp.GameID)
  | none =>
    -- Try to find an opponent
    match order.find? fun e => decide (e.1 ≠ username) with
    | some (otherUsername, otherPlayer) =>
      let gameID := otherPlayer.GameID
      let game := NewGame gameID otherPlayer.Username t1
      let game := { game with Player1Conn := otherPlayer.Conn }
      let game := { game with Player2Conn := conn }
      let game := StartGame game username t2
      let game := { game with State := InProgress }
      -- Remove waiting player
      let s := { s with matchmakingQueue :=
        { waitingPlayers := s.matchmakingQueue.waitingPlayers.delete otherUsername } }
      -- Add game to game manager
      let s := { s with gameManager := s.gameManager.AddGame game }
      -- Emit game started event
      let event : Event :=
        { EventType := "GAME_STARTED", GameID := gameID, Player1 := otherPlayer.Username,
          Player2 := username, Player := "", Column := 0, Winner := "", IsDraw := false,
          Timestamp := t3 }
      let s := { s with eventProducer := s.eventProducer.PublishEvent event }
      (s, gameID)
    | none =>
      -- No opponent found, add to queue
      let gameID := newID
      let s := { s with matchmakingQueue :=
        { waitingPlayers := s.matchmakingQueue.waitingPlayers.store username
            { Username := username, Conn := conn, GameID := gameID, JoinedAt := t1 } } }
      -- Start timeout goroutine
      let s := { s with pendingTimeouts := s.pendingTimeouts ++ [(username, gameID)] }
      (s, gameID)

/-- The method `startMatchmakingTimeout(username, gameID)` from the moment its
sleep is over; `t1`, `t2`, `t3` are the successive readings of `time.Now()`. -/
def startMatchmakingTimeout (s : Server) (username gameID : String) (t1 t2 t3 : Time) :
    Server :=
  let s := { s with pendingTimeouts := s.pendingTimeouts.erase (username, gameID) }
  -- Check if player is still waiting
  match s.matchmakingQueue.waitingPlayers.find username with
  | some wp =>
    let bot := NewBotPlayer
    let game := NewGame gameID username t1
    let game := { game with Player1Conn := wp.Conn }
    let game := { game with Player2 := bot.name }
    let game := { game with IsBotGame := true }
    let game := StartGame game bot.name t2
    let game := { game with State := InProgress }
    let s := { s with matchmakingQueue :=
      { waitingPlayers := s.matchmakingQueue.waitingPlayers.delete username } }
    let s := { s with gameManager := s.gameManager.AddGame game }
    let event : Event :=
      { EventType := "GAME_STARTED", GameID := gameID, Player1 := username,
        Player2 := bot.name, Player := "", Column := 0, Winner := "", IsDraw := false,
        Timestamp := t3 }
    { s with eventProducer := s.eventProducer.PublishEvent event }
  | none => s

/-- The method `RemovePlayer(username)`. -/
def RemovePlayer (s : Server) (username : String) : Server :=
  { s with matchmakingQueue :=
    { waitingPlayers := s.matchmakingQueue.waitingPlayers.delete username } }

/-- The server states reached from a state with an empty waiting queue through
`AddPlayer`, `startMatchmakingTimeout` and `RemovePlayer`; the steps of the other
components change the registry and the event channel but not the queue. -/
inductive ServerReachable : Server → Prop
  | start (s : Server) : s.matchmakingQueue.waitingPlayers.entries = [] → ServerReachable s
  | addPlayer {s : Server} (username : String) (conn : Option ConnRef)
      (order : List (String × WaitingPlayer)) (newID : String) (t1 t2 t3 : Time) :
      order.Perm s.matchmakingQueue.waitingPlayers.entries → ServerReachable s →
      ServerReachable (AddPlayer s username conn order newID t1 t2 t3).1
  | timeout {s : Server} (username gameID : String) (t1 t2 t3 : Time) :
      ServerReachable s → ServerReachable (startMatchmakingTimeout s username gameID t1 t2 t3)
  | removePlayer {s : Server} (username : String) :
      ServerReachable s → ServerReachable (RemovePlayer s username)
  | other {s : Server} (gm : GameManager) (ep : EventProducer) :
      ServerReachable s → ServerReachable { s with gameManager := gm, eventProducer := ep }

/-- In a reachable state the waiting map holds at most one entry, stored under
its own `Username`. -/
def QueueInv (s : Server) : Prop :=
  s.matchmakingQueue.waitingPlayers.entries.length ≤ 1 ∧
    ∀ e ∈ s.matchmakingQueue.waitingPlayers.entries, e.2.Username = e.1

/-! ## The registry, the watchdog and the analytics consumer
(`backend/gamemanager.go`, `analytics/kafka_simulator.go`, `analytics/consumer.go`) -/

/-- A write through the pointer that the map holds under `k`. -/
def GoMap.modify {α : Type} (m : GoMap α) (k : String) (f : α → α) : GoMap α :=
  { entries := m.entries.map fun e => if e.1 = k then (e.1, f e.2) else e }

/-- The keys of the map. -/
def GoMap.keys {α : Type} (m : GoMap α) : List String :=
  m.entries.map fun e => e.1

/-- The method `GetGame(gameID)`: `none` stands for `(nil, false)`. -/
def GameManager.GetGame (gm : GameManager) (gameID : String) : Option Game :=
  match gm.games.find gameID with
  | some game => some game
  | none => gm.completedGames.find gameID

/-- The method `CompleteGame(gameID)`. -/
def GameManager.CompleteGame (gm : GameManager) (gameID : String) : GameManager :=
  match gm.games.find gameID with
  | some game =>
    { games := gm.games.delete gameID
      completedGames := gm.completedGames.store gameID game }
  | none => gm

/-- The statement `wins[name]++` on a `map[string]int`. -/
def increment (wins : GoMap Int) (name : String) : GoMap Int :=
  wins.store name ((wins.find name).getD 0 + 1)

/-- The loop `for _, game := range gm.completedGames` of `GetLeaderboard` over
the games still to visit. -/
def leaderboardLoop : GoMap Int → List (String × Game) → GoMap Int
  | wins, [] => wins
  | wins, (_, game) :: rest =>
    if game.Winner = Player1 then leaderboardLoop (increment wins game.Player1) rest
    else if game.Winner = Player2 then leaderboardLoop (increment wins game.Player2) rest
    else leaderboardLoop wins rest

/-- The method `GetLeaderboard()`; `order` is the order in which `range` visits
the entries of `gm.completedGames`. -/
def GameManager.GetLeaderboard (_gm : GameManager) (order : List (String × Game)) : GoMap Int :=
  leaderboardLoop GoMap.empty order

/-- The sum of the values of a `map[string]int`. -/
def GoMap.total (m : GoMap Int) : Int :=
  (m.entries.map fun e => e.2).sum

/-- The game is a win of the name `n`: `n` is the name on the side that won. -/
def wonBy (n : String) (game : Game) : Bool :=
  (decide (game.Winner = Player1) && decide (game.Player1 = n)) ||
    (decide (game.Winner = Player2) && decide (game.Player2 = n))

/-- The game has a winner. -/
def hasWinner (game : Game) : Bool :=
  decide (game.Winner = Player1) || decide (game.Winner = Player2)

/-- The constant `time.Second`: a `time.Duration` counts nanoseconds, and so do
the differences of clock readings. -/
def Second : Int := 1000000000

/-- The test `time.Since(lastActivity) > 30*time.Second &&
time.Since(game.LastMoveAt) > 30*time.Second`; `tActivity` and `tMove` are the
readings of the clock of the two `time.Since`. -/
def inactive (lastActivity lastMoveAt tActivity tMove : Time) : Bool :=
  decide (tActivity - lastActivity > 30 * Second) &&
    decide (tMove - lastMoveAt > 30 * Second)

/-- The block both branches of the watchdog run on a forfeit: the writes to
`game.State`, `game.Winner` and `game.EndedAt` go through the pointer the active
map holds under `game.ID`, then comes `CompleteGame(game.ID)`, then the
GAME_ENDED event. `now` and `stamp` are the two readings of `time.Now()`. -/
def declareForfeit (s : Server) (game : Game) (winner : Player) (winnerName : String)
    (now stamp : Time) : Server :=
  let gm : GameManager :=
    { s.gameManager with
      games := s.gameManager.games.modify game.ID fun g =>
        { g with State := Finished, Winner := winner, EndedAt := some now } }
  let gm := gm.CompleteGame game.ID
  let event : Event :=
    { EventType := "GAME_ENDED", GameID := game.ID, Player1 := "", Player2 := "", Player := "",
      Column := 0, Winner := winnerName, IsDraw := false, Timestamp := stamp }
  { s with gameManager := gm, eventProducer := s.eventProducer.PublishEvent event }

/-- The body of the loop `for _, game := range gamesToCheck` of
`CheckDisconnections` for one game of the snapshot. `game` is the value behind
the pointer, `lastActivity` gives what `GetLastActivity()` returns for a
connection, and `clock i` is the reading of the clock at the `i`-th place of
the body that reads it (0 to 3 in the block of Player1, 4 to 7 in the block of
Player2). -/
def checkGame (s : Server) (game : Game) (lastActivity : ConnRef → Time)
    (clock : Nat → Time) : Server :=
  -- the statements after the block of Player1
  let second : Server :=
    match game.Player2Conn with
    | some conn =>
      if !game.IsBotGame && inactive (lastActivity conn) game.LastMoveAt (clock 4) (clock 5) then
        -- Player 2 disconnected, player 1 wins
        declareForfeit s game Player1 game.Player1 (clock 6) (clock 7)
      else s
    | none => s
  match game.Player1Conn with
  | some conn =>
    if inactive (lastActivity conn) game.LastMoveAt (clock 0) (clock 1) then
      -- Player 1 disconnected, player 2 wins
      declareForfeit s game Player2 game.Player2 (clock 2) (clock 3)
    else second
  | none => second

/-- The receive of the consumer's loop `for event := range producer.GetEventChannel()`:
the oldest queued event and the channel without it, or `none` while the channel
is empty. -/
def EventProducer.receive (ep : EventProducer) : Option (Event × EventProducer) :=
  match ep.eventChannel with
  | [] => none
  | event :: rest => some (event, { ep with eventChannel := rest })

/-- One step on the event channel: a `PublishEvent(event)` of some producer of
events, or a receive of the consumer. -/
inductive ChannelOp where
  | publish (event : Event)
  | receive

/-- The channel together with the events the consumer has received so far and
the published events that were queued (not dropped), both oldest first. -/
structure ChannelRun where
  producer : EventProducer
  received : List Event
  queued : List Event

/-- The channel after a list of steps, with the record of what was queued and
what was received. -/
def runChannel : ChannelRun → List ChannelOp → ChannelRun
  | r, [] => r
  | r, ChannelOp.publish event :: ops =>
    runChannel
      { producer := r.producer.PublishEvent event
        received := r.received
        queued :=
          if (r.producer.PublishEvent event).eventChannel.length > r.producer.eventChannel.length
          then r.queued ++ [event] else r.queued }
      ops
  | r, ChannelOp.receive :: ops =>
    match r.producer.receive with
    | some (event, producer) =>
      runChannel { producer := producer, received := r.received ++ [event], queued := r.queued }
        ops
    | none => runChannel r ops

/-- The type `AnalyticsData` (without its mutex). -/
structure AnalyticsData where
  TotalGames : Int
  WinsPerPlayer : GoMap Int
  TotalGameDuration : Int
  GameCount : Int

/-- The type `AnalyticsConsumer`. -/
structure AnalyticsConsumer where
  data : AnalyticsData
  gameStartTimes : GoMap Time

/-- The function `NewAnalyticsConsumer()`. -/
def NewAnalyticsConsumer : AnalyticsConsumer :=
  { data := { TotalGames := 0, WinsPerPlayer := GoMap.empty, TotalGameDuration := 0,
              GameCount := 0 }
    gameStartTimes := GoMap.empty }

/-- The method `processEvent(event)`; the loop of `startAnalyticsConsumer` in
`backend/analytics.go` runs the same `switch` on the package-level data. -/
def AnalyticsConsumer.processEvent (ac : AnalyticsConsumer) (event : Event) :
    AnalyticsConsumer :=
  if event.EventType = "GAME_STARTED" then
    let data := { ac.data with TotalGames := ac.data.TotalGames + 1 }
    let data := { data with GameCount := data.GameCount + 1 }
    { data := data, gameStartTimes := ac.gameStartTimes.store event.GameID event.Timestamp }
  else if event.EventType = "MOVE_MADE" then ac
  else if event.EventType = "GAME_ENDED" then
    let ac :=
      match ac.gameStartTimes.find event.GameID with
      | some startTime =>
        let duration := event.Timestamp - startTime
        { data := { ac.data with TotalGameDuration := ac.data.TotalGameDuration + duration }
          gameStartTimes := ac.gameStartTimes.delete event.GameID }
      | none => ac
    if event.Winner ≠ "" then
      { ac with
        data := { ac.data with WinsPerPlayer := increment ac.data.WinsPerPlayer event.Winner } }
    else ac
  else ac

/-- The events of a list processed in order, as the loop of `Start` does. -/
def processAll (ac : AnalyticsConsumer) (events : List Event) : AnalyticsConsumer :=
  events.foldl AnalyticsConsumer.processEvent ac

/-! ## Sequences of calls -/

/-- The arguments of one `MakeMove` call together with its clock readings. -/
structure Call where
  column : Int
  player : Player
  tMove : Time
  tEnd : Time

/-- The game after a list of `MakeMove` calls, in order. -/
def play (g : Game) : List Call → Game
  | [] => g
  | k :: ks => play (MakeMove g k.column k.player k.tMove k.tEnd).1 ks

/-- The `player` arguments of the calls that returned no error, in order. -/
def successfulMovers (g : Game) : List Call → List Player
  | [] => []
  | k :: ks =>
    if (MakeMove g k.column k.player k.tMove k.tEnd).2 = none then
      k.player :: successfulMovers (MakeMove g k.column k.player k.tMove k.tEnd).1 ks
    else successfulMovers (MakeMove g k.column k.player k.tMove k.tEnd).1 ks

/-- The games reachable from `NewGame` followed by `StartGame` through `MakeMove` calls. -/
inductive Reachable : Game → Prop
  | start (id player1 player2 : String) (t0 t1 : Time) :
      Reachable (StartGame (NewGame id player1 t0) player2 t1)
  | move {g : Game} (column : Int) (player : Player) (tMove tEnd : Time) :
      Reachable g → Reachable (MakeMove g column player tMove tEnd).1

/-! ## Specification vocabulary -/

/-- The cell `(r, c)` is inside the grid and holds `p`. -/
def holds (b : Grid) (p : Player) (r c : Int) : Prop :=
  inBounds r c ∧ b.get r c = p

instance (b : Grid) (p : Player) (r c : Int) : Decidable (holds b p r c) := by
  unfold holds; infer_instance

/-- The four axis families as steps `(dr, dc)`: horizontal, vertical, the
diagonal from top-left to bottom-right and the one from top-right to bottom-left. -/
def axes : List (Int × Int) := [(0, 1), (1, 0), (1, 1), (1, -1)]

/-- The four consecutive cells that start at `(r, c)` and advance by `d`
are all inside the grid and hold `p`. -/
def fourFrom (b : Grid) (p : Player) (r c : Int) (d : Int × Int) : Prop :=
  ∀ i : Fin 4, holds b p (r + i.val * d.1) (c + i.val * d.2)

instance (b : Grid) (p : Player) (r c : Int) (d : Int × Int) :
    Decidable (fourFrom b p r c d) := by
  unfold fourFrom; infer_instance

/-- Some four consecutive in-bounds cells on one line include `(row, col)`
and all hold `p`; `(row, col)` is the cell number `k` of the four. -/
def fourThrough (b : Grid) (p : Player) (row col : Int) : Prop :=
  ∃ d ∈ axes, ∃ k : Fin 4, fourFrom b p (row - k.val * d.1) (col - k.val * d.2) d

instance (b : Grid) (p : Player) (row col : Int) : Decidable (fourThrough b p row col) := by
  unfold fourThrough; infer_instance

/-- The board contains four consecutive discs of one player on some line. -/
def hasFour (b : Grid) : Prop :=
  ∃ r : Fin BoardHeight, ∃ c : Fin BoardWidth, ∃ d ∈ axes,
    b.get r.val c.val ≠ Empty ∧ fourFrom b (b.get r.val c.val) r.val c.val d

instance (b : Grid) : Decidable (hasFour b) := by
  unfold hasFour; infer_instance

/-- Number of occupied cells of column `c`. -/
def occupied (b : Grid) (c : Int) : Nat :=
  (List.range BoardHeight).countP fun (r : Nat) => decide (b.get (r : Int) c ≠ Empty)

/-- Every cell of the top row is occupied. -/
def topRowFull (b : Grid) : Prop :=
  ∀ c : Fin BoardWidth, b.get 0 c.val ≠ Empty

instance (b : Grid) : Decidable (topRowFull b) := by
  unfold topRowFull; infer_instance

/-- All six cells of column `c` are occupied. -/
def columnFull (b : Grid) (c : Int) : Prop :=
  ∀ r : Fin BoardHeight, b.get r.val c ≠ Empty

instance (b : Grid) (c : Int) : Decidable (columnFull b c) := by
  unfold columnFull; infer_instance

/-- The cell `(row, column)` is the lowest empty cell of its column: it is
empty and every cell below it (larger row index) is occupied. -/
def lowestEmpty (b : Grid) (column row : Int) : Prop :=
  inBounds row column ∧ b.get row column = Empty ∧
    ∀ r : Fin BoardHeight, row < r.val → b.get r.val column ≠ Empty

instance (b : Grid) (column row : Int) : Decidable (lowestEmpty b column row) := by
  unfold lowestEmpty; infer_instance

/-- No disc floats above an empty cell. -/
def gravity (b : Grid) : Prop :=
  ∀ r : Fin BoardHeight, ∀ r' : Fin BoardHeight, ∀ c : Fin BoardWidth,
    r.val < r'.val → b.get r.val c.val ≠ Empty → b.get r'.val c.val ≠ Empty

instance (b : Grid) : Decidable (gravity b) := by
  unfold gravity; infer_instance

/-- A disc of `p` dropped into column `c` lands on the lowest empty cell of the
column and completes four in a row through it. -/
def dropWins (b : Grid) (p : Player) (c : Int) : Prop :=
  ∃ r : Fin BoardHeight, lowestEmpty b c r.val ∧ fourThrough (b.set r.val c p) p r.val c

instance (b : Grid) (p : Player) (c : Int) : Decidable (dropWins b p c) := by
  unfold dropWins; infer_instance

/-- Column `c` is in `0..6` and its top cell is empty. -/
def topEmpty (b : Grid) (c : Int) : Prop :=
  0 ≤ c ∧ c < 7 ∧ b.get 0 c = Empty

instance (b : Grid) (c : Int) : Decidable (topEmpty b c) := by
  unfold topEmpty; infer_instance

/-- The call `MakeMove(c, p)` on `g` ends the game with `p` as Winner. -/
def finishesWith (g : Game) (c : Int) (p : Player) (tMove tEnd : Time) : Prop :=
  (MakeMove g c p tMove tEnd).1.State = Finished ∧ (MakeMove g c p tMove tEnd).1.Winner = p

instance (g : Game) (c : Int) (p : Player) (tMove tEnd : Time) :
    Decidable (finishesWith g c p tMove tEnd) := by
  unfold finishesWith; infer_instance

/-- Two games agree on the fields `MakeMove` reads: board, turn, state, winner and
draw flag. -/
def sameCore (g g' : Game) : Prop :=
  g.Board = g'.Board ∧ g.CurrentTurn = g'.CurrentTurn ∧ g.State = g'.State ∧
    g.Winner = g'.Winner ∧ g.IsDraw = g'.IsDraw

/-- The call with the clock readings `300` and `301` in place of its own. -/
def Call.retimed (k : Call) : Call :=
  { column := k.column, player := k.player, tMove := 300, tEnd := 301 }

/-- Number of occupied cells of the board. -/
def discs (b : Grid) : Nat :=
  ((List.range BoardWidth).map fun (c : Nat) => occupied b (c : Int)).sum

/-- All 42 cells are occupied. -/
def allOccupied (b : Grid) : Prop :=
  ∀ r : Fin BoardHeight, ∀ c : Fin BoardWidth, b.get r.val c.val ≠ Empty

instance (b : Grid) : Decidable (allOccupied b) := by
  unfold allOccupied; infer_instance

/-- Further facts that `MakeMove` maintains from a started game on: a finished
game shows a four in a row or a full top row, a game in progress has a free top
cell, and a winner is only set on a board with a four in a row. -/
def InvEnd (g : Game) : Prop :=
  (g.State = Finished → hasFour g.Board ∨ topRowFull g.Board) ∧
  (g.State = InProgress → ¬ topRowFull g.Board) ∧
  (g.Winner ≠ Empty → hasFour g.Board)

/-- The turn `MakeMove` hands over to after a move of `p`. -/
def otherPlayer (p : Player) : Player := if p = Player1 then Player2 else Player1

/-- The facts that `MakeMove` maintains from a started game on. -/
def Inv (g : Game) : Prop :=
  (g.CurrentTurn = Player1 ∨ g.CurrentTurn = Player2) ∧
  (g.State = InProgress ∨ g.State = Finished) ∧
  (g.State = InProgress → g.Winner = Empty ∧ g.IsDraw = false ∧ ¬ hasFour g.Board) ∧
  (g.State = Finished →
    (g.Winner ≠ Empty ∧ g.IsDraw = false) ∨ (g.Winner = Empty ∧ g.IsDraw = true)) ∧
  gravity g.Board

/-! ## Concrete games used as test inputs -/

/-- A started game: `NewGame("g1", "alice")` then `StartGame("bob")`. -/
def startedGame : Game := StartGame (NewGame "g1" "alice" 100) "bob" 200

/-- The call `MakeMove(column, player)` with clock readings `300` and `301`. -/
def callOf (column : Int) (player : Player) : Call :=
  { column := column, player := player, tMove := 300, tEnd := 301 }

/-- Player1 drops four times into column 3, Player2 three times into column 4. -/
def columnThreeGame : Game :=
  play startedGame [callOf 3 Player1, callOf 4 Player2, callOf 3 Player1, callOf 4 Player2,
    callOf 3 Player1, callOf 4 Player2, callOf 3 Player1]

/-- The game after six of the seven moves of `columnThreeGame`. -/
def sixMovesGame : Game :=
  play startedGame [callOf 3 Player1, callOf 4 Player2, callOf 3 Player1, callOf 4 Player2,
    callOf 3 Player1, callOf 4 Player2]

/-- Six alternating moves into column 3: the column is full, nobody has won. -/
def fullColumnGame : Game :=
  play startedGame [callOf 3 Player1, callOf 3 Player2, callOf 3 Player1, callOf 3 Player2,
    callOf 3 Player1, callOf 3 Player2]

/-- Player1 has three discs in column 3, Player2 one disc each in
columns 4 and 5; Player2 is on turn. -/
def blockGame : Game :=
  play startedGame [callOf 3 Player1, callOf 4 Player2, callOf 3 Player1, callOf 5 Player2,
    callOf 3 Player1]

/-- Player1 has three discs in column 3 and one in column 0, Player2 three in
column 4; Player2 is on turn. -/
def sixMovesTurnTwo : Game :=
  play startedGame [callOf 3 Player1, callOf 4 Player2, callOf 3 Player1, callOf 4 Player2,
    callOf 3 Player1, callOf 4 Player2, callOf 0 Player1]

/-- An in-progress game, Player2 on turn, with a Player1 disc floating in the
top cell of column 0 above two empty cells and three Player2 discs. -/
def floatingGame : Game :=
  { startedGame with
    CurrentTurn := Player2
    Board := Grid.ofRows
      [[1, 0, 0, 0, 0, 0, 0],
       [0, 0, 0, 0, 0, 0, 0],
       [0, 0, 0, 0, 0, 0, 0],
       [2, 0, 0, 0, 0, 0, 0],
       [2, 0, 0, 0, 0, 0, 0],
       [2, 1, 1, 0, 0, 0, 0]] }

/-- The seven calls `a, b, a, b, a, b, a` made by Player1 and Player2 in turn;
`tm i` and `te i` are the clock readings of call `i`. -/
def alternatingCalls (a b : Int) (tm te : Nat → Time) : List Call :=
  [{ column := a, player := Player1, tMove := tm 0, tEnd := te 0 },
   { column := b, player := Player2, tMove := tm 1, tEnd := te 1 },
   { column := a, player := Player1, tMove := tm 2, tEnd := te 2 },
   { column := b, player := Player2, tMove := tm 3, tEnd := te 3 },
   { column := a, player := Player1, tMove := tm 4, tEnd := te 4 },
   { column := b, player := Player2, tMove := tm 5, tEnd := te 5 },
   { column := a, player := Player1, tMove := tm 6, tEnd := te 6 }]

/-- Calls into the given columns by `p`, the other player, `p`, ... in turn. -/
def callsInTurn : Player → List Int → List Call
  | _, [] => []
  | p, c :: cs => callOf c p :: callsInTurn (otherPlayer p) cs

/-- Forty-two moves that fill the board without a four in a row. -/
def drawCalls : List Call :=
  callsInTurn Player1
    [2, 0, 0, 2, 2, 0, 0, 2, 2, 0, 0, 2,
     3, 1, 1, 3, 3, 1, 1, 3, 3, 1, 1, 3,
     6, 4, 4, 6, 6, 4, 4, 6, 6, 4, 4, 6,
     5, 5, 5, 5, 5, 5]

/-- The call `AddPlayer("alice", conn 1)` on the initial state: alice waits
under the fresh id "g1" and her fallback timer is started. -/
def joinedAlice : Server × String :=
  AddPlayer Server.init "alice" (some 1) [] "g1" 10 11 12

/-- Then `AddPlayer("bob", conn 2)`: bob is paired with alice. -/
def pairedBob : Server × String :=
  AddPlayer joinedAlice.1 "bob" (some 2) joinedAlice.1.matchmakingQueue.waitingPlayers.entries
    "g9" 20 21 22

/-- Then `AddPlayer("alice", conn 3)` before alice's first timer has fired:
alice waits again, under the fresh id "g2". -/
def rejoinedAlice : Server × String :=
  AddPlayer pairedBob.1 "alice" (some 3) pairedBob.1.matchmakingQueue.waitingPlayers.entries
    "g2" 30 31 32

/-- Then the timer of alice's first wait fires: `startMatchmakingTimeout("alice", "g1")`. -/
def staleTimeoutFired : Server :=
  startMatchmakingTimeout rejoinedAlice.1 "alice" "g1" 40 41 42

/-- An in-progress game whose `CurrentTurn` is `Empty`. -/
def emptyTurnGame : Game := { startedGame with CurrentTurn := Empty }

/-- Only the top cell of column 0 is free; a Player1 disc there makes no four in a row. -/
def lastCellDrawGame : Game :=
  { startedGame with
    Board := Grid.ofRows
      [[0, 1, 2, 2, 1, 1, 2],
       [2, 2, 1, 1, 2, 2, 1],
       [1, 1, 2, 2, 1, 1, 2],
       [2, 2, 1, 1, 2, 2, 1],
       [1, 1, 2, 2, 1, 1, 2],
       [2, 2, 1, 1, 2, 2, 1]] }

/-- Only the top cell of column 0 is free; a Player1 disc there completes a
vertical four in column 0. -/
def lastCellWinGame : Game :=
  { startedGame with
    Board := Grid.ofRows
      [[0, 1, 2, 2, 1, 1, 2],
       [1, 2, 1, 1, 2, 2, 1],
       [1, 1, 2, 2, 1, 1, 2],
       [1, 2, 1, 1, 2, 2, 1],
       [2, 1, 2, 2, 1, 1, 2],
       [2, 2, 1, 1, 2, 2, 1]] }

/-- A finished game between `p1` and `p2` with the given outcome. -/
def finishedGame (id p1 p2 : String) (winner : Player) (isDraw : Bool) : Game :=
  { StartGame (NewGame id p1 100) p2 200 with
    State := Finished, Winner := winner, IsDraw := isDraw, EndedAt := some 900 }

/-- A registry with one active game and three completed ones: alice beat bob
as Player1 and as Player2, and alice and carol drew. -/
def sampleRegistry : GameManager :=
  { games := { entries := [("g4", StartGame (NewGame "g4" "bob" 100) "carol" 200)] }
    completedGames :=
      { entries :=
          [("g1", finishedGame "g1" "alice" "bob" Player1 false),
           ("g2", finishedGame "g2" "bob" "alice" Player2 false),
           ("g3", finishedGame "g3" "alice" "carol" Empty true)] } }

/-- An in-progress game of alice (connection 1) and bob (connection 2) whose
last move was made at second 5. -/
def watchedGame : Game :=
  { StartGame (NewGame "g7" "alice" 0) "bob" (5 * Second) with
    Player1Conn := some 1, Player2Conn := some 2 }

/-- The initial state with `watchedGame` registered. -/
def watchedServer : Server :=
  { Server.init with gameManager := NewGameManager.AddGame watchedGame }

/-- An event of the given type for game "g1". -/
def sampleEvent (eventType winner : String) (stamp : Time) : Event :=
  { EventType := eventType, GameID := "g1", Player1 := "alice", Player2 := "bob", Player := "",
    Column := 0, Winner := winner, IsDraw := false, Timestamp := stamp }

/-- A game that starts, sees one move and ends with alice as the winner. -/
def sampleEvents : List Event :=
  [sampleEvent "GAME_STARTED" "" 1, sampleEvent "MOVE_MADE" "" 2,
   sampleEvent "GAME_ENDED" "alice" 3]

/-! ## The counting loops of `checkWin` -/

theorem countLoop_acc (cond : Int → Int → Bool) (dr dc : Int) :
    ∀ (n : Nat) (r c : Int) (count : Nat),
      countLoop cond dr dc n r c count = count + countLoop cond dr dc n r c 0 := by
  intro n
  induction n with
  | zero => intro r c count; simp [countLoop]
  | succ n ih =>
    intro r c count
    simp only [countLoop]
    split
    · rw [ih (r + dr) (c + dc) (count + 1), ih (r + dr) (c + dc) (0 + 1)]; omega
    · rfl

/-- Once the variant is covered, further iterations of the bound change nothing:
the loop has left through its condition. -/
theorem countLoop_stable (cond : Int → Int → Bool) (dr dc : Int) (rank : Int → Int → Nat)
    (hrank : ∀ r c, cond r c = true → rank (r + dr) (c + dc) < rank r c) :
    ∀ (n m : Nat) (r c : Int) (count : Nat), rank r c ≤ n → rank r c ≤ m →
      countLoop cond dr dc n r c count = countLoop cond dr dc m r c count := by
  intro n
  induction n with
  | zero =>
    intro m r c count hn hm
    have hc : cond r c ≠ true := fun h => by have := hrank r c h; omega
    cases m with
    | zero => rfl
    | succ m => simp only [countLoop, if_neg hc]
  | succ n ih =>
    intro m r c count hn hm
    by_cases hc : cond r c = true
    · have hr := hrank r c hc
      cases m with
      | zero => omega
      | succ m =>
        simp only [countLoop, if_pos hc]
        exact ih m (r + dr) (c + dc) (count + 1) (by omega) (by omega)
    · cases m with
      | zero => simp only [countLoop, if_neg hc]
      | succ m => simp only [countLoop, if_neg hc]

/-- The loop equation: entered with its variant, `countLoop` is the `for` loop it
models, on every input. -/
theorem countLoop_unroll (cond : Int → Int → Bool) (dr dc : Int) (rank : Int → Int → Nat)
    (hrank : ∀ r c, cond r c = true → rank (r + dr) (c + dc) < rank r c)
    (r c : Int) (count : Nat) :
    countLoop cond dr dc (rank r c) r c count =
      if cond r c = true then
        countLoop cond dr dc (rank (r + dr) (c + dc)) (r + dr) (c + dc) (count + 1)
      else count := by
  by_cases hc : cond r c = true
  · have hr := hrank r c hc
    rw [if_pos hc]
    obtain ⟨n, hn⟩ : ∃ n, rank r c = n + 1 := ⟨rank r c - 1, by omega⟩
    rw [hn]
    simp only [countLoop, if_pos hc]
    exact countLoop_stable cond dr dc rank hrank n _ _ _ _ (by omega) (le_refl _)
  · rw [if_neg hc]
    cases rank r c with
    | zero => rfl
    | succ n => simp only [countLoop, hc, Bool.false_eq_true, if_false]

theorem countLoop_ge_iff (cond : Int → Int → Bool) (dr dc : Int) (rank : Int → Int → Nat)
    (hrank : ∀ r c, cond r c = true → rank (r + dr) (c + dc) < rank r c) :
    ∀ (n : Nat) (r c : Int) (k : Nat), rank r c ≤ n →
      (k ≤ countLoop cond dr dc n r c 0 ↔
        ∀ i : Nat, i < k → cond (r + i * dr) (c + i * dc) = true) := by
  intro n
  induction n with
  | zero =>
    intro r c k hn
    have hc : cond r c ≠ true := fun h => by have := hrank r c h; omega
    simp only [countLoop]
    constructor
    · intro hk i hi; omega
    · intro h
      by_contra hk
      exact hc (by simpa using h 0 (by omega))
  | succ n ih =>
    intro r c k hn
    simp only [countLoop]
    by_cases hc : cond r c = true
    · rw [if_pos hc, countLoop_acc]
      have hr := hrank r c hc
      have ih' := ih (r + dr) (c + dc) (k - 1) (by omega)
      constructor
      · intro hk i hi
        rcases Nat.eq_zero_or_pos i with h0 | h0
        · subst h0; simpa using hc
        · have := ih'.1 (by omega) (i - 1) (by omega)
          have e : ((i - 1 : Nat) : Int) = (i : Int) - 1 := by omega
          rw [e] at this
          have e1 : r + dr + ((i : Int) - 1) * dr = r + i * dr := by ring
          have e2 : c + dc + ((i : Int) - 1) * dc = c + i * dc := by ring
          rw [e1, e2] at this
          exact this
      · intro h
        have : k - 1 ≤ countLoop cond dr dc n (r + dr) (c + dc) 0 := by
          apply ih'.2
          intro i hi
          have := h (i + 1) (by omega)
          have e1 : r + ((i + 1 : Nat) : Int) * dr = r + dr + i * dr := by push_cast; ring
          have e2 : c + ((i + 1 : Nat) : Int) * dc = c + dc + i * dc := by push_cast; ring
          rw [e1, e2] at this
          exact this
        omega
    · rw [if_neg hc]
      constructor
      · intro hk i hi; omega
      · intro h
        by_contra hk
        exact hc (by simpa using h 0 (by omega))

theorem axis_iff (ok : Int → Int → Prop) (row col dr dc br bc : Int) (B F : Nat)
    (hbr : br = -dr) (hbc : bc = -dc) (h0 : ok row col)
    (hB : ∀ k : Nat, k ≤ B ↔ ∀ i : Nat, i < k → ok (row + ((i : Int) + 1) * br) (col + ((i : Int) + 1) * bc))
    (hF : ∀ k : Nat, k ≤ F ↔ ∀ i : Nat, i < k → ok (row + ((i : Int) + 1) * dr) (col + ((i : Int) + 1) * dc)) :
    4 ≤ 1 + B + F ↔
      ∃ k : Fin 4, ∀ i : Fin 4,
        ok (row - (k.val : Int) * dr + (i.val : Int) * dr) (col - (k.val : Int) * dc + (i.val : Int) * dc) := by
  subst hbr hbc
  constructor
  · intro h
    refine ⟨⟨min B 3, by omega⟩, ?_⟩
    intro i
    have hBk := (hB (min B 3)).1 (by omega)
    have hFk := (hF (3 - min B 3)).1 (by omega)
    simp only
    rcases Nat.lt_trichotomy i.val (min B 3) with hlt | heq | hgt
    · have := hBk (min B 3 - i.val - 1) (by omega)
      have e : ((min B 3 - i.val - 1 : Nat) : Int) = ((min B 3 : Nat) : Int) - i.val - 1 := by omega
      rw [e] at this
      have e1 : row + (((min B 3 : Nat) : Int) - i.val - 1 + 1) * -dr
          = row - ((min B 3 : Nat) : Int) * dr + (i.val : Int) * dr := by ring
      have e2 : col + (((min B 3 : Nat) : Int) - i.val - 1 + 1) * -dc
          = col - ((min B 3 : Nat) : Int) * dc + (i.val : Int) * dc := by ring
      rw [e1, e2] at this
      exact this
    · rw [heq]
      have e1 : row - ((min B 3 : Nat) : Int) * dr + ((min B 3 : Nat) : Int) * dr = row := by ring
      have e2 : col - ((min B 3 : Nat) : Int) * dc + ((min B 3 : Nat) : Int) * dc = col := by ring
      rw [e1, e2]; exact h0
    · have hi := i.isLt
      have := hFk (i.val - min B 3 - 1) (by omega)
      have e : ((i.val - min B 3 - 1 : Nat) : Int) = (i.val : Int) - ((min B 3 : Nat) : Int) - 1 := by
        omega
      rw [e] at this
      have e1 : row + ((i.val : Int) - ((min B 3 : Nat) : Int) - 1 + 1) * dr
          = row - ((min B 3 : Nat) : Int) * dr + (i.val : Int) * dr := by ring
      have e2 : col + ((i.val : Int) - ((min B 3 : Nat) : Int) - 1 + 1) * dc
          = col - ((min B 3 : Nat) : Int) * dc + (i.val : Int) * dc := by ring
      rw [e1, e2] at this
      exact this
  · rintro ⟨k, hk⟩
    have hkl := k.isLt
    have h1 : k.val ≤ B := by
      apply (hB k.val).2
      intro i hi
      have := hk ⟨k.val - i - 1, by omega⟩
      simp only at this
      have e : ((k.val - i - 1 : Nat) : Int) = (k.val : Int) - i - 1 := by omega
      rw [e] at this
      have e1 : row - (k.val : Int) * dr + ((k.val : Int) - i - 1) * dr
          = row + ((i : Int) + 1) * -dr := by ring
      have e2 : col - (k.val : Int) * dc + ((k.val : Int) - i - 1) * dc
          = col + ((i : Int) + 1) * -dc := by ring
      rw [e1, e2] at this
      exact this
    have h2 : 3 - k.val ≤ F := by
      apply (hF (3 - k.val)).2
      intro i hi
      have := hk ⟨k.val + i + 1, by omega⟩
      simp only at this
      have e : ((k.val + i + 1 : Nat) : Int) = (k.val : Int) + i + 1 := by omega
      rw [e] at this
      have e1 : row - (k.val : Int) * dr + ((k.val : Int) + i + 1) * dr
          = row + ((i : Int) + 1) * dr := by ring
      have e2 : col - (k.val : Int) * dc + ((k.val : Int) + i + 1) * dc
          = col + ((i : Int) + 1) * dc := by ring
      rw [e1, e2] at this
      exact this
    omega

theorem loop_holds (b : Grid) (p : Player) (cond : Int → Int → Bool) (dr dc : Int)
    (rank : Int → Int → Nat)
    (hrank : ∀ r c, cond r c = true → rank (r + dr) (c + dc) < rank r c)
    (r0 c0 row col sr sc : Int)
    (hcell : ∀ i : Nat, cond (r0 + i * dr) (c0 + i * dc) = true ↔
      holds b p (row + ((i : Int) + 1) * sr) (col + ((i : Int) + 1) * sc))
    (n : Nat) (hn : rank r0 c0 ≤ n) (k : Nat) :
    k ≤ countLoop cond dr dc n r0 c0 0 ↔
      ∀ i : Nat, i < k → holds b p (row + ((i : Int) + 1) * sr) (col + ((i : Int) + 1) * sc) := by
  rw [countLoop_ge_iff cond dr dc rank hrank n r0 c0 k hn]
  constructor
  · intro h i hi; exact (hcell i).1 (h i hi)
  · intro h i hi; exact (hcell i).2 (h i hi)

theorem axis_check (b : Grid) (p : Player) (row col dr dc br bc : Int)
    (hbr : br = -dr) (hbc : bc = -dc) (h0 : holds b p row col)
    (condB condF : Int → Int → Bool) (rankB rankF : Int → Int → Nat)
    (hrankB : ∀ r c, condB r c = true → rankB (r + br) (c + bc) < rankB r c)
    (hrankF : ∀ r c, condF r c = true → rankF (r + dr) (c + dc) < rankF r c)
    (rB cB rF cF : Int)
    (hcellB : ∀ i : Nat, condB (rB + i * br) (cB + i * bc) = true ↔
      holds b p (row + ((i : Int) + 1) * br) (col + ((i : Int) + 1) * bc))
    (hcellF : ∀ i : Nat, condF (rF + i * dr) (cF + i * dc) = true ↔
      holds b p (row + ((i : Int) + 1) * dr) (col + ((i : Int) + 1) * dc))
    (nB nF : Nat) (hnB : rankB rB cB ≤ nB) (hnF : rankF rF cF ≤ nF) :
    countLoop condF dr dc nF rF cF (countLoop condB br bc nB rB cB 1) ≥ 4 ↔
      ∃ k : Fin 4, fourFrom b p (row - (k.val : Int) * dr) (col - (k.val : Int) * dc) (dr, dc) := by
  rw [countLoop_acc condF, countLoop_acc condB]
  have hB := loop_holds b p condB br bc rankB hrankB rB cB row col br bc hcellB nB hnB
  have hF := loop_holds b p condF dr dc rankF hrankF rF cF row col dr dc hcellF nF hnF
  have := axis_iff (holds b p) row col dr dc br bc _ _ hbr hbc h0 hB hF
  unfold fourFrom
  simp only [ge_iff_le]
  rw [this]

theorem toLow_step (i : Int) (h : i ≥ 0) : toLow (i + -1) < toLow i := by
  unfold toLow; omega

theorem toHigh_step (n : Nat) (i : Int) (h : i < n) : toHigh n (i + 1) < toHigh n i := by
  unfold toHigh; omega

theorem horizontal_check (b : Grid) (p : Player) (row col : Int) (h0 : holds b p row col) :
    countLoop (fun r c => decide (c < BoardWidth) && decide (b.get r c = p)) 0 1
        (toHigh BoardWidth (col + 1)) row (col + 1)
        (countLoop (fun r c => decide (c ≥ 0) && decide (b.get r c = p)) 0 (-1)
          (toLow (col - 1)) row (col - 1) 1) ≥ 4 ↔
      ∃ k : Fin 4, fourFrom b p (row - (k.val : Int) * 0) (col - (k.val : Int) * 1) (0, 1) := by
  have hb := h0.1
  simp only [inBounds, BoardHeight, BoardWidth, Nat.cast_ofNat] at hb
  refine axis_check b p row col 0 1 0 (-1) (by norm_num) rfl h0 _ _
    (fun _ c => toLow c) (fun _ c => toHigh BoardWidth c) ?_ ?_ row (col - 1) row (col + 1) ?_ ?_
    _ _ (le_refl _) (le_refl _)
  · intro r c h
    simp only [Bool.and_eq_true, decide_eq_true_eq] at h
    exact toLow_step c h.1
  · intro r c h
    simp only [Bool.and_eq_true, decide_eq_true_eq] at h
    exact toHigh_step _ c h.1
  · intro i
    have e1 : row + (i : Int) * 0 = row + ((i : Int) + 1) * 0 := by omega
    have e2 : col - 1 + (i : Int) * -1 = col + ((i : Int) + 1) * -1 := by omega
    simp only [e1, e2, holds, inBounds, Bool.and_eq_true, decide_eq_true_eq, BoardHeight,
      BoardWidth, Nat.cast_ofNat]
    constructor <;> rintro ⟨h1, h2⟩ <;> refine ⟨?_, h2⟩ <;> omega
  · intro i
    have e1 : row + (i : Int) * 0 = row + ((i : Int) + 1) * 0 := by omega
    have e2 : col + 1 + (i : Int) * 1 = col + ((i : Int) + 1) * 1 := by omega
    simp only [e1, e2, holds, inBounds, Bool.and_eq_true, decide_eq_true_eq, BoardHeight,
      BoardWidth, Nat.cast_ofNat]
    constructor <;> rintro ⟨h1, h2⟩ <;> refine ⟨?_, h2⟩ <;> omega

theorem vertical_check (b : Grid) (p : Player) (row col : Int) (h0 : holds b p row col) :
    countLoop (fun r c => decide (r < BoardHeight) && decide (b.get r c = p)) 1 0
        (toHigh BoardHeight (row + 1)) (row + 1) col
        (countLoop (fun r c => decide (r ≥ 0) && decide (b.get r c = p)) (-1) 0
          (toLow (row - 1)) (row - 1) col 1) ≥ 4 ↔
      ∃ k : Fin 4, fourFrom b p (row - (k.val : Int) * 1) (col - (k.val : Int) * 0) (1, 0) := by
  have hb := h0.1
  simp only [inBounds, BoardHeight, BoardWidth, Nat.cast_ofNat] at hb
  refine axis_check b p row col 1 0 (-1) 0 rfl (by norm_num) h0 _ _
    (fun r _ => toLow r) (fun r _ => toHigh BoardHeight r) ?_ ?_ (row - 1) col (row + 1) col ?_ ?_
    _ _ (le_refl _) (le_refl _)
  · intro r c h
    simp only [Bool.and_eq_true, decide_eq_true_eq] at h
    exact toLow_step r h.1
  · intro r c h
    simp only [Bool.and_eq_true, decide_eq_true_eq] at h
    exact toHigh_step _ r h.1
  · intro i
    have e1 : row - 1 + (i : Int) * -1 = row + ((i : Int) + 1) * -1 := by omega
    have e2 : col + (i : Int) * 0 = col + ((i : Int) + 1) * 0 := by omega
    simp only [e1, e2, holds, inBounds, Bool.and_eq_true, decide_eq_true_eq, BoardHeight,
      BoardWidth, Nat.cast_ofNat]
    constructor <;> rintro ⟨h1, h2⟩ <;> refine ⟨?_, h2⟩ <;> omega
  · intro i
    have e1 : row + 1 + (i : Int) * 1 = row + ((i : Int) + 1) * 1 := by omega
    have e2 : col + (i : Int) * 0 = col + ((i : Int) + 1) * 0 := by omega
    simp only [e1, e2, holds, inBounds, Bool.and_eq_true, decide_eq_true_eq, BoardHeight,
      BoardWidth, Nat.cast_ofNat]
    constructor <;> rintro ⟨h1, h2⟩ <;> refine ⟨?_, h2⟩ <;> omega

theorem diagonal_check (b : Grid) (p : Player) (row col : Int) (h0 : holds b p row col) :
    countLoop (fun r c => decide (r < BoardHeight) && decide (c < BoardWidth)
          && decide (b.get r c = p)) 1 1
        (toHigh BoardHeight (row + 1)) (row + 1) (col + 1)
        (countLoop (fun r c => decide (r ≥ 0) && decide (c ≥ 0) && decide (b.get r c = p))
          (-1) (-1) (toLow (row - 1)) (row - 1) (col - 1) 1) ≥ 4 ↔
      ∃ k : Fin 4, fourFrom b p (row - (k.val : Int) * 1) (col - (k.val : Int) * 1) (1, 1) := by
  have hb := h0.1
  simp only [inBounds, BoardHeight, BoardWidth, Nat.cast_ofNat] at hb
  refine axis_check b p row col 1 1 (-1) (-1) rfl rfl h0 _ _
    (fun r _ => toLow r) (fun r _ => toHigh BoardHeight r) ?_ ?_
    (row - 1) (col - 1) (row + 1) (col + 1) ?_ ?_ _ _ (le_refl _) (le_refl _)
  · intro r c h
    simp only [Bool.and_eq_true, decide_eq_true_eq] at h
    exact toLow_step r h.1.1
  · intro r c h
    simp only [Bool.and_eq_true, decide_eq_true_eq] at h
    exact toHigh_step _ r h.1.1
  · intro i
    have e1 : row - 1 + (i : Int) * -1 = row + ((i : Int) + 1) * -1 := by omega
    have e2 : col - 1 + (i : Int) * -1 = col + ((i : Int) + 1) * -1 := by omega
    simp only [e1, e2, holds, inBounds, Bool.and_eq_true, decide_eq_true_eq, BoardHeight,
      BoardWidth, Nat.cast_ofNat]
    constructor <;> rintro ⟨h1, h2⟩ <;> refine ⟨?_, h2⟩ <;> omega
  · intro i
    have e1 : row + 1 + (i : Int) * 1 = row + ((i : Int) + 1) * 1 := by omega
    have e2 : col + 1 + (i : Int) * 1 = col + ((i : Int) + 1) * 1 := by omega
    simp only [e1, e2, holds, inBounds, Bool.and_eq_true, decide_eq_true_eq, BoardHeight,
      BoardWidth, Nat.cast_ofNat]
    constructor <;> rintro ⟨h1, h2⟩ <;> refine ⟨?_, h2⟩ <;> omega

theorem antidiagonal_check (b : Grid) (p : Player) (row col : Int) (h0 : holds b p row col) :
    countLoop (fun r c => decide (r < BoardHeight) && decide (c ≥ 0)
          && decide (b.get r c = p)) 1 (-1)
        (toHigh BoardHeight (row + 1)) (row + 1) (col - 1)
        (countLoop (fun r c => decide (r ≥ 0) && decide (c < BoardWidth)
            && decide (b.get r c = p))
          (-1) 1 (toLow (row - 1)) (row - 1) (col + 1) 1) ≥ 4 ↔
      ∃ k : Fin 4, fourFrom b p (row - (k.val : Int) * 1) (col - (k.val : Int) * (-1)) (1, -1) := by
  have hb := h0.1
  simp only [inBounds, BoardHeight, BoardWidth, Nat.cast_ofNat] at hb
  refine axis_check b p row col 1 (-1) (-1) 1 rfl (by norm_num) h0 _ _
    (fun r _ => toLow r) (fun r _ => toHigh BoardHeight r) ?_ ?_
    (row - 1) (col + 1) (row + 1) (col - 1) ?_ ?_ _ _ (le_refl _) (le_refl _)
  · intro r c h
    simp only [Bool.and_eq_true, decide_eq_true_eq] at h
    exact toLow_step r h.1.1
  · intro r c h
    simp only [Bool.and_eq_true, decide_eq_true_eq] at h
    exact toHigh_step _ r h.1.1
  · intro i
    have e1 : row - 1 + (i : Int) * -1 = row + ((i : Int) + 1) * -1 := by omega
    have e2 : col + 1 + (i : Int) * 1 = col + ((i : Int) + 1) * 1 := by omega
    simp only [e1, e2, holds, inBounds, Bool.and_eq_true, decide_eq_true_eq, BoardHeight,
      BoardWidth, Nat.cast_ofNat]
    constructor <;> rintro ⟨h1, h2⟩ <;> refine ⟨?_, h2⟩ <;> omega
  · intro i
    have e1 : row + 1 + (i : Int) * 1 = row + ((i : Int) + 1) * 1 := by omega
    have e2 : col - 1 + (i : Int) * -1 = col + ((i : Int) + 1) * -1 := by omega
    simp only [e1, e2, holds, inBounds, Bool.and_eq_true, decide_eq_true_eq, BoardHeight,
      BoardWidth, Nat.cast_ofNat]
    constructor <;> rintro ⟨h1, h2⟩ <;> refine ⟨?_, h2⟩ <;> omega

/-- The four run counts of `checkWin` against the four-cell windows through the cell. -/
theorem checkWin_eq_true_iff (g : Game) (row col : Int) (p : Player)
    (hb : inBounds row col) (hp : g.Board.get row col = p) :
    checkWin g row col p = true ↔ fourThrough g.Board p row col := by
  have h0 : holds g.Board p row col := ⟨hb, hp⟩
  have hH := horizontal_check g.Board p row col h0
  have hV := vertical_check g.Board p row col h0
  have hD := diagonal_check g.Board p row col h0
  have hA := antidiagonal_check g.Board p row col h0
  unfold checkWin fourThrough
  simp only [axes, List.mem_cons, List.mem_singleton, List.mem_nil_iff, or_false,
    exists_eq_or_imp, exists_eq_left]
  rw [← hH, ← hV, ← hD, ← hA]
  split_ifs <;> simp_all

/-! ## The grid and the row search -/

theorem inBounds_iff (r c : Int) : inBounds r c ↔ 0 ≤ r ∧ r < 6 ∧ 0 ≤ c ∧ c < 7 := by
  simp only [inBounds, BoardHeight, BoardWidth, Nat.cast_ofNat]

theorem Grid.get_fin (b : Grid) (i : Fin BoardHeight) (j : Fin BoardWidth) :
    b.get i.val j.val = b i j := by
  have h : inBounds (i.val : Int) (j.val : Int) := by
    rw [inBounds_iff]; have hi := i.isLt; have hj := j.isLt
    simp only [BoardHeight, BoardWidth] at hi hj; omega
  unfold Grid.get
  rw [dif_pos h]
  congr 1

theorem Grid.get_outside (b : Grid) (r c : Int) (h : ¬ inBounds r c) : b.get r c = Empty := by
  unfold Grid.get; rw [dif_neg h]

theorem Grid.get_set (b : Grid) (r c : Int) (p : Player) (h : inBounds r c) (r' c' : Int) :
    (b.set r c p).get r' c' = if r' = r ∧ c' = c then p else b.get r' c' := by
  by_cases h' : inBounds r' c'
  · have hb := (inBounds_iff r' c').1 h'
    unfold Grid.get
    rw [dif_pos h', dif_pos h']
    unfold Grid.set
    have e1 : ((r'.toNat : Nat) : Int) = r' := by omega
    have e2 : ((c'.toNat : Nat) : Int) = c' := by omega
    simp only [e1, e2]
  · rw [Grid.get_outside _ _ _ h', Grid.get_outside _ _ _ h']
    have : ¬ (r' = r ∧ c' = c) := by
      rintro ⟨rfl, rfl⟩; exact h' h
    rw [if_neg this]

theorem Grid.get_set_same (b : Grid) (r c : Int) (p : Player) (h : inBounds r c) :
    (b.set r c p).get r c = p := by
  rw [Grid.get_set b r c p h]; simp

theorem Grid.get_zero (r c : Int) : Grid.zero.get r c = Empty := by
  unfold Grid.get Grid.zero; split <;> rfl

/-- The row search returns the lowest empty cell at or above its entry row, or `-1`. -/
theorem findRow_spec (b : Grid) (column : Int) :
    ∀ (n : Nat) (r : Int), -1 ≤ r → n = toLow r →
      (findRow b column n r = -1 ∧ ∀ r' : Int, 0 ≤ r' → r' ≤ r → b.get r' column ≠ Empty) ∨
      (0 ≤ findRow b column n r ∧ findRow b column n r ≤ r ∧
        b.get (findRow b column n r) column = Empty ∧
        ∀ r' : Int, findRow b column n r < r' → r' ≤ r → b.get r' column ≠ Empty) := by
  intro n
  induction n with
  | zero =>
    intro r hr hn
    unfold toLow at hn
    left
    refine ⟨rfl, ?_⟩
    intro r' h1 h2; omega
  | succ n ih =>
    intro r hr hn
    unfold toLow at hn
    have hr0 : r ≥ 0 := by omega
    simp only [findRow, if_pos hr0]
    by_cases he : b.get r column = Empty
    · rw [if_pos he]
      right
      refine ⟨hr0, le_refl _, he, ?_⟩
      intro r' h1 h2; omega
    · rw [if_neg he]
      rcases ih (r - 1) (by omega) (by unfold toLow; omega) with ⟨h1, h2⟩ | ⟨h1, h2, h3, h4⟩
      · left
        refine ⟨h1, ?_⟩
        intro r' h3 h4
        by_cases e : r' = r
        · rw [e]; exact he
        · exact h2 r' h3 (by omega)
      · right
        refine ⟨h1, by omega, h3, ?_⟩
        intro r' h5 h6
        by_cases e : r' = r
        · rw [e]; exact he
        · exact h4 r' h5 (by omega)

theorem isBoardFull_iff (g : Game) : isBoardFull g = true ↔ topRowFull g.Board := by
  unfold isBoardFull topRowFull
  simp only [List.all_eq_true, List.mem_range, decide_eq_true_eq]
  constructor
  · intro h c; exact h c.val c.isLt
  · intro h c hc; exact h ⟨c, hc⟩

theorem lowestEmpty_unique (b : Grid) (column r1 r2 : Int)
    (h1 : lowestEmpty b column r1) (h2 : lowestEmpty b column r2) : r1 = r2 := by
  obtain ⟨hb1, he1, hl1⟩ := h1
  obtain ⟨hb2, he2, hl2⟩ := h2
  rw [inBounds_iff] at hb1 hb2
  by_contra hne
  rcases lt_or_gt_of_ne hne with h | h
  · have := hl1 ⟨r2.toNat, by simp only [BoardHeight]; omega⟩ (by simp only []; omega)
    apply this
    have e : ((r2.toNat : Nat) : Int) = r2 := by omega
    simp only [e]; exact he2
  · have := hl2 ⟨r1.toNat, by simp only [BoardHeight]; omega⟩ (by simp only []; omega)
    apply this
    have e : ((r1.toNat : Nat) : Int) = r1 := by omega
    simp only [e]; exact he1

/-! ## The branches of `MakeMove` -/

theorem findRow_top (b : Grid) (column : Int) (hc : 0 ≤ column ∧ column < 7) :
    (landingRow b column = -1 ↔ columnFull b column) ∧
      (¬ columnFull b column → lowestEmpty b column (landingRow b column)) := by
  have e : toLow ((BoardHeight : Int) - 1) = 6 := by decide
  have h := findRow_spec b column (toLow ((BoardHeight : Int) - 1)) ((BoardHeight : Int) - 1)
    (by simp only [BoardHeight, Nat.cast_ofNat]; omega) rfl
  unfold landingRow
  simp only [BoardHeight, Nat.cast_ofNat] at h ⊢
  rcases h with ⟨h1, h2⟩ | ⟨h1, h2, h3, h4⟩
  · have hfull : columnFull b column := by
      intro r
      have := r.isLt
      simp only [BoardHeight] at this
      exact h2 r.val (by omega) (by omega)
    exact ⟨⟨fun _ => hfull, fun _ => h1⟩, fun hn => absurd hfull hn⟩
  · have hnot : ¬ columnFull b column := by
      intro hf
      have := hf ⟨(findRow b column (toLow (6 - 1)) (6 - 1)).toNat, by
        simp only [BoardHeight]; omega⟩
      apply this
      have e1 : (((findRow b column (toLow (6 - 1)) (6 - 1)).toNat : Nat) : Int)
          = findRow b column (toLow (6 - 1)) (6 - 1) := by omega
      simp only [e1]
      exact h3
    refine ⟨⟨fun hm => by omega, fun hf => absurd hf hnot⟩, fun _ => ?_⟩
    refine ⟨(inBounds_iff _ _).2 (by omega), h3, ?_⟩
    intro r hr
    have := r.isLt
    simp only [BoardHeight] at this
    exact h4 r.val hr (by omega)

/-- The game right after the disc is placed, before the win and draw checks. -/
theorem MakeMove_eq (g : Game) (column : Int) (player : Player) (tMove tEnd : Time) :
    MakeMove g column player tMove tEnd =
      if g.State ≠ InProgress then (g, some "game is not in progress")
      else if player ≠ g.CurrentTurn then (g, some "not your turn")
      else if column < 0 ∨ column ≥ 7 then (g, some "invalid column")
      else if columnFull g.Board column then (g, some "column is full")
      else if fourThrough (g.Board.set (landingRow g.Board column) column player) player
          (landingRow g.Board column) column then
        ({ g with Board := g.Board.set (landingRow g.Board column) column player,
                  LastMoveAt := tMove, State := Finished, Winner := player,
                  EndedAt := some tEnd }, none)
      else if topRowFull (g.Board.set (landingRow g.Board column) column player) then
        ({ g with Board := g.Board.set (landingRow g.Board column) column player,
                  LastMoveAt := tMove, State := Finished, IsDraw := true,
                  EndedAt := some tEnd }, none)
      else if g.CurrentTurn = Player1 then
        ({ g with Board := g.Board.set (landingRow g.Board column) column player,
                  LastMoveAt := tMove, CurrentTurn := Player2 }, none)
      else
        ({ g with Board := g.Board.set (landingRow g.Board column) column player,
                  LastMoveAt := tMove, CurrentTurn := Player1 }, none) := by
  unfold MakeMove
  by_cases h1 : g.State ≠ InProgress
  · rw [if_pos h1, if_pos h1]
  rw [if_neg h1, if_neg h1]
  by_cases h2 : player ≠ g.CurrentTurn
  · rw [if_pos h2, if_pos h2]
  rw [if_neg h2, if_neg h2]
  by_cases h3 : column < 0 ∨ column ≥ 7
  · rw [if_pos h3, if_pos (by simpa only [BoardWidth, Nat.cast_ofNat] using h3)]
  rw [if_neg h3, if_neg (by simpa only [BoardWidth, Nat.cast_ofNat] using h3)]
  have hc : 0 ≤ column ∧ column < 7 := by omega
  obtain ⟨hf1, hf2⟩ := findRow_top g.Board column hc
  have e : findRow g.Board column (toLow ((BoardHeight : Int) - 1)) ((BoardHeight : Int) - 1)
      = landingRow g.Board column := rfl
  simp only [e]
  by_cases h4 : columnFull g.Board column
  · rw [if_pos (hf1.2 h4), if_pos h4]
  rw [if_neg (fun h => h4 (hf1.1 h)), if_neg h4]
  have hlow := hf2 h4
  have hw := checkWin_eq_true_iff
    { g with Board := g.Board.set (landingRow g.Board column) column player, LastMoveAt := tMove }
    (landingRow g.Board column) column player hlow.1
    (Grid.get_set_same _ _ _ _ hlow.1)
  have hd := isBoardFull_iff
    { g with Board := g.Board.set (landingRow g.Board column) column player, LastMoveAt := tMove }
  simp only [] at hw hd
  by_cases h5 : fourThrough (g.Board.set (landingRow g.Board column) column player) player
      (landingRow g.Board column) column
  · rw [if_pos (hw.2 h5), if_pos h5]
  rw [if_neg (fun h => h5 (hw.1 h)), if_neg h5]
  by_cases h6 : topRowFull (g.Board.set (landingRow g.Board column) column player)
  · rw [if_pos (hd.2 h6), if_pos h6]
  rw [if_neg (fun h => h6 (hd.1 h)), if_neg h6]

theorem MakeMove_rejected (g : Game) (column : Int) (player : Player) (tMove tEnd : Time)
    (h : (MakeMove g column player tMove tEnd).2 ≠ none) :
    (MakeMove g column player tMove tEnd).1 = g := by
  rw [MakeMove_eq] at h ⊢
  split_ifs at h ⊢ <;> first | rfl | exact absurd rfl h

theorem MakeMove_error (g : Game) (column : Int) (player : Player) (tMove tEnd : Time) :
    (MakeMove g column player tMove tEnd).2 =
      if g.State ≠ InProgress then some "game is not in progress"
      else if player ≠ g.CurrentTurn then some "not your turn"
      else if column < 0 ∨ column ≥ 7 then some "invalid column"
      else if columnFull g.Board column then some "column is full"
      else none := by
  rw [MakeMove_eq]
  split_ifs <;> rfl

theorem MakeMove_ok (g : Game) (column : Int) (player : Player) (tMove tEnd : Time)
    (h : (MakeMove g column player tMove tEnd).2 = none) :
    g.State = InProgress ∧ player = g.CurrentTurn ∧ (0 ≤ column ∧ column < 7) ∧
    lowestEmpty g.Board column (landingRow g.Board column) ∧
    (MakeMove g column player tMove tEnd).1.Board
      = g.Board.set (landingRow g.Board column) column player ∧
    ((fourThrough (MakeMove g column player tMove tEnd).1.Board player
          (landingRow g.Board column) column ∧
        (MakeMove g column player tMove tEnd).1.State = Finished ∧
        (MakeMove g column player tMove tEnd).1.Winner = player ∧
        (MakeMove g column player tMove tEnd).1.IsDraw = g.IsDraw ∧
        (MakeMove g column player tMove tEnd).1.CurrentTurn = g.CurrentTurn) ∨
      (¬ fourThrough (MakeMove g column player tMove tEnd).1.Board player
          (landingRow g.Board column) column ∧
        topRowFull (MakeMove g column player tMove tEnd).1.Board ∧
        (MakeMove g column player tMove tEnd).1.State = Finished ∧
        (MakeMove g column player tMove tEnd).1.IsDraw = true ∧
        (MakeMove g column player tMove tEnd).1.Winner = g.Winner ∧
        (MakeMove g column player tMove tEnd).1.CurrentTurn = g.CurrentTurn) ∨
      (¬ fourThrough (MakeMove g column player tMove tEnd).1.Board player
          (landingRow g.Board column) column ∧
        ¬ topRowFull (MakeMove g column player tMove tEnd).1.Board ∧
        (MakeMove g column player tMove tEnd).1.State = InProgress ∧
        (MakeMove g column player tMove tEnd).1.Winner = g.Winner ∧
        (MakeMove g column player tMove tEnd).1.IsDraw = g.IsDraw ∧
        (MakeMove g column player tMove tEnd).1.CurrentTurn
          = if g.CurrentTurn = Player1 then Player2 else Player1)) := by
  rw [MakeMove_eq] at h ⊢
  by_cases h1 : g.State ≠ InProgress
  · rw [if_pos h1] at h; exact absurd h (by simp)
  rw [if_neg h1] at h ⊢
  by_cases h2 : player ≠ g.CurrentTurn
  · rw [if_pos h2] at h; exact absurd h (by simp)
  rw [if_neg h2] at h ⊢
  by_cases h3 : column < 0 ∨ column ≥ 7
  · rw [if_pos h3] at h; exact absurd h (by simp)
  rw [if_neg h3] at h ⊢
  by_cases h4 : columnFull g.Board column
  · rw [if_pos h4] at h; exact absurd h (by simp)
  rw [if_neg h4]
  have hc : 0 ≤ column ∧ column < 7 := by omega
  have hlow := (findRow_top g.Board column hc).2 h4
  refine ⟨not_not.1 h1, not_not.1 h2, hc, hlow, ?_, ?_⟩
  · split_ifs <;> rfl
  · by_cases h5 : fourThrough (g.Board.set (landingRow g.Board column) column player) player
        (landingRow g.Board column) column
    · left
      rw [if_pos h5]
      exact ⟨h5, rfl, rfl, rfl, rfl⟩
    · right
      rw [if_neg h5]
      by_cases h6 : topRowFull (g.Board.set (landingRow g.Board column) column player)
      · left
        rw [if_pos h6]
        exact ⟨h5, h6, rfl, rfl, rfl, rfl⟩
      · right
        rw [if_neg h6]
        by_cases h7 : g.CurrentTurn = Player1
        · rw [if_pos h7, if_pos h7]
          exact ⟨h5, h6, not_not.1 h1, rfl, rfl, rfl⟩
        · rw [if_neg h7, if_neg h7]
          exact ⟨h5, h6, not_not.1 h1, rfl, rfl, rfl⟩

theorem countP_range_congr (p q : Nat → Bool) :
    ∀ n : Nat, (∀ i, i < n → q i = p i) → (List.range n).countP q = (List.range n).countP p := by
  intro n
  induction n with
  | zero => intro _; rfl
  | succ n ih =>
    intro h
    rw [List.range_succ, List.countP_append, List.countP_append,
      ih (fun i hi => h i (by omega))]
    simp only [List.countP_cons, List.countP_nil, h n (by omega)]

theorem countP_range_update (p q : Nat → Bool) (k : Nat) (hpk : p k = false) (hqk : q k = true)
    (hother : ∀ i, i ≠ k → q i = p i) :
    ∀ n : Nat, k < n → (List.range n).countP q = (List.range n).countP p + 1 := by
  intro n
  induction n with
  | zero => intro h; omega
  | succ n ih =>
    intro h
    rw [List.range_succ, List.countP_append, List.countP_append]
    by_cases hk : k = n
    · subst hk
      rw [countP_range_congr p q k (fun i hi => hother i (by omega))]
      simp [List.countP_cons, hpk, hqk]
    · rw [ih (by omega)]
      simp only [List.countP_cons, List.countP_nil, hother n (fun e => hk e.symm)]
      omega

/-! ## Occupied cells of a column -/

theorem occupied_set_le (b : Grid) (column row : Int) (player : Player)
    (hlow : lowestEmpty b column row) (c : Int) :
    occupied b c ≤ occupied (b.set row column player) c := by
  obtain ⟨hb, he, _⟩ := hlow
  have hb' := (inBounds_iff _ _).1 hb
  unfold occupied
  by_cases hc : c = column ∧ player ≠ Empty
  · obtain ⟨hc, hp⟩ := hc
    subst hc
    have := countP_range_update (fun (r : Nat) => decide (b.get (r : Int) c ≠ Empty))
      (fun (r : Nat) => decide ((b.set row c player).get (r : Int) c ≠ Empty)) row.toNat
      (by
        have e : ((row.toNat : Nat) : Int) = row := by omega
        simp only [e, he, ne_eq, not_true_eq_false, decide_False])
      (by
        have e : ((row.toNat : Nat) : Int) = row := by omega
        simp only [e, Grid.get_set_same b row c player hb, ne_eq, hp, not_false_eq_true,
          decide_True])
      (by
        intro i hi
        beta_reduce
        have hne : ¬ ((i : Int) = row ∧ c = c) := by omega
        rw [Grid.get_set b row c player hb, if_neg hne])
      BoardHeight (by simp only [BoardHeight]; omega)
    omega
  · apply le_of_eq
    symm
    apply countP_range_congr
    intro i _
    beta_reduce
    rw [Grid.get_set b row column player hb]
    by_cases hcell : (i : Int) = row ∧ c = column
    · rw [if_pos hcell]
      obtain ⟨h1, h2⟩ := hcell
      have hp : player = Empty := by
        by_contra hp; exact hc ⟨h2, hp⟩
      rw [h1, h2, he, hp]
    · rw [if_neg hcell]

theorem occupied_set_succ (b : Grid) (column row : Int) (player : Player)
    (hlow : lowestEmpty b column row) (hp : player ≠ Empty) :
    occupied (b.set row column player) column = occupied b column + 1 := by
  obtain ⟨hb, he, _⟩ := hlow
  have hb' := (inBounds_iff _ _).1 hb
  unfold occupied
  exact countP_range_update (fun (r : Nat) => decide (b.get (r : Int) column ≠ Empty))
    (fun (r : Nat) => decide ((b.set row column player).get (r : Int) column ≠ Empty)) row.toNat
    (by
      have e : ((row.toNat : Nat) : Int) = row := by omega
      simp only [e, he, ne_eq, not_true_eq_false, decide_False])
    (by
      have e : ((row.toNat : Nat) : Int) = row := by omega
      simp only [e, Grid.get_set_same b row column player hb, ne_eq, hp, not_false_eq_true,
        decide_True])
    (by
      intro i hi
      beta_reduce
      have hne : ¬ ((i : Int) = row ∧ column = column) := by omega
      rw [Grid.get_set b row column player hb, if_neg hne])
    BoardHeight (by simp only [BoardHeight]; omega)

/-! ## Invariants of reachable games -/

theorem not_hasFour_zero : ¬ hasFour Grid.zero := by
  rintro ⟨r, c, d, _, hne, _⟩
  exact hne (Grid.get_zero _ _)

theorem gravity_zero : gravity Grid.zero := by
  intro r r' c _ h
  exact absurd (Grid.get_zero _ _) h

theorem fourThrough_hasFour (b : Grid) (p : Player) (row col : Int) (hp : p ≠ Empty)
    (h : fourThrough b p row col) : hasFour b := by
  obtain ⟨d, hd, k, hfour⟩ := h
  have h0 := hfour ⟨0, by omega⟩
  simp only [Nat.cast_zero, zero_mul, add_zero] at h0
  obtain ⟨hb, hg⟩ := h0
  have hb' := (inBounds_iff _ _).1 hb
  refine ⟨⟨(row - (k.val : Int) * d.1).toNat, by simp only [BoardHeight]; omega⟩,
    ⟨(col - (k.val : Int) * d.2).toNat, by simp only [BoardWidth]; omega⟩, d, hd, ?_⟩
  have e1 : (((row - (k.val : Int) * d.1).toNat : Nat) : Int) = row - (k.val : Int) * d.1 := by
    omega
  have e2 : (((col - (k.val : Int) * d.2).toNat : Nat) : Int) = col - (k.val : Int) * d.2 := by
    omega
  simp only [e1, e2, hg]
  exact ⟨hp, hfour⟩

/-- A four in a row on the board after a write either passes through the written
cell or was on the board before. -/
theorem hasFour_set (b : Grid) (row col : Int) (p : Player) (hb : inBounds row col)
    (h : hasFour (b.set row col p)) (hold : ¬ hasFour b) :
    fourThrough (b.set row col p) p row col := by
  obtain ⟨r, c, d, hd, hne, hfour⟩ := h
  by_cases hex : ∃ i : Fin 4, (r.val : Int) + (i.val : Int) * d.1 = row ∧
      (c.val : Int) + (i.val : Int) * d.2 = col
  · obtain ⟨i, hi1, hi2⟩ := hex
    have hcell := (hfour i).2
    rw [hi1, hi2, Grid.get_set_same b row col p hb] at hcell
    rw [← hcell] at hfour
    refine ⟨d, hd, i, ?_⟩
    have e1 : row - (i.val : Int) * d.1 = (r.val : Int) := by omega
    have e2 : col - (i.val : Int) * d.2 = (c.val : Int) := by omega
    rw [e1, e2]
    exact hfour
  · exfalso
    apply hold
    have hsame : ∀ i : Fin 4,
        (b.set row col p).get ((r.val : Int) + (i.val : Int) * d.1)
            ((c.val : Int) + (i.val : Int) * d.2)
          = b.get ((r.val : Int) + (i.val : Int) * d.1) ((c.val : Int) + (i.val : Int) * d.2) := by
      intro i
      rw [Grid.get_set b row col p hb, if_neg (fun hc => hex ⟨i, hc⟩)]
    have h0 := hsame ⟨0, by omega⟩
    simp only [Nat.cast_zero, zero_mul, add_zero] at h0
    refine ⟨r, c, d, hd, ?_, ?_⟩
    · rw [← h0]; exact hne
    · intro i
      have := hfour i
      unfold holds at this ⊢
      rw [hsame i, h0] at this
      exact this

theorem gravity_set (b : Grid) (column row : Int) (p : Player) (hp : p ≠ Empty)
    (hlow : lowestEmpty b column row) (hg : gravity b) : gravity (b.set row column p) := by
  obtain ⟨hb, _, hbelow⟩ := hlow
  intro r r' c hlt hne
  rw [Grid.get_set b row column p hb] at hne ⊢
  by_cases h1 : (r'.val : Int) = row ∧ (c.val : Int) = column
  · rw [if_pos h1]; exact hp
  · rw [if_neg h1]
    by_cases h2 : (r.val : Int) = row ∧ (c.val : Int) = column
    · obtain ⟨h3, h4⟩ := h2
      rw [h4]
      exact hbelow r' (by omega)
    · rw [if_neg h2] at hne
      exact hg r r' c hlt hne

theorem Inv_start (id player1 player2 : String) (t0 t1 : Time) :
    Inv (StartGame (NewGame id player1 t0) player2 t1) := by
  refine ⟨Or.inl rfl, Or.inl rfl, fun _ => ⟨rfl, rfl, not_hasFour_zero⟩, ?_, gravity_zero⟩
  intro h
  have e : (StartGame (NewGame id player1 t0) player2 t1).State = InProgress := rfl
  rw [e] at h
  exact absurd h (by decide)

theorem Inv_step (g : Game) (column : Int) (player : Player) (tMove tEnd : Time)
    (hinv : Inv g) : Inv (MakeMove g column player tMove tEnd).1 := by
  by_cases h : (MakeMove g column player tMove tEnd).2 = none
  · obtain ⟨hturn, hstate, hprog, hfin, hgrav⟩ := hinv
    obtain ⟨hs, hp, hc, hlow, hboard, hcase⟩ := MakeMove_ok g column player tMove tEnd h
    obtain ⟨hw, hd, hno⟩ := hprog hs
    have hpne : player ≠ Empty := by
      rw [hp]; rcases hturn with e | e <;> rw [e] <;> decide
    have hgrav' : gravity (MakeMove g column player tMove tEnd).1.Board := by
      rw [hboard]; exact gravity_set g.Board column _ player hpne hlow hgrav
    rcases hcase with ⟨_, h1, h2, h3, h4⟩ | ⟨_, _, h1, h2, h3, h4⟩ | ⟨hn, _, h1, h2, h3, h4⟩
    · refine ⟨by rw [h4]; exact hturn, Or.inr h1, ?_, ?_, hgrav'⟩
      · intro e; rw [h1] at e; exact absurd e (by decide)
      · intro _; left; rw [h2, h3, hd]; exact ⟨hpne, rfl⟩
    · refine ⟨by rw [h4]; exact hturn, Or.inr h1, ?_, ?_, hgrav'⟩
      · intro e; rw [h1] at e; exact absurd e (by decide)
      · intro _; right; rw [h2, h3, hw]; exact ⟨rfl, rfl⟩
    · refine ⟨?_, Or.inl h1, ?_, ?_, hgrav'⟩
      · rw [h4]
        rcases hturn with e | e
        · right; rw [if_pos e]
        · left; rw [if_neg (by rw [e]; decide)]
      · intro _
        refine ⟨by rw [h2, hw], by rw [h3, hd], ?_⟩
        intro hfour
        apply hn
        rw [hboard] at hfour ⊢
        exact hasFour_set g.Board _ column player hlow.1 hfour hno
      · intro e; rw [h1] at e; exact absurd e (by decide)
  · rw [MakeMove_rejected g column player tMove tEnd h]
    exact hinv

theorem Reachable.inv {g : Game} (h : Reachable g) : Inv g := by
  induction h with
  | start id player1 player2 t0 t1 => exact Inv_start id player1 player2 t0 t1
  | move column player tMove tEnd _ ih => exact Inv_step _ column player tMove tEnd ih

theorem Reachable.play {g : Game} (h : Reachable g) (calls : List Call) :
    Reachable (play g calls) := by
  induction calls generalizing g with
  | nil => exact h
  | cons k ks ih => exact ih (Reachable.move k.column k.player k.tMove k.tEnd h)

/-! ## Claims about `checkWin` and single `MakeMove` calls -/

/-- C1: for every board, every in-range cell `(row, col)` and every player `p`
with `Board[row][col] = p`, `checkWin(row, col, p)` returns true if and only if
four consecutive in-bounds cells on one line (horizontal, vertical, or either
diagonal) include `(row, col)` and all hold `p`. -/
theorem checkWin_iff_four_in_line (g : Game) (row col : Int) (p : Player)
    (hb : inBounds row col) (hp : g.Board.get row col = p) :
    checkWin g row col p = true ↔ fourThrough g.Board p row col :=
  checkWin_eq_true_iff g row col p hb hp

theorem checkWin_iff_four_in_line_witness :
    inBounds 2 3 ∧ columnThreeGame.Board.get 2 3 = Player1 ∧
      checkWin columnThreeGame 2 3 Player1 = true ∧
      (checkWin columnThreeGame 2 3 Player1 = true ↔
        fourThrough columnThreeGame.Board Player1 2 3) :=
  ⟨by decide, by decide, by decide,
    checkWin_iff_four_in_line columnThreeGame 2 3 Player1 (by decide) (by decide)⟩

/-- C2, as stated, fails when the disc written is `Empty`: on an in-progress game
whose turn is `Empty`, `MakeMove(0, Empty)` returns no error and the number of
occupied cells of column 0 does not grow. -/
theorem MakeMove_empty_disc_no_growth :
    (MakeMove emptyTurnGame 0 Empty 300 301).2 = none ∧
      occupied (MakeMove emptyTurnGame 0 Empty 300 301).1.Board 0
        ≠ occupied emptyTurnGame.Board 0 + 1 := by
  decide

/-- C2 (amended): a call `MakeMove(column, player)` that returns no error writes
the disc to `(row, column)` where `row` is the largest row index whose cell in
that column was `Empty` before the call; that cell now holds `player`, every
other cell is unchanged, in no column does the number of occupied cells shrink,
and for `player ≠ Empty` it grows by exactly one in that column. -/
theorem MakeMove_places_in_lowest_empty (g : Game) (column : Int) (player : Player)
    (tMove tEnd : Time) (h : (MakeMove g column player tMove tEnd).2 = none) :
    ∃ row : Int, lowestEmpty g.Board column row ∧
      (MakeMove g column player tMove tEnd).1.Board.get row column = player ∧
      (∀ r c : Int, ¬ (r = row ∧ c = column) →
        (MakeMove g column player tMove tEnd).1.Board.get r c = g.Board.get r c) ∧
      (∀ c : Int, occupied g.Board c ≤ occupied (MakeMove g column player tMove tEnd).1.Board c) ∧
      (player ≠ Empty →
        occupied (MakeMove g column player tMove tEnd).1.Board column
          = occupied g.Board column + 1) := by
  obtain ⟨_, _, hc, hlow, hboard, _⟩ := MakeMove_ok g column player tMove tEnd h
  refine ⟨landingRow g.Board column, hlow, ?_, ?_, ?_, ?_⟩
  · rw [hboard]; exact Grid.get_set_same _ _ _ _ hlow.1
  · intro r c hne
    rw [hboard, Grid.get_set _ _ _ _ hlow.1, if_neg hne]
  · intro c
    rw [hboard]
    exact occupied_set_le g.Board column (landingRow g.Board column) player hlow c
  · intro hp
    rw [hboard]
    exact occupied_set_succ g.Board column (landingRow g.Board column) player hlow hp

theorem MakeMove_places_in_lowest_empty_witness :
    (MakeMove startedGame 3 Player1 300 301).2 = none ∧
    ∃ row : Int, lowestEmpty startedGame.Board 3 row ∧
      (MakeMove startedGame 3 Player1 300 301).1.Board.get row 3 = Player1 ∧
      (∀ r c : Int, ¬ (r = row ∧ c = 3) →
        (MakeMove startedGame 3 Player1 300 301).1.Board.get r c = startedGame.Board.get r c) ∧
      (∀ c : Int, occupied startedGame.Board c
        ≤ occupied (MakeMove startedGame 3 Player1 300 301).1.Board c) ∧
      (Player1 ≠ Empty →
        occupied (MakeMove startedGame 3 Player1 300 301).1.Board 3
          = occupied startedGame.Board 3 + 1) :=
  ⟨by decide, MakeMove_places_in_lowest_empty startedGame 3 Player1 300 301 (by decide)⟩

/-- C3: `MakeMove` returns the error of the first matching rule, in the order
'game is not in progress' (State ≠ InProgress), 'not your turn'
(player ≠ CurrentTurn), 'invalid column' (column < 0 or column ≥ 7),
'column is full' (none of the six cells of the column is Empty); it returns no
error exactly when none of the four rules matches. -/
theorem MakeMove_error_order (g : Game) (column : Int) (player : Player) (tMove tEnd : Time) :
    ((MakeMove g column player tMove tEnd).2 =
      if g.State ≠ InProgress then some "game is not in progress"
      else if player ≠ g.CurrentTurn then some "not your turn"
      else if column < 0 ∨ column ≥ 7 then some "invalid column"
      else if columnFull g.Board column then some "column is full"
      else none) ∧
    ((MakeMove g column player tMove tEnd).2 = none ↔
      ¬ g.State ≠ InProgress ∧ ¬ player ≠ g.CurrentTurn ∧ ¬ (column < 0 ∨ column ≥ 7) ∧
        ¬ columnFull g.Board column) := by
  refine ⟨MakeMove_error g column player tMove tEnd, ?_⟩
  rw [MakeMove_error]
  split_ifs <;> simp_all

/-- C4: if `MakeMove(column, player)` returns an error, the Game is left exactly
as it was (Board, CurrentTurn, State, Winner, IsDraw, LastMoveAt, EndedAt and
every other field). -/
theorem MakeMove_error_leaves_game (g : Game) (column : Int) (player : Player)
    (tMove tEnd : Time) (h : (MakeMove g column player tMove tEnd).2 ≠ none) :
    (MakeMove g column player tMove tEnd).1 = g :=
  MakeMove_rejected g column player tMove tEnd h

theorem MakeMove_error_leaves_game_witness :
    (MakeMove startedGame 3 Player2 300 301).2 = some "not your turn" ∧
      (MakeMove startedGame 3 Player2 300 301).1 = startedGame :=
  ⟨by decide, MakeMove_error_leaves_game startedGame 3 Player2 300 301 (by decide)⟩

/-- C5: when a successful `MakeMove(column, player)` places a disc that completes
four in a row of `player` through the new cell, afterwards State = Finished,
Winner = player, IsDraw is unchanged and CurrentTurn is not flipped, whether or
not the move also fills the board. -/
theorem MakeMove_win (g : Game) (column : Int) (player : Player) (tMove tEnd : Time) (row : Int)
    (h : (MakeMove g column player tMove tEnd).2 = none)
    (hrow : lowestEmpty g.Board column row)
    (hfour : fourThrough (MakeMove g column player tMove tEnd).1.Board player row column) :
    (MakeMove g column player tMove tEnd).1.State = Finished ∧
      (MakeMove g column player tMove tEnd).1.Winner = player ∧
      (MakeMove g column player tMove tEnd).1.IsDraw = g.IsDraw ∧
      (MakeMove g column player tMove tEnd).1.CurrentTurn = g.CurrentTurn := by
  obtain ⟨_, _, _, hlow, _, hcase⟩ := MakeMove_ok g column player tMove tEnd h
  have e := lowestEmpty_unique g.Board column _ _ hrow hlow
  rw [e] at hfour
  rcases hcase with ⟨_, h1, h2, h3, h4⟩ | ⟨hn, _⟩ | ⟨hn, _⟩
  · exact ⟨h1, h2, h3, h4⟩
  · exact absurd hfour hn
  · exact absurd hfour hn

theorem MakeMove_win_witness :
    (MakeMove lastCellWinGame 0 Player1 300 301).2 = none ∧
      lowestEmpty lastCellWinGame.Board 0 0 ∧
      topRowFull (MakeMove lastCellWinGame 0 Player1 300 301).1.Board ∧
      ((MakeMove lastCellWinGame 0 Player1 300 301).1.State = Finished ∧
        (MakeMove lastCellWinGame 0 Player1 300 301).1.Winner = Player1 ∧
        (MakeMove lastCellWinGame 0 Player1 300 301).1.IsDraw = lastCellWinGame.IsDraw ∧
        (MakeMove lastCellWinGame 0 Player1 300 301).1.CurrentTurn
          = lastCellWinGame.CurrentTurn) :=
  ⟨by decide, by decide, by decide,
    MakeMove_win lastCellWinGame 0 Player1 300 301 0 (by decide) (by decide) (by decide)⟩

/-- C6: when a successful `MakeMove(column, player)` places a disc that does not
complete four in a row and every cell of the top row is occupied afterwards,
then State = Finished, IsDraw = true, Winner is unchanged and CurrentTurn is
not flipped. -/
theorem MakeMove_draw (g : Game) (column : Int) (player : Player) (tMove tEnd : Time) (row : Int)
    (h : (MakeMove g column player tMove tEnd).2 = none)
    (hrow : lowestEmpty g.Board column row)
    (hno : ¬ fourThrough (MakeMove g column player tMove tEnd).1.Board player row column)
    (hfull : topRowFull (MakeMove g column player tMove tEnd).1.Board) :
    (MakeMove g column player tMove tEnd).1.State = Finished ∧
      (MakeMove g column player tMove tEnd).1.IsDraw = true ∧
      (MakeMove g column player tMove tEnd).1.Winner = g.Winner ∧
      (MakeMove g column player tMove tEnd).1.CurrentTurn = g.CurrentTurn := by
  obtain ⟨_, _, _, hlow, _, hcase⟩ := MakeMove_ok g column player tMove tEnd h
  have e := lowestEmpty_unique g.Board column _ _ hrow hlow
  rw [e] at hno
  rcases hcase with ⟨hf, _⟩ | ⟨_, _, h1, h2, h3, h4⟩ | ⟨_, hn, _⟩
  · exact absurd hf hno
  · exact ⟨h1, h2, h3, h4⟩
  · exact absurd hfull hn

theorem MakeMove_draw_witness :
    (MakeMove lastCellDrawGame 0 Player1 300 301).2 = none ∧
      lowestEmpty lastCellDrawGame.Board 0 0 ∧
      ((MakeMove lastCellDrawGame 0 Player1 300 301).1.State = Finished ∧
        (MakeMove lastCellDrawGame 0 Player1 300 301).1.IsDraw = true ∧
        (MakeMove lastCellDrawGame 0 Player1 300 301).1.Winner = lastCellDrawGame.Winner ∧
        (MakeMove lastCellDrawGame 0 Player1 300 301).1.CurrentTurn
          = lastCellDrawGame.CurrentTurn) :=
  ⟨by decide, by decide,
    MakeMove_draw lastCellDrawGame 0 Player1 300 301 0 (by decide) (by decide) (by decide)
      (by decide)⟩

/-! ## Claims about reachable games -/

theorem movers_not_in_progress (g : Game) (h : g.State ≠ InProgress) :
    ∀ calls : List Call, successfulMovers g calls = [] := by
  intro calls
  induction calls with
  | nil => rfl
  | cons k ks ih =>
    have he : (MakeMove g k.column k.player k.tMove k.tEnd).2 ≠ none := by
      rw [MakeMove_error, if_pos h]; simp
    have hg := MakeMove_rejected _ _ _ _ _ he
    simp only [successfulMovers, if_neg he, hg]
    exact ih

theorem otherPlayer_otherPlayer (p : Player) (h : p = Player1 ∨ p = Player2) :
    otherPlayer (otherPlayer p) = p := by
  rcases h with e | e <;> rw [e] <;> decide

/-- From a game that satisfies the invariants, the movers of the successful
calls alternate, starting with the player on turn. -/
theorem movers_alternate : ∀ (calls : List Call) (g : Game), Inv g → ∀ (k : Nat) (m : Player),
    (successfulMovers g calls)[k]? = some m →
      m = if k % 2 = 0 then g.CurrentTurn else otherPlayer g.CurrentTurn := by
  intro calls
  induction calls with
  | nil => intro g _ k m h; simp [successfulMovers] at h
  | cons c cs ih =>
    intro g hinv k m h
    have hinv' := Inv_step g c.column c.player c.tMove c.tEnd hinv
    by_cases hs : (MakeMove g c.column c.player c.tMove c.tEnd).2 = none
    · simp only [successfulMovers, if_pos hs] at h
      obtain ⟨_, hp, _, _, _, hcase⟩ := MakeMove_ok _ _ _ _ _ hs
      cases k with
      | zero =>
        simp only [List.getElem?_cons_zero, Option.some.injEq] at h
        rw [← h, hp]; simp
      | succ k =>
        simp only [List.getElem?_cons_succ] at h
        rcases hcase with ⟨_, h1, _⟩ | ⟨_, _, h1, _⟩ | ⟨_, _, _, _, _, h4⟩
        · rw [movers_not_in_progress _ (by rw [h1]; decide)] at h
          simp at h
        · rw [movers_not_in_progress _ (by rw [h1]; decide)] at h
          simp at h
        · have := ih _ hinv' k m h
          rw [this, h4]
          have e : (if g.CurrentTurn = Player1 then Player2 else Player1)
              = otherPlayer g.CurrentTurn := rfl
          rw [e, otherPlayer_otherPlayer _ hinv.1]
          rcases Nat.mod_two_eq_zero_or_one k with hk | hk
          · have hk' : (k + 1) % 2 = 1 := by omega
            rw [if_pos hk, if_neg (by omega)]
          · have hk' : (k + 1) % 2 = 0 := by omega
            rw [if_neg (by omega), if_pos hk']
    · simp only [successfulMovers, if_neg hs] at h
      rw [MakeMove_rejected _ _ _ _ _ hs] at h
      exact ih g hinv k m h

/-- A successful move from a game that satisfies the invariants took the win
branch exactly when the board afterwards contains a four in a row. -/
theorem win_iff_hasFour (g : Game) (column : Int) (player : Player) (tMove tEnd : Time)
    (hinv : Inv g) (h : (MakeMove g column player tMove tEnd).2 = none) :
    fourThrough (MakeMove g column player tMove tEnd).1.Board player
        (landingRow g.Board column) column ↔
      hasFour (MakeMove g column player tMove tEnd).1.Board := by
  obtain ⟨hs, hp, _, hlow, hboard, _⟩ := MakeMove_ok g column player tMove tEnd h
  have hpne : player ≠ Empty := by
    rw [hp]; rcases hinv.1 with e | e <;> rw [e] <;> decide
  constructor
  · exact fourThrough_hasFour _ _ _ _ hpne
  · intro hfour
    rw [hboard] at hfour ⊢
    exact hasFour_set g.Board _ column player hlow.1 hfour (hinv.2.2.1 hs).2.2

/-- C7: from `NewGame` followed by `StartGame` the turn is Player1; in every
reachable game a successful call that neither wins nor draws hands the turn to
the other of Player1/Player2 and leaves State = InProgress, and a rejected or
terminal call leaves CurrentTurn unchanged; hence the k-th successful move
(counting from 1) is made by Player1 when k is odd and by Player2 when k is even. -/
theorem turns_alternate :
    (∀ (id player1 player2 : String) (t0 t1 : Time),
      (StartGame (NewGame id player1 t0) player2 t1).CurrentTurn = Player1) ∧
    (∀ g : Game, Reachable g → ∀ (column : Int) (player : Player) (tMove tEnd : Time),
      ((MakeMove g column player tMove tEnd).2 = none →
        ¬ hasFour (MakeMove g column player tMove tEnd).1.Board →
        ¬ topRowFull (MakeMove g column player tMove tEnd).1.Board →
          (MakeMove g column player tMove tEnd).1.State = InProgress ∧
          ((g.CurrentTurn = Player1 ∧
              (MakeMove g column player tMove tEnd).1.CurrentTurn = Player2) ∨
            (g.CurrentTurn = Player2 ∧
              (MakeMove g column player tMove tEnd).1.CurrentTurn = Player1))) ∧
      ((MakeMove g column player tMove tEnd).2 ≠ none ∨
          hasFour (MakeMove g column player tMove tEnd).1.Board ∨
          topRowFull (MakeMove g column player tMove tEnd).1.Board →
        (MakeMove g column player tMove tEnd).1.CurrentTurn = g.CurrentTurn)) ∧
    (∀ (id player1 player2 : String) (t0 t1 : Time) (calls : List Call) (k : Nat) (m : Player),
      1 ≤ k →
      (successfulMovers (StartGame (NewGame id player1 t0) player2 t1) calls)[k - 1]? = some m →
        m = if k % 2 = 1 then Player1 else Player2) := by
  refine ⟨fun _ _ _ _ _ => rfl, ?_, ?_⟩
  · intro g hr column player tMove tEnd
    have hinv := hr.inv
    by_cases hs : (MakeMove g column player tMove tEnd).2 = none
    · obtain ⟨_, _, _, _, _, hcase⟩ := MakeMove_ok g column player tMove tEnd hs
      have hwin := win_iff_hasFour g column player tMove tEnd hinv hs
      rcases hcase with ⟨hf, _, _, _, h4⟩ | ⟨_, hfull, _, _, _, h4⟩ | ⟨hn, hnf, h1, _, _, h4⟩
      · exact ⟨fun _ hno _ => absurd (hwin.1 hf) hno, fun _ => h4⟩
      · exact ⟨fun _ _ hnf => absurd hfull hnf, fun _ => h4⟩
      · constructor
        · intro _ _ _
          refine ⟨h1, ?_⟩
          rcases hinv.1 with e | e
          · left; exact ⟨e, by rw [h4, if_pos e]⟩
          · right; exact ⟨e, by rw [h4, if_neg (by rw [e]; decide)]⟩
        · rintro (h | h | h)
          · exact absurd hs h
          · exact absurd (hwin.2 h) hn
          · exact absurd h hnf
    · constructor
      · intro h; exact absurd h hs
      · intro _; rw [MakeMove_rejected g column player tMove tEnd hs]
  · intro id player1 player2 t0 t1 calls k m hk h
    have := movers_alternate calls _ (Inv_start id player1 player2 t0 t1) (k - 1) m h
    rw [this]
    have e : (StartGame (NewGame id player1 t0) player2 t1).CurrentTurn = Player1 := rfl
    rw [e]
    rcases Nat.mod_two_eq_zero_or_one k with hk2 | hk2
    · rw [if_neg (by omega), if_neg (by omega)]; rfl
    · rw [if_pos (by omega), if_pos hk2]

theorem turns_alternate_witness :
    (MakeMove startedGame 3 Player1 300 301).1.CurrentTurn = Player2 ∧
      (MakeMove startedGame 3 Player2 300 301).1.CurrentTurn = startedGame.CurrentTurn ∧
      (successfulMovers startedGame
        [callOf 3 Player1, callOf 3 Player1, callOf 9 Player2, callOf 4 Player2,
          callOf 3 Player1])[3 - 1]? = some Player1 ∧
      Player1 = (if 3 % 2 = 1 then Player1 else Player2) :=
  ⟨((turns_alternate.2.1 startedGame (Reachable.start "g1" "alice" "bob" 100 200)
      3 Player1 300 301).1 (by decide) (by decide) (by decide)).2.elim (fun h => h.2)
      (fun h => absurd h.1 (by decide)),
    (turns_alternate.2.1 startedGame (Reachable.start "g1" "alice" "bob" 100 200)
      3 Player2 300 301).2 (Or.inl (by decide)),
    by decide,
    turns_alternate.2.2 "g1" "alice" "bob" 100 200
      [callOf 3 Player1, callOf 3 Player1, callOf 9 Player2, callOf 4 Player2, callOf 3 Player1]
      3 Player1 (by decide) (by decide)⟩

/-- C8: in every reachable game that is InProgress the board contains no four
consecutive same-player discs on any line; and a successful move finishes the
game with the mover as Winner exactly when the board after that move contains a
four in a row. -/
theorem four_detected_on_completing_move (g : Game) (hr : Reachable g) :
    (g.State = InProgress → ¬ hasFour g.Board) ∧
    (∀ (column : Int) (player : Player) (tMove tEnd : Time),
      (MakeMove g column player tMove tEnd).2 = none →
        (((MakeMove g column player tMove tEnd).1.State = Finished ∧
            (MakeMove g column player tMove tEnd).1.Winner = player) ↔
          hasFour (MakeMove g column player tMove tEnd).1.Board)) := by
  have hinv := hr.inv
  refine ⟨fun hs => (hinv.2.2.1 hs).2.2, ?_⟩
  intro column player tMove tEnd hs
  obtain ⟨hst, hp, _, _, _, hcase⟩ := MakeMove_ok g column player tMove tEnd hs
  have hwin := win_iff_hasFour g column player tMove tEnd hinv hs
  have hpne : player ≠ Empty := by
    rw [hp]; rcases hinv.1 with e | e <;> rw [e] <;> decide
  rcases hcase with ⟨hf, h1, h2, _⟩ | ⟨hn, _, _, _, h3, _⟩ | ⟨hn, _, h1, _⟩
  · exact ⟨fun _ => hwin.1 hf, fun _ => ⟨h1, h2⟩⟩
  · constructor
    · rintro ⟨_, hw⟩
      rw [h3, (hinv.2.2.1 hst).1] at hw
      exact absurd hw.symm hpne
    · intro h; exact absurd (hwin.2 h) hn
  · constructor
    · rintro ⟨hfin, _⟩
      rw [h1] at hfin
      exact absurd hfin (by decide)
    · intro h; exact absurd (hwin.2 h) hn

theorem four_detected_on_completing_move_witness :
    sixMovesGame.State = InProgress ∧
      (MakeMove sixMovesGame 3 Player1 300 301).2 = none ∧
      hasFour (MakeMove sixMovesGame 3 Player1 300 301).1.Board ∧
      ¬ hasFour sixMovesGame.Board ∧
      (((MakeMove sixMovesGame 3 Player1 300 301).1.State = Finished ∧
          (MakeMove sixMovesGame 3 Player1 300 301).1.Winner = Player1) ↔
        hasFour (MakeMove sixMovesGame 3 Player1 300 301).1.Board) :=
  ⟨by decide, by decide, by decide,
    (four_detected_on_completing_move sixMovesGame
      ((Reachable.start "g1" "alice" "bob" 100 200).play _)).1 (by decide),
    (four_detected_on_completing_move sixMovesGame
      ((Reachable.start "g1" "alice" "bob" 100 200).play _)).2 3 Player1 300 301 (by decide)⟩

/-- C9: in every reachable game, Winner ≠ Empty and IsDraw = true never hold
together; if State ≠ Finished then Winner = Empty and IsDraw = false; and if
State = Finished then exactly one of Winner ≠ Empty and IsDraw = true holds. -/
theorem winner_and_draw_exclusive (g : Game) (hr : Reachable g) :
    ¬ (g.Winner ≠ Empty ∧ g.IsDraw = true) ∧
    (g.State ≠ Finished → g.Winner = Empty ∧ g.IsDraw = false) ∧
    (g.State = Finished →
      (g.Winner ≠ Empty ∧ ¬ g.IsDraw = true) ∨ (¬ g.Winner ≠ Empty ∧ g.IsDraw = true)) := by
  obtain ⟨_, hstate, hprog, hfin, _⟩ := hr.inv
  have hnotfin : g.State ≠ Finished → g.Winner = Empty ∧ g.IsDraw = false := by
    intro h
    rcases hstate with e | e
    · exact ⟨(hprog e).1, (hprog e).2.1⟩
    · exact absurd e h
  have hfin' : g.State = Finished →
      (g.Winner ≠ Empty ∧ ¬ g.IsDraw = true) ∨ (¬ g.Winner ≠ Empty ∧ g.IsDraw = true) := by
    intro h
    rcases hfin h with ⟨h1, h2⟩ | ⟨h1, h2⟩
    · left; exact ⟨h1, by rw [h2]; decide⟩
    · right; exact ⟨fun hne => hne h1, h2⟩
  refine ⟨?_, hnotfin, hfin'⟩
  rintro ⟨hw, hd⟩
  by_cases h : g.State = Finished
  · rcases hfin' h with ⟨_, h2⟩ | ⟨h1, _⟩
    · exact h2 hd
    · exact h1 hw
  · exact hw (hnotfin h).1

theorem winner_and_draw_exclusive_witness :
    columnThreeGame.State = Finished ∧ columnThreeGame.Winner = Player1 ∧
      columnThreeGame.IsDraw = false ∧
      (¬ (columnThreeGame.Winner ≠ Empty ∧ columnThreeGame.IsDraw = true) ∧
        (columnThreeGame.State ≠ Finished →
          columnThreeGame.Winner = Empty ∧ columnThreeGame.IsDraw = false) ∧
        (columnThreeGame.State = Finished →
          (columnThreeGame.Winner ≠ Empty ∧ ¬ columnThreeGame.IsDraw = true) ∨
            (¬ columnThreeGame.Winner ≠ Empty ∧ columnThreeGame.IsDraw = true))) :=
  ⟨by decide, by decide, by decide,
    winner_and_draw_exclusive columnThreeGame
      ((Reachable.start "g1" "alice" "bob" 100 200).play _)⟩

theorem gravity_top (b : Grid) (hg : gravity b) (c : Int) (h0 : 0 ≤ c) (h7 : c < 7) :
    b.get 0 c ≠ Empty ↔ columnFull b c := by
  have e : ((c.toNat : Nat) : Int) = c := by omega
  constructor
  · intro h r
    by_cases hr : r.val = 0
    · rw [hr]; exact h
    · have := hg ⟨0, by decide⟩ r ⟨c.toNat, by simp only [BoardWidth]; omega⟩
        (by simp only []; omega)
      simp only [e, Nat.cast_zero] at this
      exact this h
  · intro h
    exact h ⟨0, by decide⟩

/-- C10: in every reachable game no disc floats above an empty cell, so the top
cell of a column is occupied exactly when all six cells of the column are; and
for an in-progress game, the player on turn and a column in [0,7), `MakeMove`
is rejected with 'column is full' exactly when `Board[0][column]` is occupied. -/
theorem column_full_iff_top_occupied (g : Game) (hr : Reachable g) :
    gravity g.Board ∧
    (∀ c : Int, 0 ≤ c → c < 7 → (g.Board.get 0 c ≠ Empty ↔ columnFull g.Board c)) ∧
    (g.State = InProgress → ∀ (column : Int) (tMove tEnd : Time), 0 ≤ column → column < 7 →
      ((MakeMove g column g.CurrentTurn tMove tEnd).2 = some "column is full" ↔
        g.Board.get 0 column ≠ Empty)) := by
  have hg := hr.inv.2.2.2.2
  refine ⟨hg, fun c h0 h7 => gravity_top g.Board hg c h0 h7, ?_⟩
  intro hs column tMove tEnd h0 h7
  rw [gravity_top g.Board hg column h0 h7, MakeMove_error,
    if_neg (by rw [hs]; decide), if_neg (by simp), if_neg (by omega)]
  by_cases hf : columnFull g.Board column
  · rw [if_pos hf]; simp [hf]
  · rw [if_neg hf]; simp [hf]

theorem column_full_iff_top_occupied_witness :
    fullColumnGame.State = InProgress ∧ fullColumnGame.CurrentTurn = Player1 ∧
      fullColumnGame.Board.get 0 3 ≠ Empty ∧
      (MakeMove fullColumnGame 3 Player1 300 301).2 = some "column is full" ∧
      (gravity fullColumnGame.Board ∧
        (∀ c : Int, 0 ≤ c → c < 7 →
          (fullColumnGame.Board.get 0 c ≠ Empty ↔ columnFull fullColumnGame.Board c)) ∧
        (fullColumnGame.State = InProgress →
          ∀ (column : Int) (tMove tEnd : Time), 0 ≤ column → column < 7 →
            ((MakeMove fullColumnGame column fullColumnGame.CurrentTurn tMove tEnd).2
                = some "column is full" ↔
              fullColumnGame.Board.get 0 column ≠ Empty))) :=
  ⟨by decide, by decide, by decide, by decide,
    column_full_iff_top_occupied fullColumnGame
      ((Reachable.start "g1" "alice" "bob" 100 200).play _)⟩

/-! ## Valid moves -/

theorem validLoop_spec (b : Grid) :
    ∀ (n : Nat) (c : Int) (valid : List Int), 0 ≤ c → n = toHigh BoardWidth c →
      ∃ tail : List Int, validLoop b n c valid = valid ++ tail ∧
        (∀ x : Int, x ∈ tail ↔ c ≤ x ∧ topEmpty b x) ∧ tail.Pairwise (· < ·) := by
  intro n
  induction n with
  | zero =>
    intro c valid hc hn
    unfold toHigh at hn
    simp only [BoardWidth, Nat.cast_ofNat] at hn
    refine ⟨[], by simp [validLoop], ?_, List.Pairwise.nil⟩
    intro x
    simp only [List.not_mem_nil, false_iff, topEmpty]
    omega
  | succ n ih =>
    intro c valid hc hn
    unfold toHigh at hn
    simp only [BoardWidth, Nat.cast_ofNat] at hn
    have hlt : c < 7 := by omega
    have hlt' : c < (BoardWidth : Int) := by simp only [BoardWidth, Nat.cast_ofNat]; exact hlt
    simp only [validLoop, if_pos hlt']
    by_cases he : b.get 0 c = Empty
    · rw [if_pos he]
      obtain ⟨tail, h1, h2, h3⟩ := ih (c + 1) (valid ++ [c]) (by omega)
        (by unfold toHigh; simp only [BoardWidth, Nat.cast_ofNat]; omega)
      refine ⟨c :: tail, by rw [h1]; simp, ?_, ?_⟩
      · intro x
        simp only [List.mem_cons, h2]
        constructor
        · rintro (rfl | ⟨h, ht⟩)
          · exact ⟨le_refl _, hc, hlt, he⟩
          · exact ⟨by omega, ht⟩
        · rintro ⟨h, ht⟩
          by_cases e : x = c
          · left; exact e
          · right; exact ⟨by omega, ht⟩
      · refine List.Pairwise.cons ?_ h3
        intro x hx
        have := (h2 x).1 hx
        omega
    · rw [if_neg he]
      obtain ⟨tail, h1, h2, h3⟩ := ih (c + 1) valid (by omega)
        (by unfold toHigh; simp only [BoardWidth, Nat.cast_ofNat]; omega)
      refine ⟨tail, h1, ?_, h3⟩
      intro x
      rw [h2]
      constructor
      · rintro ⟨h, ht⟩; exact ⟨by omega, ht⟩
      · rintro ⟨h, ht⟩
        refine ⟨?_, ht⟩
        by_contra hx
        have e : x = c := by omega
        rw [e] at ht
        exact he ht.2.2

theorem GetValidMoves_mem (g : Game) (c : Int) :
    c ∈ (GetValidMoves g).2 ↔ topEmpty g.Board c := by
  obtain ⟨tail, h1, h2, _⟩ := validLoop_spec g.Board (toHigh BoardWidth 0) 0 [] (le_refl _) rfl
  unfold GetValidMoves
  simp only [h1, List.nil_append, h2]
  constructor
  · rintro ⟨_, h⟩; exact h
  · intro h; exact ⟨h.1, h⟩

theorem GetValidMoves_sorted (g : Game) : (GetValidMoves g).2.Pairwise (· < ·) := by
  obtain ⟨tail, h1, _, h3⟩ := validLoop_spec g.Board (toHigh BoardWidth 0) 0 [] (le_refl _) rfl
  unfold GetValidMoves
  simp only [h1, List.nil_append]
  exact h3

theorem topRowFull_iff (b : Grid) : topRowFull b ↔ ∀ c : Int, ¬ topEmpty b c := by
  constructor
  · intro h c ⟨h0, h7, he⟩
    have := h ⟨c.toNat, by simp only [BoardWidth]; omega⟩
    have e : ((c.toNat : Nat) : Int) = c := by omega
    simp only [e] at this
    exact this he
  · intro h c he
    have hc := c.isLt
    simp only [BoardWidth] at hc
    exact h c.val ⟨by omega, by omega, he⟩

theorem GetValidMoves_nil_iff (g : Game) :
    (GetValidMoves g).2 = [] ↔ topRowFull g.Board := by
  rw [topRowFull_iff, List.eq_nil_iff_forall_not_mem]
  constructor
  · intro h c hc; exact h c ((GetValidMoves_mem g c).2 hc)
  · intro h c hc; exact h c ((GetValidMoves_mem g c).1 hc)

/-- C11: `GetValidMoves` returns exactly the columns `c` in `0..6` whose top
cell `Board[0][c]` is Empty, each once, in strictly ascending order; the result
is empty exactly when `isBoardFull` is true, and the call leaves the game as it was. -/
theorem GetValidMoves_spec (g : Game) :
    (∀ c : Int, c ∈ (GetValidMoves g).2 ↔ 0 ≤ c ∧ c < 7 ∧ g.Board.get 0 c = Empty) ∧
    (GetValidMoves g).2.Nodup ∧
    (GetValidMoves g).2.Pairwise (· < ·) ∧
    ((GetValidMoves g).2 = [] ↔ isBoardFull g = true) ∧
    (GetValidMoves g).1 = g := by
  refine ⟨fun c => GetValidMoves_mem g c, ?_, GetValidMoves_sorted g, ?_, rfl⟩
  · exact (GetValidMoves_sorted g).imp (fun h => ne_of_lt h)
  · rw [GetValidMoves_nil_iff, isBoardFull_iff]

/-! ## The bot -/

theorem clone_Board (g : Game) : (clone g).Board = g.Board := by
  funext i j
  fin_cases i <;> fin_cases j <;> rfl

theorem topEmpty_not_full (b : Grid) (c : Int) (h : topEmpty b c) : ¬ columnFull b c := by
  intro hf
  exact hf ⟨0, by decide⟩ h.2.2

theorem dropWins_iff (b : Grid) (p : Player) (c : Int) (hc : 0 ≤ c ∧ c < 7)
    (hf : ¬ columnFull b c) :
    dropWins b p c ↔ fourThrough (b.set (landingRow b c) c p) p (landingRow b c) c := by
  have hlow := (findRow_top b c hc).2 hf
  constructor
  · rintro ⟨r, hr, hfour⟩
    rw [lowestEmpty_unique b c _ _ hlow hr]
    exact hfour
  · intro hfour
    have hb := (inBounds_iff _ _).1 hlow.1
    refine ⟨⟨(landingRow b c).toNat, by simp only [BoardHeight]; omega⟩, ?_⟩
    have e : (((landingRow b c).toNat : Nat) : Int) = landingRow b c := by omega
    simp only [e]
    exact ⟨hlow, hfour⟩

theorem findWinningMoveLoop_fst (game : Game) (player : Player) :
    ∀ cols : List Int, (findWinningMoveLoop game player cols).1 = game := by
  intro cols
  induction cols with
  | nil => rfl
  | cons col rest ih =>
    simp only [findWinningMoveLoop]
    split_ifs
    · exact ih
    · rfl
    · exact ih

theorem findWinningMoveLoop_step (game : Game) (player : Player) (col : Int) (rest : List Int)
    (h : topEmpty game.Board col) :
    (findWinningMoveLoop game player (col :: rest)).2 =
      if dropWins game.Board player col then col
      else (findWinningMoveLoop game player rest).2 := by
  have hc : 0 ≤ col ∧ col < 7 := ⟨h.1, h.2.1⟩
  have hf := topEmpty_not_full _ _ h
  obtain ⟨h1, h2⟩ := findRow_top game.Board col hc
  have hlow := h2 hf
  have hne : landingRow game.Board col ≠ -1 := fun e => hf (h1.1 e)
  have e : findRow game.Board col (toLow ((BoardHeight : Int) - 1)) ((BoardHeight : Int) - 1)
      = landingRow game.Board col := rfl
  simp only [findWinningMoveLoop, clone_Board, e, if_neg hne]
  have hw := checkWin_eq_true_iff
    { clone game with Board := game.Board.set (landingRow game.Board col) col player }
    (landingRow game.Board col) col player hlow.1 (Grid.get_set_same _ _ _ _ hlow.1)
  simp only [] at hw
  have hdw := dropWins_iff game.Board player col hc hf
  by_cases hd : dropWins game.Board player col
  · rw [if_pos hd, if_pos (hw.2 (hdw.1 hd))]
  · rw [if_neg hd, if_neg (fun hcw => hd (hdw.2 (hw.1 hcw)))]

/-- The loop returns the first column of the list in which the drop wins, or `-1`. -/
theorem findWinningMoveLoop_snd (game : Game) (player : Player) :
    ∀ cols : List Int, (∀ c ∈ cols, topEmpty game.Board c) →
      ((findWinningMoveLoop game player cols).2 = -1 ∧
          ∀ c ∈ cols, ¬ dropWins game.Board player c) ∨
        (∃ pre post : List Int,
          cols = pre ++ (findWinningMoveLoop game player cols).2 :: post ∧
          dropWins game.Board player (findWinningMoveLoop game player cols).2 ∧
          ∀ x ∈ pre, ¬ dropWins game.Board player x) := by
  intro cols
  induction cols with
  | nil => intro _; left; exact ⟨rfl, fun c hc => absurd hc (List.not_mem_nil c)⟩
  | cons col rest ih =>
    intro hall
    have hcol := hall col (List.mem_cons_self _ _)
    rw [findWinningMoveLoop_step game player col rest hcol]
    by_cases hd : dropWins game.Board player col
    · rw [if_pos hd]
      right
      exact ⟨[], rest, rfl, hd, fun x hx => absurd hx (List.not_mem_nil x)⟩
    · rw [if_neg hd]
      rcases ih (fun c hc => hall c (List.mem_cons_of_mem _ hc)) with ⟨h1, h2⟩ | ⟨pre, post, h1, h2, h3⟩
      · left
        refine ⟨h1, ?_⟩
        intro c hc
        rcases List.mem_cons.1 hc with e | e
        · rw [e]; exact hd
        · exact h2 c e
      · right
        refine ⟨col :: pre, post, by rw [List.cons_append, ← h1], h2, ?_⟩
        intro x hx
        rcases List.mem_cons.1 hx with e | e
        · rw [e]; exact hd
        · exact h3 x e

theorem findWinningMove_fst (b : BotPlayer) (game : Game) (player : Player) :
    (findWinningMove b game player).1 = game :=
  findWinningMoveLoop_fst game player _

/-- The search returns `-1` when no valid column wins, and otherwise the smallest
valid column in which the drop wins. -/
theorem findWinningMove_snd (b : BotPlayer) (game : Game) (player : Player) :
    ((findWinningMove b game player).2 = -1 ∧
        ∀ c : Int, topEmpty game.Board c → ¬ dropWins game.Board player c) ∨
      (topEmpty game.Board (findWinningMove b game player).2 ∧
        dropWins game.Board player (findWinningMove b game player).2 ∧
        ∀ c : Int, topEmpty game.Board c → dropWins game.Board player c →
          (findWinningMove b game player).2 ≤ c) := by
  have hmem := GetValidMoves_mem game
  have hsorted := GetValidMoves_sorted game
  have e : findWinningMove b game player
      = findWinningMoveLoop game player (GetValidMoves game).2 := rfl
  rw [e]
  have key := findWinningMoveLoop_snd game player (GetValidMoves game).2
    (fun c hc => (hmem c).1 hc)
  generalize (findWinningMoveLoop game player (GetValidMoves game).2).2 = res at key ⊢
  generalize (GetValidMoves game).2 = valid at key hmem hsorted
  rcases key with ⟨h1, h2⟩ | ⟨pre, post, h1, h2, h3⟩
  · left
    exact ⟨h1, fun c hc => h2 c ((hmem c).2 hc)⟩
  · right
    have hin : res ∈ valid := by rw [h1]; simp
    refine ⟨(hmem _).1 hin, h2, ?_⟩
    intro c hc hd
    have hcin := (hmem c).2 hc
    rw [h1] at hcin hsorted
    rcases List.mem_append.1 hcin with hpre | hpost
    · exact absurd hd (h3 c hpre)
    · rcases List.mem_cons.1 hpost with e' | e'
      · rw [e']
      · have := (List.pairwise_append.1 hsorted).2.1
        exact le_of_lt ((List.pairwise_cons.1 this).1 c e')

theorem GetMove_fst (b : BotPlayer) (game : Game) : (GetMove b game).1 = game := by
  unfold GetMove
  simp only [findWinningMove_fst]
  split_ifs <;> rfl

theorem GetMove_snd (b : BotPlayer) (game : Game) :
    (GetMove b game).2 =
      if (findWinningMove b game Player2).2 ≠ -1 then (findWinningMove b game Player2).2
      else if (findWinningMove b game Player1).2 ≠ -1 then (findWinningMove b game Player1).2
      else if (GetValidMoves game).2.length > 0 then (GetValidMoves game).2.headD 0
      else -1 := by
  unfold GetMove
  simp only [findWinningMove_fst]
  split_ifs <;> rfl

theorem findWinningMove_nonneg (b : BotPlayer) (game : Game) (player : Player)
    (h : (findWinningMove b game player).2 ≠ -1) :
    topEmpty game.Board (findWinningMove b game player).2 ∧
      dropWins game.Board player (findWinningMove b game player).2 ∧
      ∀ c : Int, topEmpty game.Board c → dropWins game.Board player c →
        (findWinningMove b game player).2 ≤ c := by
  rcases findWinningMove_snd b game player with ⟨h1, _⟩ | h2
  · exact absurd h1 h
  · exact h2

theorem findWinningMove_eq_neg_one (b : BotPlayer) (game : Game) (player : Player) :
    (findWinningMove b game player).2 = -1 ↔
      ∀ c : Int, topEmpty game.Board c → ¬ dropWins game.Board player c := by
  constructor
  · intro h
    rcases findWinningMove_snd b game player with ⟨_, h2⟩ | ⟨h2, _⟩
    · exact h2
    · rw [h] at h2
      exact absurd h2.1 (by decide)
  · intro h
    rcases findWinningMove_snd b game player with ⟨h1, _⟩ | ⟨h2, h3, _⟩
    · exact h1
    · exact absurd h3 (h _ h2)

theorem headD_mem_valid (g : Game) (h : (GetValidMoves g).2.length > 0) :
    (GetValidMoves g).2.headD 0 ∈ (GetValidMoves g).2 := by
  generalize (GetValidMoves g).2 = valid at h
  cases valid with
  | nil => simp at h
  | cons v rest => simp

/-- Whatever `GetMove` returns is `-1` or a valid column. -/
theorem GetMove_mem (b : BotPlayer) (g : Game) (h : (GetMove b g).2 ≠ -1) :
    topEmpty g.Board (GetMove b g).2 := by
  rw [GetMove_snd] at h ⊢
  by_cases h2 : (findWinningMove b g Player2).2 ≠ -1
  · rw [if_pos h2]; exact (findWinningMove_nonneg b g Player2 h2).1
  · rw [if_neg h2] at h ⊢
    by_cases h1 : (findWinningMove b g Player1).2 ≠ -1
    · rw [if_pos h1]; exact (findWinningMove_nonneg b g Player1 h1).1
    · rw [if_neg h1] at h ⊢
      by_cases hl : (GetValidMoves g).2.length > 0
      · rw [if_pos hl]
        exact (GetValidMoves_mem g _).1 (headD_mem_valid g hl)
      · rw [if_neg hl] at h
        exact absurd rfl h

theorem GetMove_eq_neg_one (b : BotPlayer) (g : Game) :
    (GetMove b g).2 = -1 ↔ (GetValidMoves g).2 = [] := by
  constructor
  · intro h
    by_contra hne
    have hl : (GetValidMoves g).2.length > 0 := List.length_pos.2 hne
    rw [GetMove_snd] at h
    by_cases h2 : (findWinningMove b g Player2).2 ≠ -1
    · rw [if_pos h2] at h; exact h2 h
    · rw [if_neg h2] at h
      by_cases h1 : (findWinningMove b g Player1).2 ≠ -1
      · rw [if_pos h1] at h; exact h1 h
      · rw [if_neg h1, if_pos hl] at h
        have := (GetValidMoves_mem g _).1 (headD_mem_valid g hl)
        rw [h] at this
        exact absurd this.1 (by decide)
  · intro h
    by_contra hne
    have := GetMove_mem b g hne
    have hin := (GetValidMoves_mem g _).2 this
    rw [h] at hin
    exact absurd hin (List.not_mem_nil _)

/-- C19: when no valid column gives Player2 an immediate four in a row and some
valid column would complete four in a row for a Player1 disc dropped to its
lowest empty row, `GetMove` returns the smallest such column. -/
theorem GetMove_blocks (b : BotPlayer) (g : Game)
    (hno : ∀ c ∈ (GetValidMoves g).2, ¬ dropWins g.Board Player2 c)
    (hex : ∃ c ∈ (GetValidMoves g).2, dropWins g.Board Player1 c) :
    (GetMove b g).2 ∈ (GetValidMoves g).2 ∧ dropWins g.Board Player1 (GetMove b g).2 ∧
      ∀ c ∈ (GetValidMoves g).2, dropWins g.Board Player1 c → (GetMove b g).2 ≤ c := by
  have h2 : (findWinningMove b g Player2).2 = -1 :=
    (findWinningMove_eq_neg_one b g Player2).2
      (fun c hc => hno c ((GetValidMoves_mem g c).2 hc))
  have h1 : (findWinningMove b g Player1).2 ≠ -1 := by
    intro h
    obtain ⟨c, hc, hd⟩ := hex
    exact (findWinningMove_eq_neg_one b g Player1).1 h c ((GetValidMoves_mem g c).1 hc) hd
  obtain ⟨ht, hd, hmin⟩ := findWinningMove_nonneg b g Player1 h1
  rw [GetMove_snd, if_neg (by rw [h2]; simp), if_pos h1]
  exact ⟨(GetValidMoves_mem g _).2 ht, hd,
    fun c hc hdc => hmin c ((GetValidMoves_mem g c).1 hc) hdc⟩

theorem GetMove_blocks_witness :
    (GetMove NewBotPlayer blockGame).2 = 3 ∧
      ((GetMove NewBotPlayer blockGame).2 ∈ (GetValidMoves blockGame).2 ∧
        dropWins blockGame.Board Player1 (GetMove NewBotPlayer blockGame).2 ∧
        ∀ c ∈ (GetValidMoves blockGame).2, dropWins blockGame.Board Player1 c →
          (GetMove NewBotPlayer blockGame).2 ≤ c) :=
  ⟨by decide, GetMove_blocks NewBotPlayer blockGame (by decide) (by decide)⟩

/-- C20: `GetMove` returns -1 exactly when `GetValidMoves` is empty (the top row
is fully occupied); every other return value is a member of `GetValidMoves`, so
on an in-progress game with CurrentTurn = Player2 `MakeMove` does not reject it;
and when neither player has an immediately winning column the returned value is
the first and smallest element of `GetValidMoves`. -/
theorem GetMove_valid (b : BotPlayer) (g : Game) :
    ((GetMove b g).2 = -1 ↔ (GetValidMoves g).2 = []) ∧
    ((GetValidMoves g).2 = [] ↔ topRowFull g.Board) ∧
    ((GetMove b g).2 ≠ -1 → (GetMove b g).2 ∈ (GetValidMoves g).2) ∧
    (g.State = InProgress → g.CurrentTurn = Player2 → (GetMove b g).2 ≠ -1 →
      ∀ tMove tEnd : Time, (MakeMove g (GetMove b g).2 Player2 tMove tEnd).2 = none) ∧
    ((∀ c ∈ (GetValidMoves g).2,
        ¬ dropWins g.Board Player1 c ∧ ¬ dropWins g.Board Player2 c) →
      ∀ (v : Int) (rest : List Int), (GetValidMoves g).2 = v :: rest →
        (GetMove b g).2 = v ∧ ∀ c ∈ (GetValidMoves g).2, v ≤ c) := by
  refine ⟨GetMove_eq_neg_one b g, GetValidMoves_nil_iff g,
    fun h => (GetValidMoves_mem g _).2 (GetMove_mem b g h), ?_, ?_⟩
  · intro hs ht hne tMove tEnd
    have htop := GetMove_mem b g hne
    rw [MakeMove_error, if_neg (by rw [hs]; decide), if_neg (by rw [ht]; decide),
      if_neg (by have := htop.1; have := htop.2.1; omega),
      if_neg (topEmpty_not_full _ _ htop)]
  · intro hno v rest hv
    have h2 : (findWinningMove b g Player2).2 = -1 :=
      (findWinningMove_eq_neg_one b g Player2).2
        (fun c hc => (hno c ((GetValidMoves_mem g c).2 hc)).2)
    have h1 : (findWinningMove b g Player1).2 = -1 :=
      (findWinningMove_eq_neg_one b g Player1).2
        (fun c hc => (hno c ((GetValidMoves_mem g c).2 hc)).1)
    have hsorted := GetValidMoves_sorted g
    rw [GetMove_snd, if_neg (by rw [h2]; simp), if_neg (by rw [h1]; simp)]
    rw [hv] at hsorted ⊢
    refine ⟨by simp, ?_⟩
    intro c hc
    rcases List.mem_cons.1 hc with e | e
    · rw [e]
    · exact le_of_lt ((List.pairwise_cons.1 hsorted).1 c e)

theorem GetMove_valid_witness :
    (GetMove NewBotPlayer startedGame).2 = 0 ∧
      (GetMove NewBotPlayer lastCellDrawGame).2 = 0 ∧
      (MakeMove { startedGame with CurrentTurn := Player2 }
        (GetMove NewBotPlayer { startedGame with CurrentTurn := Player2 }).2
        Player2 300 301).2 = none :=
  ⟨((GetMove_valid NewBotPlayer startedGame).2.2.2.2 (by decide) 0 [1, 2, 3, 4, 5, 6]
      (by decide)).1,
    ((GetMove_valid NewBotPlayer lastCellDrawGame).2.2.2.2 (by decide) 0 [] (by decide)).1,
    (GetMove_valid NewBotPlayer { startedGame with CurrentTurn := Player2 }).2.2.2.1
      (by decide) (by decide) (by decide) 300 301⟩

/-- On an in-progress game without floating discs, a move of the player on turn
ends the game with the mover as Winner exactly in a valid column where the drop
wins, or where it fills the top row of a game whose Winner is already the mover. -/
theorem finishesWith_iff (g : Game) (c : Int) (p : Player) (tMove tEnd : Time)
    (hs : g.State = InProgress) (ht : g.CurrentTurn = p) (hg : gravity g.Board) :
    finishesWith g c p tMove tEnd ↔
      topEmpty g.Board c ∧
        (dropWins g.Board p c ∨
          (topRowFull (g.Board.set (landingRow g.Board c) c p) ∧ g.Winner = p)) := by
  unfold finishesWith
  rw [MakeMove_eq, if_neg (by rw [hs]; decide), if_neg (by rw [ht]; simp)]
  by_cases h3 : c < 0 ∨ c ≥ 7
  · rw [if_pos h3]
    simp only [hs]
    constructor
    · rintro ⟨h, _⟩; exact absurd h (by decide)
    · rintro ⟨⟨h0, h7, _⟩, _⟩; omega
  rw [if_neg h3]
  have hc : 0 ≤ c ∧ c < 7 := by omega
  have htop := gravity_top g.Board hg c hc.1 hc.2
  by_cases h4 : columnFull g.Board c
  · rw [if_pos h4]
    simp only [hs]
    constructor
    · rintro ⟨h, _⟩; exact absurd h (by decide)
    · rintro ⟨h, _⟩; exact absurd h4 (topEmpty_not_full _ _ h)
  rw [if_neg h4]
  have hte : topEmpty g.Board c := by
    refine ⟨hc.1, hc.2, ?_⟩
    by_contra hne
    exact h4 (htop.1 hne)
  have hdw := dropWins_iff g.Board p c hc h4
  by_cases h5 : fourThrough (g.Board.set (landingRow g.Board c) c p) p (landingRow g.Board c) c
  · rw [if_pos h5]
    exact ⟨fun _ => ⟨hte, Or.inl (hdw.2 h5)⟩, fun _ => ⟨rfl, rfl⟩⟩
  rw [if_neg h5]
  by_cases h6 : topRowFull (g.Board.set (landingRow g.Board c) c p)
  · rw [if_pos h6]
    constructor
    · rintro ⟨_, hw⟩; exact ⟨hte, Or.inr ⟨h6, hw⟩⟩
    · rintro ⟨_, hd | ⟨_, hw⟩⟩
      · exact absurd (hdw.1 hd) h5
      · exact ⟨rfl, hw⟩
  rw [if_neg h6]
  constructor
  · intro h
    have hfin : g.State = Finished := by
      split_ifs at h <;> exact h.1
    rw [hs] at hfin
    exact absurd hfin (by decide)
  · rintro ⟨_, hd | ⟨hf, _⟩⟩
    · exact absurd (hdw.1 hd) h5
    · exact absurd hf h6

/-- A drop that fills the top row went into the only valid column. -/
theorem only_valid_column (b : Grid) (c : Int) (p : Player) (hc : topEmpty b c)
    (hfull : topRowFull (b.set (landingRow b c) c p)) :
    ∀ c' : Int, topEmpty b c' → c' = c := by
  intro c' hc'
  by_contra hne
  have hlow := (findRow_top b c ⟨hc.1, hc.2.1⟩).2 (topEmpty_not_full _ _ hc)
  have := (topRowFull_iff _).1 hfull c'
  apply this
  refine ⟨hc'.1, hc'.2.1, ?_⟩
  rw [Grid.get_set b _ c p hlow.1, if_neg (fun h => hne h.2)]
  exact hc'.2.2

/-- C18, as stated, fails on a board with a floating disc: Player2 wins by
dropping into column 0, whose top cell is occupied, and `GetMove` returns
column 1, which does not finish the game. -/
theorem GetMove_misses_win_under_floating_disc :
    floatingGame.State = InProgress ∧ floatingGame.CurrentTurn = Player2 ∧
      finishesWith floatingGame 0 Player2 300 301 ∧
      (GetMove NewBotPlayer floatingGame).2 = 1 ∧
      ¬ finishesWith floatingGame (GetMove NewBotPlayer floatingGame).2 Player2 300 301 := by
  decide

/-- C18 (amended): for every in-progress game with CurrentTurn = Player2 whose
board has no disc above an empty cell, if some column `c` is such that
`MakeMove(c, Player2)` would finish the game with Winner = Player2, then
`GetMove` returns the smallest such column, `MakeMove` with the returned column
finishes the game with Winner = Player2, and `GetMove` leaves the game unchanged. -/
theorem GetMove_takes_win (b : BotPlayer) (g : Game) (tMove tEnd : Time)
    (hs : g.State = InProgress) (ht : g.CurrentTurn = Player2) (hg : gravity g.Board)
    (hex : ∃ c : Int, finishesWith g c Player2 tMove tEnd) :
    (∀ t t' : Time, finishesWith g (GetMove b g).2 Player2 t t') ∧
      (∀ c : Int, finishesWith g c Player2 tMove tEnd → (GetMove b g).2 ≤ c) ∧
      (GetMove b g).1 = g := by
  have hiff := fun (c : Int) (t t' : Time) => finishesWith_iff g c Player2 t t' hs ht hg
  have hne : (GetMove b g).2 ≠ -1 := by
    intro h
    obtain ⟨c, hc⟩ := hex
    have hv := (GetMove_eq_neg_one b g).1 h
    have := (GetValidMoves_mem g c).2 ((hiff c tMove tEnd).1 hc).1
    rw [hv] at this
    exact absurd this (List.not_mem_nil _)
  have hmem := GetMove_mem b g hne
  by_cases hwin : (findWinningMove b g Player2).2 ≠ -1
  · obtain ⟨h1, h2, h3⟩ := findWinningMove_nonneg b g Player2 hwin
    have hres : (GetMove b g).2 = (findWinningMove b g Player2).2 := by
      rw [GetMove_snd, if_pos hwin]
    rw [hres]
    refine ⟨fun t t' => (hiff _ t t').2 ⟨h1, Or.inl h2⟩, ?_, GetMove_fst b g⟩
    intro c hc
    obtain ⟨hct, hd | ⟨hfull, _⟩⟩ := (hiff c tMove tEnd).1 hc
    · exact h3 c hct hd
    · exact le_of_eq (only_valid_column g.Board c Player2 hct hfull _ h1)
  · have hnone := (findWinningMove_eq_neg_one b g Player2).1 (not_not.1 hwin)
    have honly : ∀ c : Int, finishesWith g c Player2 tMove tEnd →
        topEmpty g.Board c ∧ topRowFull (g.Board.set (landingRow g.Board c) c Player2) ∧
          g.Winner = Player2 := by
      intro c hc
      obtain ⟨hct, hd | ⟨hfull, hw⟩⟩ := (hiff c tMove tEnd).1 hc
      · exact absurd hd (hnone c hct)
      · exact ⟨hct, hfull, hw⟩
    refine ⟨?_, ?_, GetMove_fst b g⟩
    · intro t t'
      obtain ⟨c, hc⟩ := hex
      obtain ⟨hct, hfull, hw⟩ := honly c hc
      have e := only_valid_column g.Board c Player2 hct hfull _ hmem
      rw [e]
      exact (hiff c t t').2 ⟨hct, Or.inr ⟨hfull, hw⟩⟩
    · intro c hc
      obtain ⟨hct, hfull, _⟩ := honly c hc
      exact le_of_eq (only_valid_column g.Board c Player2 hct hfull _ hmem)

theorem GetMove_takes_win_witness :
    (GetMove NewBotPlayer sixMovesTurnTwo).2 = 4 ∧
      ((∀ t t' : Time, finishesWith sixMovesTurnTwo (GetMove NewBotPlayer sixMovesTurnTwo).2
          Player2 t t') ∧
        (∀ c : Int, finishesWith sixMovesTurnTwo c Player2 300 301 →
          (GetMove NewBotPlayer sixMovesTurnTwo).2 ≤ c) ∧
        (GetMove NewBotPlayer sixMovesTurnTwo).1 = sixMovesTurnTwo) :=
  ⟨by decide,
    GetMove_takes_win NewBotPlayer sixMovesTurnTwo 300 301 (by decide) (by decide) (by decide)
      ⟨4, by decide⟩⟩

/-! ## Example games -/

/-- The error and the board, turn, state, winner and draw flag after `MakeMove`
depend only on those fields of the game and on the column and player. -/
theorem MakeMove_sameCore (g g' : Game) (column : Int) (player : Player)
    (t1 t2 t3 t4 : Time) (h : sameCore g g') :
    (MakeMove g column player t1 t2).2 = (MakeMove g' column player t3 t4).2 ∧
      sameCore (MakeMove g column player t1 t2).1 (MakeMove g' column player t3 t4).1 := by
  obtain ⟨hb, ht, hs, hw, hd⟩ := h
  rw [MakeMove_eq, MakeMove_eq, ← hb, ← ht, ← hs]
  unfold sameCore
  split_ifs <;> simp_all

theorem play_sameCore : ∀ (calls : List Call) (g g' : Game), sameCore g g' →
    successfulMovers g calls = successfulMovers g' (calls.map Call.retimed) ∧
      sameCore (play g calls) (play g' (calls.map Call.retimed)) := by
  intro calls
  induction calls with
  | nil => intro g g' h; exact ⟨rfl, h⟩
  | cons k ks ih =>
    intro g g' h
    obtain ⟨h1, h2⟩ := MakeMove_sameCore g g' k.column k.player k.tMove k.tEnd 300 301 h
    obtain ⟨h3, h4⟩ := ih _ _ h2
    simp only [List.map_cons, successfulMovers, play, Call.retimed] at h3 h4 ⊢
    rw [h1, h3]
    exact ⟨rfl, h4⟩

set_option maxRecDepth 100000 in
theorem alternating_closed : ∀ a : Fin 7, ∀ b : Fin 7, a ≠ b →
    successfulMovers startedGame
        (alternatingCalls a.val b.val (fun _ => 300) (fun _ => 301))
      = [Player1, Player2, Player1, Player2, Player1, Player2, Player1] ∧
    (∀ n : Fin 7, 1 ≤ n.val →
      (play startedGame
        ((alternatingCalls a.val b.val (fun _ => 300) (fun _ => 301)).take n.val)).State
        = InProgress) ∧
    (play startedGame (alternatingCalls a.val b.val (fun _ => 300) (fun _ => 301))).State
      = Finished ∧
    (play startedGame (alternatingCalls a.val b.val (fun _ => 300) (fun _ => 301))).Winner
      = Player1 ∧
    (play startedGame (alternatingCalls a.val b.val (fun _ => 300) (fun _ => 301))).IsDraw
      = false := by
  decide!

theorem alternatingCalls_retimed (a b : Int) (tm te : Nat → Time) :
    (alternatingCalls a b tm te).map Call.retimed
      = alternatingCalls a b (fun _ => 300) (fun _ => 301) := rfl

theorem sameCore_started (id player1 player2 : String) (t0 t1 : Time) :
    sameCore (StartGame (NewGame id player1 t0) player2 t1) startedGame :=
  ⟨rfl, rfl, rfl, rfl, rfl⟩

/-- C12: for distinct columns `a` and `b` in [0,7), from `NewGame` followed by
`StartGame`, the seven moves a (Player1), b (Player2), a, b, a, b, a (Player1)
are all accepted, the game is InProgress after each of the first six, and after
the seventh State = Finished, Winner = Player1 and IsDraw = false. -/
theorem alternating_columns_win (a b : Int) (ha0 : 0 ≤ a) (ha7 : a < 7) (hb0 : 0 ≤ b)
    (hb7 : b < 7) (hne : a ≠ b) (id player1 player2 : String) (t0 t1 : Time)
    (tm te : Nat → Time) :
    successfulMovers (StartGame (NewGame id player1 t0) player2 t1)
        (alternatingCalls a b tm te)
      = [Player1, Player2, Player1, Player2, Player1, Player2, Player1] ∧
    (∀ n : Nat, 1 ≤ n → n ≤ 6 →
      (play (StartGame (NewGame id player1 t0) player2 t1)
        ((alternatingCalls a b tm te).take n)).State = InProgress) ∧
    (play (StartGame (NewGame id player1 t0) player2 t1) (alternatingCalls a b tm te)).State
      = Finished ∧
    (play (StartGame (NewGame id player1 t0) player2 t1) (alternatingCalls a b tm te)).Winner
      = Player1 ∧
    (play (StartGame (NewGame id player1 t0) player2 t1) (alternatingCalls a b tm te)).IsDraw
      = false := by
  have hcore := sameCore_started id player1 player2 t0 t1
  have ea : ((a.toNat : Nat) : Int) = a := by omega
  have eb : ((b.toNat : Nat) : Int) = b := by omega
  have hclosed := alternating_closed ⟨a.toNat, by omega⟩ ⟨b.toNat, by omega⟩
    (by intro h; have := congrArg Fin.val h; simp only [] at this; omega)
  simp only [ea, eb] at hclosed
  obtain ⟨c1, c2, c3, c4, c5⟩ := hclosed
  obtain ⟨h1, h2⟩ := play_sameCore (alternatingCalls a b tm te) _ _ hcore
  rw [alternatingCalls_retimed] at h1 h2
  obtain ⟨_, _, h2s, h2w, h2d⟩ := h2
  refine ⟨by rw [h1, c1], ?_, by rw [h2s, c3], by rw [h2w, c4], by rw [h2d, c5]⟩
  intro n hn1 hn6
  obtain ⟨_, _, _, h3s, _, _⟩ :=
    play_sameCore ((alternatingCalls a b tm te).take n) _ _ hcore
  rw [h3s, List.map_take, alternatingCalls_retimed]
  exact c2 ⟨n, by omega⟩ hn1

theorem alternating_columns_win_witness :
    (0 : Int) ≤ 3 ∧ (3 : Int) < 7 ∧ (0 : Int) ≤ 4 ∧ (4 : Int) < 7 ∧ (3 : Int) ≠ 4 ∧
      (play startedGame (alternatingCalls 3 4 (fun _ => 300) (fun _ => 301))).Winner
        = Player1 :=
  ⟨by decide, by decide, by decide, by decide, by decide,
    (alternating_columns_win 3 4 (by decide) (by decide) (by decide) (by decide) (by decide)
      "g1" "alice" "bob" 100 200 (fun _ => 300) (fun _ => 301)).2.2.2.1⟩

/-! ## Counting discs -/

theorem sum_range_update (f f' : Nat → Nat) (k : Nat) (hk : f' k = f k + 1)
    (hother : ∀ i, i ≠ k → f' i = f i) :
    ∀ n : Nat, k < n → ((List.range n).map f').sum = ((List.range n).map f).sum + 1 := by
  intro n
  induction n with
  | zero => intro h; omega
  | succ n ih =>
    intro h
    rw [List.range_succ, List.map_append, List.map_append, List.sum_append, List.sum_append]
    simp only [List.map_cons, List.map_nil, List.sum_cons, List.sum_nil, Nat.add_zero]
    by_cases e : k = n
    · subst e
      have : (List.range k).map f' = (List.range k).map f := by
        apply List.map_congr_left
        intro i hi
        exact hother i (by have := List.mem_range.1 hi; omega)
      rw [this, hk]; omega
    · rw [ih (by omega), hother n (fun h => e h.symm)]; omega

theorem occupied_le (b : Grid) (c : Int) : occupied b c ≤ 6 := by
  unfold occupied
  have h := List.countP_le_length (fun (r : Nat) => decide (b.get (r : Int) c ≠ Empty))
    (l := List.range BoardHeight)
  simpa using h

theorem occupied_set_other (b : Grid) (column row : Int) (player : Player)
    (hb : inBounds row column) (c : Int) (hc : c ≠ column) :
    occupied (b.set row column player) c = occupied b c := by
  unfold occupied
  apply countP_range_congr
  intro i _
  beta_reduce
  rw [Grid.get_set b row column player hb, if_neg (fun h => hc h.2)]

theorem discs_set (b : Grid) (column row : Int) (player : Player)
    (hlow : lowestEmpty b column row) (hp : player ≠ Empty) :
    discs (b.set row column player) = discs b + 1 := by
  have hb := (inBounds_iff _ _).1 hlow.1
  unfold discs
  have e : ((column.toNat : Nat) : Int) = column := by omega
  apply sum_range_update _ _ column.toNat
  · beta_reduce
    rw [e]
    exact occupied_set_succ b column row player hlow hp
  · intro i hi
    beta_reduce
    exact occupied_set_other b column row player hlow.1 _ (by omega)
  · simp only [BoardWidth]; omega

theorem discs_eq (b : Grid) :
    discs b = occupied b 0 + occupied b 1 + occupied b 2 + occupied b 3 + occupied b 4
      + occupied b 5 + occupied b 6 := by
  simp [discs, List.range_succ]
  omega

theorem discs_le (b : Grid) : discs b ≤ 42 := by
  rw [discs_eq]
  have h0 := occupied_le b 0
  have h1 := occupied_le b 1
  have h2 := occupied_le b 2
  have h3 := occupied_le b 3
  have h4 := occupied_le b 4
  have h5 := occupied_le b 5
  have h6 := occupied_le b 6
  omega

theorem occupied_eq_six_iff (b : Grid) (c : Int) : occupied b c = 6 ↔ columnFull b c := by
  unfold occupied columnFull
  have : (6 : Nat) = (List.range BoardHeight).length := by simp
  rw [this, List.countP_eq_length]
  simp only [List.mem_range, decide_eq_true_eq]
  constructor
  · intro h r; exact h r.val r.isLt
  · intro h r hr; exact h ⟨r, hr⟩

theorem discs_eq_42_iff (b : Grid) :
    discs b = 42 ↔ ∀ c : Fin BoardWidth, columnFull b c.val := by
  rw [discs_eq]
  have h0 := occupied_le b 0
  have h1 := occupied_le b 1
  have h2 := occupied_le b 2
  have h3 := occupied_le b 3
  have h4 := occupied_le b 4
  have h5 := occupied_le b 5
  have h6 := occupied_le b 6
  constructor
  · intro h c
    rw [← occupied_eq_six_iff]
    fin_cases c <;> simp only [Nat.cast_ofNat, Nat.cast_zero, Nat.cast_one] <;> omega
  · intro h
    have e0 := (occupied_eq_six_iff b _).2 (h ⟨0, by decide⟩)
    have e1 := (occupied_eq_six_iff b _).2 (h ⟨1, by decide⟩)
    have e2 := (occupied_eq_six_iff b _).2 (h ⟨2, by decide⟩)
    have e3 := (occupied_eq_six_iff b _).2 (h ⟨3, by decide⟩)
    have e4 := (occupied_eq_six_iff b _).2 (h ⟨4, by decide⟩)
    have e5 := (occupied_eq_six_iff b _).2 (h ⟨5, by decide⟩)
    have e6 := (occupied_eq_six_iff b _).2 (h ⟨6, by decide⟩)
    simp only [Nat.cast_ofNat, Nat.cast_zero, Nat.cast_one] at e0 e1 e2 e3 e4 e5 e6
    omega

theorem discs_42_allOccupied (b : Grid) (h : discs b = 42) : allOccupied b := by
  intro r c
  exact (discs_eq_42_iff b).1 h c r

theorem topRowFull_discs (b : Grid) (hg : gravity b) (h : topRowFull b) : discs b = 42 := by
  rw [discs_eq_42_iff]
  intro c
  have hc := c.isLt
  simp only [BoardWidth] at hc
  exact (gravity_top b hg c.val (by omega) (by omega)).1 (h c)

theorem not_topRowFull_zero : ¬ topRowFull Grid.zero := by
  intro h
  exact h ⟨0, by decide⟩ (Grid.get_zero _ _)

theorem InvEnd_start (id player1 player2 : String) (t0 t1 : Time) :
    InvEnd (StartGame (NewGame id player1 t0) player2 t1) := by
  have e : (StartGame (NewGame id player1 t0) player2 t1).State = InProgress := rfl
  refine ⟨?_, fun _ => not_topRowFull_zero, fun h => absurd rfl h⟩
  intro h
  rw [e] at h
  exact absurd h (by decide)

theorem InvEnd_step (g : Game) (column : Int) (player : Player) (tMove tEnd : Time)
    (hinv : Inv g) (hend : InvEnd g) : InvEnd (MakeMove g column player tMove tEnd).1 := by
  by_cases h : (MakeMove g column player tMove tEnd).2 = none
  · obtain ⟨hs, hp, _, _, _, hcase⟩ := MakeMove_ok g column player tMove tEnd h
    have hwin := win_iff_hasFour g column player tMove tEnd hinv h
    have hw : g.Winner = Empty := (hinv.2.2.1 hs).1
    rcases hcase with ⟨hf, h1, _, _, _⟩ | ⟨_, hfull, h1, _, h3, _⟩ | ⟨_, hnf, h1, h2, _, _⟩
    · refine ⟨fun _ => Or.inl (hwin.1 hf), ?_, fun _ => hwin.1 hf⟩
      intro e; rw [h1] at e; exact absurd e (by decide)
    · refine ⟨fun _ => Or.inr hfull, ?_, ?_⟩
      · intro e; rw [h1] at e; exact absurd e (by decide)
      · intro hne; rw [h3, hw] at hne; exact absurd rfl hne
    · refine ⟨?_, fun _ => hnf, ?_⟩
      · intro e; rw [h1] at e; exact absurd e (by decide)
      · intro hne; rw [h2, hw] at hne; exact absurd rfl hne
  · rw [MakeMove_rejected g column player tMove tEnd h]
    exact hend

theorem Reachable.invEnd {g : Game} (h : Reachable g) : InvEnd g := by
  induction h with
  | start id player1 player2 t0 t1 => exact InvEnd_start id player1 player2 t0 t1
  | move column player tMove tEnd hr ih => exact InvEnd_step _ column player tMove tEnd hr.inv ih

/-- Each successful call adds one disc. -/
theorem discs_play : ∀ (calls : List Call) (g : Game), Inv g →
    discs (play g calls).Board = discs g.Board + (successfulMovers g calls).length := by
  intro calls
  induction calls with
  | nil => intro g _; rfl
  | cons k ks ih =>
    intro g hinv
    have hinv' := Inv_step g k.column k.player k.tMove k.tEnd hinv
    simp only [play, successfulMovers]
    rw [ih _ hinv']
    by_cases h : (MakeMove g k.column k.player k.tMove k.tEnd).2 = none
    · obtain ⟨_, hp, _, hlow, hboard, _⟩ := MakeMove_ok g k.column k.player k.tMove k.tEnd h
      have hpne : k.player ≠ Empty := by
        rw [hp]; rcases hinv.1 with e | e <;> rw [e] <;> decide
      rw [if_pos h, hboard, discs_set g.Board k.column _ k.player hlow hpne]
      simp only [List.length_cons]
      omega
    · rw [if_neg h, MakeMove_rejected g k.column k.player k.tMove k.tEnd h]

theorem discs_zero : discs Grid.zero = 0 := by
  decide

/-- C13: from `NewGame` followed by `StartGame`, no sequence of calls contains
more than 42 successful moves; and when no call leaves a four in a row on the
board, the game is InProgress as long as fewer than 42 calls have succeeded, and
once 42 have succeeded all 42 cells are occupied, State = Finished,
IsDraw = true and Winner = Empty. -/
theorem full_board_is_draw (id player1 player2 : String) (t0 t1 : Time) (calls : List Call) :
    (successfulMovers (StartGame (NewGame id player1 t0) player2 t1) calls).length ≤ 42 ∧
    ((∀ n : Nat, n ≤ calls.length →
        ¬ hasFour (play (StartGame (NewGame id player1 t0) player2 t1) (calls.take n)).Board) →
      (∀ n : Nat, n ≤ calls.length →
        (successfulMovers (StartGame (NewGame id player1 t0) player2 t1) (calls.take n)).length
            < 42 →
          (play (StartGame (NewGame id player1 t0) player2 t1) (calls.take n)).State
            = InProgress) ∧
      ((successfulMovers (StartGame (NewGame id player1 t0) player2 t1) calls).length = 42 →
        allOccupied (play (StartGame (NewGame id player1 t0) player2 t1) calls).Board ∧
        (play (StartGame (NewGame id player1 t0) player2 t1) calls).State = Finished ∧
        (play (StartGame (NewGame id player1 t0) player2 t1) calls).IsDraw = true ∧
        (play (StartGame (NewGame id player1 t0) player2 t1) calls).Winner = Empty)) := by
  have hstart := Reachable.start id player1 player2 t0 t1
  have hcount : ∀ cs : List Call,
      discs (play (StartGame (NewGame id player1 t0) player2 t1) cs).Board
        = (successfulMovers (StartGame (NewGame id player1 t0) player2 t1) cs).length := by
    intro cs
    have := discs_play cs _ hstart.inv
    have e : (StartGame (NewGame id player1 t0) player2 t1).Board = Grid.zero := rfl
    rw [e, discs_zero] at this
    omega
  refine ⟨by rw [← hcount]; exact discs_le _, ?_⟩
  intro hno
  constructor
  · intro n hn hlt
    have hr := hstart.play (calls.take n)
    obtain ⟨hfin, _, _⟩ := hr.invEnd
    rcases hr.inv.2.1 with e | e
    · exact e
    · exfalso
      rcases hfin e with h4 | hfull
      · exact hno n hn h4
      · have := topRowFull_discs _ hr.inv.2.2.2.2 hfull
        rw [hcount] at this
        omega
  · intro h42
    have hr := hstart.play calls
    obtain ⟨_, hprog, hwin⟩ := hr.invEnd
    have hd : discs (play (StartGame (NewGame id player1 t0) player2 t1) calls).Board = 42 := by
      rw [hcount, h42]
    have hall := discs_42_allOccupied _ hd
    have hfull : topRowFull (play (StartGame (NewGame id player1 t0) player2 t1) calls).Board :=
      fun c => hall ⟨0, by decide⟩ c
    have hno4 : ¬ hasFour (play (StartGame (NewGame id player1 t0) player2 t1) calls).Board := by
      have := hno calls.length (le_refl _)
      rw [List.take_length] at this
      exact this
    have hfin : (play (StartGame (NewGame id player1 t0) player2 t1) calls).State = Finished := by
      rcases hr.inv.2.1 with e | e
      · exact absurd hfull (hprog e)
      · exact e
    have hw : (play (StartGame (NewGame id player1 t0) player2 t1) calls).Winner = Empty := by
      by_contra hne
      exact hno4 (hwin hne)
    refine ⟨hall, hfin, ?_, hw⟩
    rcases hr.inv.2.2.2.1 hfin with ⟨h1, _⟩ | ⟨_, h2⟩
    · exact absurd hw h1
    · exact h2

set_option maxRecDepth 100000 in
theorem full_board_is_draw_witness :
    (successfulMovers startedGame drawCalls).length = 42 ∧
      (∀ n : Nat, n ≤ drawCalls.length →
        ¬ hasFour (play startedGame (drawCalls.take n)).Board) ∧
      (allOccupied (play startedGame drawCalls).Board ∧
        (play startedGame drawCalls).State = Finished ∧
        (play startedGame drawCalls).IsDraw = true ∧
        (play startedGame drawCalls).Winner = Empty) :=
  ⟨by decide!, by decide!,
    ((full_board_is_draw "g1" "alice" "bob" 100 200 drawCalls).2 (by decide!)).2 (by decide!)⟩

/-! ## Matchmaking -/

theorem GoMap.find_eq_none_iff {α : Type} (m : GoMap α) (k : String) :
    m.find k = none ↔ ∀ e ∈ m.entries, e.1 ≠ k := by
  unfold GoMap.find
  simp only [Option.map_eq_none', List.find?_eq_none, decide_eq_true_eq]

theorem GoMap.find_delete_same {α : Type} (m : GoMap α) (k : String) :
    (m.delete k).find k = none := by
  rw [GoMap.find_eq_none_iff]
  intro e he
  unfold GoMap.delete at he
  simp only [List.mem_filter, decide_eq_true_eq] at he
  exact he.2

theorem GoMap.find_store_same {α : Type} (m : GoMap α) (k : String) (v : α) :
    (m.store k v).find k = some v := by
  unfold GoMap.find GoMap.store
  simp only [List.find?_append]
  have : (List.find? (fun e => decide (e.1 = k))
      (List.filter (fun e => decide (e.1 ≠ k)) m.entries)) = none := by
    simp only [List.find?_eq_none, List.mem_filter, decide_eq_true_eq]
    intro e he
    exact he.2
  rw [this]
  simp

theorem GoMap.delete_length_le {α : Type} (m : GoMap α) (k : String) :
    (m.delete k).entries.length ≤ m.entries.length := by
  unfold GoMap.delete
  exact List.length_filter_le _ _

theorem GoMap.mem_delete {α : Type} (m : GoMap α) (k : String) (e : String × α)
    (h : e ∈ (m.delete k).entries) : e ∈ m.entries := by
  unfold GoMap.delete at h
  exact (List.mem_filter.1 h).1

/-- A waiting entry of a queue with at most one entry is the whole queue. -/
theorem queue_singleton (s : Server) (hinv : QueueInv s) (u : String) (wp : WaitingPlayer)
    (h : s.matchmakingQueue.waitingPlayers.find u = some wp) :
    s.matchmakingQueue.waitingPlayers.entries = [(u, wp)] ∧ wp.Username = u := by
  obtain ⟨hlen, hkey⟩ := hinv
  unfold GoMap.find at h
  generalize s.matchmakingQueue.waitingPlayers.entries = es at h hlen hkey
  cases es with
  | nil => simp at h
  | cons e rest =>
    cases rest with
    | nil =>
      simp only [List.find?_cons, List.find?_nil] at h
      by_cases he : e.1 = u
      · simp only [he, decide_True, Option.map_some', Option.some.injEq] at h
        have hu := hkey e (List.mem_singleton.2 rfl)
        have : e = (u, wp) := by
          cases e with
          | mk a b => simp only at he h; rw [he, h]
        rw [this] at hu ⊢
        exact ⟨rfl, hu⟩
      · simp [he] at h
    | cons e' rest' => simp at hlen

theorem QueueInv_delete (s : Server) (hinv : QueueInv s) (k : String) :
    (s.matchmakingQueue.waitingPlayers.delete k).entries.length ≤ 1 ∧
      ∀ e ∈ (s.matchmakingQueue.waitingPlayers.delete k).entries, e.2.Username = e.1 :=
  ⟨le_trans (GoMap.delete_length_le _ _) hinv.1,
    fun e he => hinv.2 e (GoMap.mem_delete _ _ _ he)⟩

theorem AddPlayer_waiting (s : Server) (username : String) (conn : Option ConnRef)
    (order : List (String × WaitingPlayer)) (newID : String) (t1 t2 t3 : Time)
    (wp : WaitingPlayer) (h : s.matchmakingQueue.waitingPlayers.find username = some wp) :
    AddPlayer s username conn order newID t1 t2 t3 = (s, wp.GameID) := by
  unfold AddPlayer
  rw [h]

theorem QueueInv_AddPlayer (s : Server) (username : String) (conn : Option ConnRef)
    (order : List (String × WaitingPlayer)) (newID : String) (t1 t2 t3 : Time)
    (horder : order.Perm s.matchmakingQueue.waitingPlayers.entries) (hinv : QueueInv s) :
    QueueInv (AddPlayer s username conn order newID t1 t2 t3).1 := by
  cases hfind : s.matchmakingQueue.waitingPlayers.find username with
  | some wp => rw [AddPlayer_waiting _ _ _ _ _ _ _ _ wp hfind]; exact hinv
  | none =>
    unfold AddPlayer
    rw [hfind]
    cases hopp : order.find? fun e => decide (e.1 ≠ username) with
    | some e =>
      obtain ⟨otherUsername, otherPlayer⟩ := e
      exact QueueInv_delete s hinv otherUsername
    | none =>
      have hall : ∀ e ∈ s.matchmakingQueue.waitingPlayers.entries, e.1 = username := by
        intro e he
        have := List.find?_eq_none.1 hopp e (horder.mem_iff.2 he)
        simpa using this
      have hnone := (GoMap.find_eq_none_iff _ _).1 hfind
      have hempty : s.matchmakingQueue.waitingPlayers.entries = [] := by
        apply List.eq_nil_iff_forall_not_mem.2
        intro e he
        exact hnone e he (hall e he)
      simp only [QueueInv, GoMap.store, hempty, List.filter_nil, List.nil_append,
        List.length_singleton, le_refl, List.mem_singleton, forall_eq, and_self]

theorem QueueInv_timeout (s : Server) (username gameID : String) (t1 t2 t3 : Time)
    (hinv : QueueInv s) : QueueInv (startMatchmakingTimeout s username gameID t1 t2 t3) := by
  unfold startMatchmakingTimeout
  simp only []
  cases hfind : s.matchmakingQueue.waitingPlayers.find username with
  | some wp => exact QueueInv_delete s hinv username
  | none => exact hinv

theorem ServerReachable.queueInv {s : Server} (h : ServerReachable s) : QueueInv s := by
  induction h with
  | start s h0 => exact ⟨by rw [h0]; simp, by rw [h0]; simp⟩
  | addPlayer username conn order newID t1 t2 t3 horder _ ih =>
    exact QueueInv_AddPlayer _ username conn order newID t1 t2 t3 horder ih
  | timeout username gameID t1 t2 t3 _ ih => exact QueueInv_timeout _ username gameID t1 t2 t3 ih
  | removePlayer username _ ih => exact QueueInv_delete _ ih username
  | other gm ep _ ih => exact ih

/-- C14: in every reachable queue state in which `u1` waits with pre-allocated
game id `g` (the id `AddPlayer` returned to `u1` when it created the entry), a
call `AddPlayer(u2, conn)` with `u2 ≠ u1` returns `g`, removes `u1` from the
queue without adding `u2`, and registers a game with ID = g, Player1 = u1,
Player2 = u2, State = InProgress, CurrentTurn = Player1 and an empty board. -/
theorem pairing_uses_waiting_id (s : Server) (hr : ServerReachable s) (u1 u2 : String)
    (wp : WaitingPlayer) (conn : Option ConnRef) (order : List (String × WaitingPlayer))
    (newID : String) (t1 t2 t3 : Time)
    (hw : s.matchmakingQueue.waitingPlayers.find u1 = some wp) (hne : u2 ≠ u1)
    (horder : order.Perm s.matchmakingQueue.waitingPlayers.entries) :
    ((AddPlayer s u2 conn order newID t1 t2 t3).2 = wp.GameID ∧
      (AddPlayer s u2 conn order newID t1 t2 t3).1.matchmakingQueue.waitingPlayers.entries = [] ∧
      ∃ game : Game,
        (AddPlayer s u2 conn order newID t1 t2 t3).1.gameManager.games.find wp.GameID
          = some game ∧
        game.ID = wp.GameID ∧ game.Player1 = u1 ∧ game.Player2 = u2 ∧
        game.State = InProgress ∧ game.CurrentTurn = Player1 ∧ game.Board = Grid.zero) ∧
    (∀ (s0 : Server) (c0 : Option ConnRef) (order0 : List (String × WaitingPlayer))
        (id0 : String) (r1 r2 r3 : Time),
      s0.matchmakingQueue.waitingPlayers.entries = [] → order0 = [] →
        (AddPlayer s0 u1 c0 order0 id0 r1 r2 r3).2 = id0 ∧
        (AddPlayer s0 u1 c0 order0 id0 r1 r2 r3).1.matchmakingQueue.waitingPlayers.find u1
          = some { Username := u1, Conn := c0, GameID := id0, JoinedAt := r1 }) := by
  constructor
  · obtain ⟨hentries, huser⟩ := queue_singleton s hr.queueInv u1 wp hw
    have hfind : s.matchmakingQueue.waitingPlayers.find u2 = none := by
      rw [GoMap.find_eq_none_iff, hentries]
      intro e he
      rw [List.mem_singleton.1 he]
      exact fun h => hne h.symm
    rw [hentries] at horder
    have ho : order = [(u1, wp)] := List.perm_singleton.1 horder
    have hopp : (order.find? fun e => decide (e.1 ≠ u2)) = some (u1, wp) := by
      rw [ho]
      have hd : decide (u1 ≠ u2) = true := decide_eq_true (fun h => hne h.symm)
      simp only [List.find?_cons, hd]
    unfold AddPlayer
    rw [hfind]
    simp only []
    rw [hopp]
    refine ⟨rfl, ?_, ?_⟩
    · simp [GoMap.delete, hentries]
    · refine ⟨_, GoMap.find_store_same _ _ _, rfl, huser, rfl, rfl, rfl, rfl⟩
  · intro s0 c0 order0 id0 r1 r2 r3 h0 ho
    have hfind : s0.matchmakingQueue.waitingPlayers.find u1 = none := by
      rw [GoMap.find_eq_none_iff, h0]
      intro e he
      exact absurd he (List.not_mem_nil e)
    unfold AddPlayer
    rw [hfind, ho]
    exact ⟨rfl, GoMap.find_store_same _ _ _⟩

theorem pairing_uses_waiting_id_witness :
    joinedAlice.2 = "g1" ∧
      joinedAlice.1.matchmakingQueue.waitingPlayers.find "alice"
        = some { Username := "alice", Conn := some 1, GameID := "g1", JoinedAt := 10 } ∧
      pairedBob.2 = "g1" ∧
      pairedBob.1.matchmakingQueue.waitingPlayers.entries = [] :=
  ⟨by decide, by decide,
    (pairing_uses_waiting_id joinedAlice.1
      (ServerReachable.addPlayer "alice" (some 1) [] "g1" 10 11 12 List.Perm.nil
        (ServerReachable.start Server.init rfl))
      "alice" "bob" { Username := "alice", Conn := some 1, GameID := "g1", JoinedAt := 10 }
      (some 2) joinedAlice.1.matchmakingQueue.waitingPlayers.entries "g9" 20 21 22
      (by decide) (by decide) (List.Perm.refl _)).1.1,
    (pairing_uses_waiting_id joinedAlice.1
      (ServerReachable.addPlayer "alice" (some 1) [] "g1" 10 11 12 List.Perm.nil
        (ServerReachable.start Server.init rfl))
      "alice" "bob" { Username := "alice", Conn := some 1, GameID := "g1", JoinedAt := 10 }
      (some 2) joinedAlice.1.matchmakingQueue.waitingPlayers.entries "g9" 20 21 22
      (by decide) (by decide) (List.Perm.refl _)).1.2.1⟩

/-- C15 on the code: alice joins (id "g1", timer started), bob joins and is
paired with her, alice joins again (id "g2"), and then the timer of her first
wait fires. The entry it was started for has been consumed by the pairing, yet
the call removes alice's new entry and registers a bot game under "g1" in place
of the game of alice and bob. -/
theorem stale_timeout_starts_bot_game :
    joinedAlice.2 = "g1" ∧ ("alice", "g1") ∈ joinedAlice.1.pendingTimeouts ∧
    pairedBob.2 = "g1" ∧ pairedBob.1.matchmakingQueue.waitingPlayers.find "alice" = none ∧
    rejoinedAlice.2 = "g2" ∧ ("alice", "g1") ∈ rejoinedAlice.1.pendingTimeouts ∧
    (rejoinedAlice.1.matchmakingQueue.waitingPlayers.find "alice").map (fun wp => wp.GameID)
      = some "g2" ∧
    (rejoinedAlice.1.gameManager.games.find "g1").map (fun g => (g.Player2, g.IsBotGame))
      = some ("bob", false) ∧
    staleTimeoutFired.matchmakingQueue.waitingPlayers.find "alice" = none ∧
    (staleTimeoutFired.gameManager.games.find "g1").map (fun g => (g.Player2, g.IsBotGame))
      = some ("Bot", true) ∧
    (staleTimeoutFired.gameManager.games.find "g2").map (fun g => g.ID) = none := by
  decide

/-- When `username` is not waiting, the body of `startMatchmakingTimeout` leaves the
queue, the registry and the event channel as they are. -/
theorem startMatchmakingTimeout_not_waiting (s : Server) (username gameID : String)
    (t1 t2 t3 : Time) (h : s.matchmakingQueue.waitingPlayers.find username = none) :
    (startMatchmakingTimeout s username gameID t1 t2 t3).matchmakingQueue = s.matchmakingQueue ∧
      (startMatchmakingTimeout s username gameID t1 t2 t3).gameManager = s.gameManager ∧
      (startMatchmakingTimeout s username gameID t1 t2 t3).eventProducer = s.eventProducer := by
  unfold startMatchmakingTimeout
  simp only []
  rw [h]
  exact ⟨rfl, rfl, rfl⟩

/-- C16: when `name` is already waiting, `AddPlayer(name, conn)` returns the
entry's pre-allocated game id and changes nothing (queue, entry, registry and
event channel are as before, no game is started), and calling it again returns
the same id. -/
theorem AddPlayer_rejoin_is_idempotent (s : Server) (name : String) (conn : Option ConnRef)
    (order : List (String × WaitingPlayer)) (newID : String) (t1 t2 t3 : Time)
    (wp : WaitingPlayer) (h : s.matchmakingQueue.waitingPlayers.find name = some wp) :
    (AddPlayer s name conn order newID t1 t2 t3).2 = wp.GameID ∧
      (AddPlayer s name conn order newID t1 t2 t3).1 = s ∧
      (AddPlayer s name conn order newID t1 t2 t3).1.matchmakingQueue.waitingPlayers.find name
        = some wp ∧
      ∀ (conn' : Option ConnRef) (order' : List (String × WaitingPlayer)) (newID' : String)
        (r1 r2 r3 : Time),
        (AddPlayer (AddPlayer s name conn order newID t1 t2 t3).1 name conn' order' newID'
          r1 r2 r3).2 = wp.GameID := by
  rw [AddPlayer_waiting s name conn order newID t1 t2 t3 wp h]
  refine ⟨rfl, rfl, h, ?_⟩
  intro conn' order' newID' r1 r2 r3
  rw [AddPlayer_waiting s name conn' order' newID' r1 r2 r3 wp h]

theorem AddPlayer_rejoin_is_idempotent_witness :
    joinedAlice.1.matchmakingQueue.waitingPlayers.find "alice"
        = some { Username := "alice", Conn := some 1, GameID := "g1", JoinedAt := 10 } ∧
      (AddPlayer joinedAlice.1 "alice" (some 7) [] "g5" 50 51 52).2 = "g1" ∧
      (AddPlayer joinedAlice.1 "alice" (some 7) [] "g5" 50 51 52).1 = joinedAlice.1 :=
  ⟨by decide,
    (AddPlayer_rejoin_is_idempotent joinedAlice.1 "alice" (some 7) [] "g5" 50 51 52
      { Username := "alice", Conn := some 1, GameID := "g1", JoinedAt := 10 }
      (by decide)).1,
    (AddPlayer_rejoin_is_idempotent joinedAlice.1 "alice" (some 7) [] "g5" 50 51 52
      { Username := "alice", Conn := some 1, GameID := "g1", JoinedAt := 10 }
      (by decide)).2.1⟩

/-- C17: when `username` is still waiting as its fallback timer fires,
`startMatchmakingTimeout(username, gameID)` removes that entry and registers a
game with ID = gameID, Player1 = username, Player2 = "Bot", IsBotGame = true,
State = InProgress, CurrentTurn = Player1, an empty board, the waiting
connection as Player1Conn and no Player2 connection. -/
theorem timeout_starts_bot_game (s : Server) (username gameID : String) (t1 t2 t3 : Time)
    (wp : WaitingPlayer) (h : s.matchmakingQueue.waitingPlayers.find username = some wp) :
    (startMatchmakingTimeout s username gameID t1 t2 t3).matchmakingQueue.waitingPlayers
        = s.matchmakingQueue.waitingPlayers.delete username ∧
      (startMatchmakingTimeout s username gameID t1 t2 t3).matchmakingQueue.waitingPlayers.find
        username = none ∧
      ∃ game : Game,
        (startMatchmakingTimeout s username gameID t1 t2 t3).gameManager.games.find gameID
          = some game ∧
        game.ID = gameID ∧ game.Player1 = username ∧ game.Player2 = "Bot" ∧
        game.IsBotGame = true ∧ game.State = InProgress ∧ game.CurrentTurn = Player1 ∧
        game.Board = Grid.zero ∧ game.Player1Conn = wp.Conn ∧ game.Player2Conn = none := by
  unfold startMatchmakingTimeout
  simp only []
  rw [h]
  refine ⟨rfl, GoMap.find_delete_same _ _, _, GoMap.find_store_same _ _ _,
    rfl, rfl, rfl, rfl, rfl, rfl, rfl, rfl, rfl⟩

theorem timeout_starts_bot_game_witness :
    joinedAlice.1.matchmakingQueue.waitingPlayers.find "alice"
        = some { Username := "alice", Conn := some 1, GameID := "g1", JoinedAt := 10 } ∧
      (startMatchmakingTimeout joinedAlice.1 "alice" "g1" 40 41 42
        ).matchmakingQueue.waitingPlayers.find "alice" = none :=
  ⟨by decide,
    (timeout_starts_bot_game joinedAlice.1 "alice" "g1" 40 41 42
      { Username := "alice", Conn := some 1, GameID := "g1", JoinedAt := 10 }
      (by decide)).2.1⟩

/-! ## The registry -/

theorem find_filter_ne {α : Type} (k k' : String) (h : k' ≠ k) :
    ∀ es : List (String × α),
      (es.filter fun e => decide (e.1 ≠ k)).find? (fun e => decide (e.1 = k'))
        = es.find? (fun e => decide (e.1 = k')) := by
  intro es
  induction es with
  | nil => rfl
  | cons e rest ih =>
    by_cases he : e.1 = k
    · have h1 : decide (e.1 ≠ k) = false := decide_eq_false (fun hne => hne he)
      have h2 : decide (e.1 = k') = false := decide_eq_false (fun h' => h (h'.symm.trans he))
      simp only [List.filter_cons, List.find?_cons, h1, h2, ih, Bool.false_eq_true, if_false]
    · have h1 : decide (e.1 ≠ k) = true := decide_eq_true he
      by_cases he' : e.1 = k'
      · have h2 : decide (e.1 = k') = true := decide_eq_true he'
        simp only [List.filter_cons, List.find?_cons, h1, h2, if_true]
      · have h2 : decide (e.1 = k') = false := decide_eq_false he'
        simp only [List.filter_cons, List.find?_cons, h1, h2, ih, if_true]

theorem GoMap.find_delete_other {α : Type} (m : GoMap α) (k k' : String) (h : k' ≠ k) :
    (m.delete k).find k' = m.find k' := by
  unfold GoMap.find GoMap.delete
  rw [find_filter_ne k k' h]

theorem GoMap.find_store_other {α : Type} (m : GoMap α) (k k' : String) (v : α) (h : k' ≠ k) :
    (m.store k v).find k' = m.find k' := by
  unfold GoMap.find GoMap.store
  have h2 : decide (k = k') = false := decide_eq_false (fun h' => h h'.symm)
  rw [List.find?_append, find_filter_ne k k' h]
  simp only [List.find?_cons, h2, List.find?_nil, Option.or_none]

/-- C21: `GetGame(j)` returns the active entry for `j` if there is one and
otherwise the completed entry; `CompleteGame(i)` leaves the result of
`GetGame(j)` unchanged for every `j`; afterwards `i` is not in the active map
and, if it was active, the same game is in the completed map; on an id that is
not active `CompleteGame` changes nothing, so it is idempotent. -/
theorem CompleteGame_keeps_games (gm : GameManager) (i j : String) :
    (gm.GetGame j = match gm.games.find j with
      | some game => some game
      | none => gm.completedGames.find j) ∧
    (gm.CompleteGame i).GetGame j = gm.GetGame j ∧
    (gm.CompleteGame i).games.find i = none ∧
    (∀ game : Game, gm.games.find i = some game →
      (gm.CompleteGame i).completedGames.find i = some game) ∧
    (gm.games.find i = none → gm.CompleteGame i = gm) ∧
    (gm.CompleteGame i).CompleteGame i = gm.CompleteGame i := by
  have hnone : (gm.CompleteGame i).games.find i = none := by
    unfold GameManager.CompleteGame
    cases h : gm.games.find i with
    | some game => exact GoMap.find_delete_same _ _
    | none => exact h
  refine ⟨rfl, ?_, hnone, ?_, ?_, ?_⟩
  · unfold GameManager.CompleteGame GameManager.GetGame
    cases h : gm.games.find i with
    | some game =>
      simp only []
      by_cases hj : j = i
      · rw [hj, GoMap.find_delete_same, GoMap.find_store_same, h]
      · rw [GoMap.find_delete_other _ _ _ hj, GoMap.find_store_other _ _ _ _ hj]
    | none => rfl
  · intro game h
    unfold GameManager.CompleteGame
    rw [h]
    exact GoMap.find_store_same _ _ _
  · intro h
    unfold GameManager.CompleteGame
    rw [h]
  · generalize gm.CompleteGame i = gm' at hnone
    unfold GameManager.CompleteGame
    rw [hnone]

theorem CompleteGame_keeps_games_witness :
    (sampleRegistry.CompleteGame "g4").games.find "g4" = none ∧
      (sampleRegistry.CompleteGame "g4").CompleteGame "g4" = sampleRegistry.CompleteGame "g4" :=
  ⟨(CompleteGame_keeps_games sampleRegistry "g4" "g1").2.2.1,
    (CompleteGame_keeps_games sampleRegistry "g4" "g1").2.2.2.2.2⟩

/-! ## The event channel -/

theorem PublishEvent_room (ep : EventProducer) (event : Event)
    (h : ep.eventChannel.length < ep.capacity) :
    ep.PublishEvent event = { ep with eventChannel := ep.eventChannel ++ [event] } := by
  unfold EventProducer.PublishEvent
  rw [if_pos h]

theorem PublishEvent_full (ep : EventProducer) (event : Event)
    (h : ¬ ep.eventChannel.length < ep.capacity) : ep.PublishEvent event = ep := by
  unfold EventProducer.PublishEvent
  rw [if_neg h]

/-- Along any run the channel keeps its capacity, holds at most that many
events, and the queued events are the received ones followed by the channel. -/
theorem runChannel_inv : ∀ (ops : List ChannelOp) (r : ChannelRun),
    r.producer.eventChannel.length ≤ r.producer.capacity →
    r.queued = r.received ++ r.producer.eventChannel →
      (runChannel r ops).producer.capacity = r.producer.capacity ∧
      (runChannel r ops).producer.eventChannel.length ≤ r.producer.capacity ∧
      (runChannel r ops).queued
        = (runChannel r ops).received ++ (runChannel r ops).producer.eventChannel := by
  intro ops
  induction ops with
  | nil => intro r h1 h2; exact ⟨rfl, h1, h2⟩
  | cons op ops ih =>
    intro r h1 h2
    cases op with
    | publish event =>
      simp only [runChannel]
      by_cases hroom : r.producer.eventChannel.length < r.producer.capacity
      · rw [PublishEvent_room _ _ hroom]
        have := ih
          { producer := { r.producer with eventChannel := r.producer.eventChannel ++ [event] }
            received := r.received
            queued := r.queued ++ [event] }
          (by simp only [List.length_append, List.length_singleton]; omega)
          (by simp only [h2, List.append_assoc])
        simpa using this
      · rw [PublishEvent_full _ _ hroom]
        have := ih { producer := r.producer, received := r.received, queued := r.queued } h1 h2
        simpa using this
    | receive =>
      simp only [runChannel]
      cases hq : r.producer.eventChannel with
      | nil =>
        have hrec : r.producer.receive = none := by
          unfold EventProducer.receive; rw [hq]
        rw [hrec]
        exact ih r h1 h2
      | cons e rest =>
        have hrec : r.producer.receive = some (e, { r.producer with eventChannel := rest }) := by
          unfold EventProducer.receive; rw [hq]
        rw [hrec]
        rw [hq] at h1 h2
        have := ih
          { producer := { r.producer with eventChannel := rest }
            received := r.received ++ [e]
            queued := r.queued }
          (by simp only [List.length_cons] at h1; simp only []; omega)
          (by simp only [h2, List.append_assoc, List.singleton_append])
        simpa using this

/-- C25: with the event channel as a FIFO queue of capacity `n`, `PublishEvent`
on a queue with fewer than `n` events appends the event at the tail, on a queue
with `n` events it leaves the queue unchanged, it returns in both cases, the
queue never holds more than `n` events, and the consumer receives the events
that were not dropped in the order in which they were published. -/
theorem event_channel_is_bounded_fifo (n : Nat) :
    (∀ (ep : EventProducer) (event : Event), ep.capacity = n → ep.eventChannel.length < n →
      (ep.PublishEvent event).eventChannel = ep.eventChannel ++ [event] ∧
      (ep.PublishEvent event).capacity = n) ∧
    (∀ (ep : EventProducer) (event : Event), ep.capacity = n → ep.eventChannel.length = n →
      ep.PublishEvent event = ep) ∧
    (∀ ops : List ChannelOp,
      (runChannel { producer := NewEventProducer n, received := [], queued := [] }
        ops).producer.eventChannel.length ≤ n ∧
      (runChannel { producer := NewEventProducer n, received := [], queued := [] } ops).queued
        = (runChannel { producer := NewEventProducer n, received := [], queued := [] }
            ops).received
          ++ (runChannel { producer := NewEventProducer n, received := [], queued := [] }
            ops).producer.eventChannel) := by
  refine ⟨?_, ?_, ?_⟩
  · intro ep event hc hl
    rw [PublishEvent_room ep event (by omega)]
    exact ⟨rfl, hc⟩
  · intro ep event hc hl
    exact PublishEvent_full ep event (by omega)
  · intro ops
    have := runChannel_inv ops { producer := NewEventProducer n, received := [], queued := [] }
      (Nat.zero_le _) rfl
    exact ⟨this.2.1, this.2.2⟩

theorem event_channel_is_bounded_fifo_witness :
    ((NewEventProducer 2).PublishEvent (sampleEvent "GAME_STARTED" "" 1)).eventChannel
      = [] ++ [sampleEvent "GAME_STARTED" "" 1] :=
  ((event_channel_is_bounded_fifo 2).1 (NewEventProducer 2) (sampleEvent "GAME_STARTED" "" 1)
    rfl (by decide)).1

/-! ## Counting wins -/

theorem increment_find (wins : GoMap Int) (k k' : String) :
    ((increment wins k).find k').getD 0
      = (wins.find k').getD 0 + if k' = k then 1 else 0 := by
  unfold increment
  by_cases h : k' = k
  · rw [h, GoMap.find_store_same, if_pos rfl]; rfl
  · rw [GoMap.find_store_other _ _ _ _ h, if_neg h, add_zero]

theorem increment_find_none (wins : GoMap Int) (k k' : String) :
    (increment wins k).find k' = none ↔ wins.find k' = none ∧ k' ≠ k := by
  unfold increment
  by_cases h : k' = k
  · rw [h, GoMap.find_store_same]; simp
  · rw [GoMap.find_store_other _ _ _ _ h]; simp [h]

/-! ## The analytics consumer -/

/-- What one event adds to TotalGames and to the wins of a non-empty name `n`. -/
theorem processEvent_counts (ac : AnalyticsConsumer) (event : Event) (n : String)
    (hn : n ≠ "") :
    (ac.processEvent event).data.TotalGames
        = ac.data.TotalGames + (if event.EventType = "GAME_STARTED" then 1 else 0) ∧
      ((ac.processEvent event).data.WinsPerPlayer.find n).getD 0
        = (ac.data.WinsPerPlayer.find n).getD 0
          + (if event.EventType = "GAME_ENDED" ∧ event.Winner = n then 1 else 0) := by
  unfold AnalyticsConsumer.processEvent
  by_cases h1 : event.EventType = "GAME_STARTED"
  · have h3 : ¬ event.EventType = "GAME_ENDED" := by rw [h1]; decide
    simp only [if_pos h1, h3, false_and, if_false, add_zero, and_self]
  · rw [if_neg h1, if_neg h1]
    by_cases h2 : event.EventType = "MOVE_MADE"
    · have h3 : ¬ event.EventType = "GAME_ENDED" := by rw [h2]; decide
      simp only [if_pos h2, h3, false_and, if_false, add_zero, and_self]
    · rw [if_neg h2]
      by_cases h3 : event.EventType = "GAME_ENDED"
      · rw [if_pos h3]
        simp only [h3, true_and, add_zero]
        by_cases hw : event.Winner ≠ ""
        · rw [if_pos hw]
          cases hs : ac.gameStartTimes.find event.GameID with
          | some startTime =>
            simp only []
            refine ⟨trivial, ?_⟩
            rw [increment_find]
            by_cases e : n = event.Winner
            · rw [if_pos e, if_pos e.symm]
            · rw [if_neg e, if_neg (fun h => e h.symm)]
          | none =>
            simp only []
            refine ⟨trivial, ?_⟩
            rw [increment_find]
            by_cases e : n = event.Winner
            · rw [if_pos e, if_pos e.symm]
            · rw [if_neg e, if_neg (fun h => e h.symm)]
        · rw [if_neg hw]
          have hw' : event.Winner = "" := not_not.1 hw
          have e : ¬ event.Winner = n := by rw [hw']; exact fun h => hn h.symm
          rw [if_neg e]
          cases hs : ac.gameStartTimes.find event.GameID with
          | some startTime => exact ⟨rfl, (add_zero _).symm⟩
          | none => exact ⟨rfl, (add_zero _).symm⟩
      · rw [if_neg h3]
        simp only [h3, false_and, if_false, add_zero, and_self]

theorem processAll_counts (n : String) (hn : n ≠ "") :
    ∀ (events : List Event) (ac : AnalyticsConsumer),
      (processAll ac events).data.TotalGames
          = ac.data.TotalGames
            + (events.countP fun e => decide (e.EventType = "GAME_STARTED")) ∧
        ((processAll ac events).data.WinsPerPlayer.find n).getD 0
          = (ac.data.WinsPerPlayer.find n).getD 0
            + (events.countP fun e => decide (e.EventType = "GAME_ENDED" ∧ e.Winner = n)) := by
  intro events
  induction events with
  | nil => intro ac; simp [processAll]
  | cons e rest ih =>
    intro ac
    obtain ⟨h1, h2⟩ := ih (ac.processEvent e)
    obtain ⟨h3, h4⟩ := processEvent_counts ac e n hn
    have hp : processAll ac (e :: rest) = processAll (ac.processEvent e) rest := rfl
    rw [hp, h1, h2, h3, h4]
    simp only [List.countP_cons, decide_eq_true_eq]
    constructor
    · split_ifs <;> push_cast <;> omega
    · split_ifs <;> push_cast <;> omega

/-- C26: for every finite sequence of events processed in order from empty
aggregates, TotalGames is the number of GAME_STARTED events and, for every
non-empty name `n`, `WinsPerPlayer[n]` is the number of GAME_ENDED events whose
Winner is `n`; a MOVE_MADE event changes nothing and a GAME_ENDED event with an
empty Winner changes no count. -/
theorem analytics_counts (events : List Event) :
    ((processAll NewAnalyticsConsumer events).data.TotalGames
        = (events.countP fun e => decide (e.EventType = "GAME_STARTED"))) ∧
    (∀ n : String, n ≠ "" →
      ((processAll NewAnalyticsConsumer events).data.WinsPerPlayer.find n).getD 0
        = (events.countP fun e => decide (e.EventType = "GAME_ENDED" ∧ e.Winner = n))) ∧
    (∀ (ac : AnalyticsConsumer) (event : Event), event.EventType = "MOVE_MADE" →
      ac.processEvent event = ac) ∧
    (∀ (ac : AnalyticsConsumer) (event : Event),
      event.EventType = "GAME_ENDED" → event.Winner = "" →
        (ac.processEvent event).data.TotalGames = ac.data.TotalGames ∧
        (ac.processEvent event).data.GameCount = ac.data.GameCount ∧
        (ac.processEvent event).data.WinsPerPlayer = ac.data.WinsPerPlayer) := by
  refine ⟨?_, ?_, ?_, ?_⟩
  · have := (processAll_counts "x" (by decide) events NewAnalyticsConsumer).1
    rw [this]
    show (0 : Int) + _ = _
    rw [zero_add]
  · intro n hn
    have := (processAll_counts n hn events NewAnalyticsConsumer).2
    rw [this]
    show (0 : Int) + _ = _
    rw [zero_add]
  · intro ac event h
    unfold AnalyticsConsumer.processEvent
    rw [if_neg (by rw [h]; decide), if_pos h]
  · intro ac event h hw
    unfold AnalyticsConsumer.processEvent
    rw [if_neg (by rw [h]; decide), if_neg (by rw [h]; decide), if_pos h]
    simp only [hw, ne_eq, not_true_eq_false, if_false]
    cases hs : ac.gameStartTimes.find event.GameID with
    | some startTime => exact ⟨rfl, rfl, rfl⟩
    | none => exact ⟨rfl, rfl, rfl⟩

theorem analytics_counts_witness :
    (processAll NewAnalyticsConsumer sampleEvents).data.TotalGames = 1 ∧
      ((processAll NewAnalyticsConsumer sampleEvents).data.WinsPerPlayer.find "alice").getD 0
        = 1 :=
  ⟨(analytics_counts sampleEvents).1.trans (by decide),
    ((analytics_counts sampleEvents).2.1 "alice" (by decide)).trans (by decide)⟩

/-! ## The leaderboard -/

theorem find_none_of_not_mem_keys {α : Type} (k : String) :
    ∀ es : List (String × α), k ∉ es.map (fun e => e.1) →
      es.find? (fun e => decide (e.1 = k)) = none := by
  intro es h
  rw [List.find?_eq_none]
  intro e he hk
  exact h (List.mem_map.2 ⟨e, he, of_decide_eq_true hk⟩)

theorem sum_filter_ne (k : String) :
    ∀ es : List (String × Int), (es.map fun e => e.1).Nodup →
      ((es.filter fun e => decide (e.1 ≠ k)).map fun e => e.2).sum
        = (es.map fun e => e.2).sum
          - ((es.find? fun e => decide (e.1 = k)).map fun e => e.2).getD 0 := by
  intro es
  induction es with
  | nil => intro _; rfl
  | cons e rest ih =>
    intro hnd
    rw [List.map_cons, List.nodup_cons] at hnd
    by_cases he : e.1 = k
    · have h1 : decide (e.1 ≠ k) = false := decide_eq_false (fun hne => hne he)
      have h2 : decide (e.1 = k) = true := decide_eq_true he
      have hrest := ih hnd.2
      rw [find_none_of_not_mem_keys k rest (he ▸ hnd.1)] at hrest
      simp only [List.filter_cons, List.find?_cons, h1, h2, Bool.false_eq_true, if_false,
        List.map_cons, List.sum_cons, Option.map_some', Option.getD_some]
      rw [hrest]
      simp
    · have h1 : decide (e.1 ≠ k) = true := decide_eq_true he
      have h2 : decide (e.1 = k) = false := decide_eq_false he
      simp only [List.filter_cons, List.find?_cons, h1, h2, if_true, List.map_cons,
        List.sum_cons]
      rw [ih hnd.2]
      ring

theorem GoMap.keys_store_nodup {α : Type} (m : GoMap α) (k : String) (v : α)
    (h : m.keys.Nodup) : (m.store k v).keys.Nodup := by
  unfold GoMap.keys GoMap.store at *
  rw [List.map_append, List.nodup_append]
  refine ⟨(List.filter_sublist _).map _ |>.nodup h, by simp, ?_⟩
  intro a ha hb
  simp only [List.map_cons, List.map_nil, List.mem_singleton] at hb
  obtain ⟨e, he, rfl⟩ := List.mem_map.1 ha
  exact of_decide_eq_true (List.mem_filter.1 he).2 hb

theorem GoMap.total_store (m : GoMap Int) (k : String) (v : Int) (h : m.keys.Nodup) :
    (m.store k v).total = m.total - (m.find k).getD 0 + v := by
  unfold GoMap.total GoMap.store GoMap.find
  simp only [List.map_append, List.sum_append, List.map_cons, List.map_nil, List.sum_cons,
    List.sum_nil, add_zero]
  rw [sum_filter_ne k m.entries h]

theorem increment_total (wins : GoMap Int) (k : String) (h : wins.keys.Nodup) :
    (increment wins k).keys.Nodup ∧ (increment wins k).total = wins.total + 1 := by
  unfold increment
  refine ⟨GoMap.keys_store_nodup _ _ _ h, ?_⟩
  rw [GoMap.total_store _ _ _ h]
  ring

/-- The loop of `GetLeaderboard` adds to each name its wins among the games
visited, adds no other name, and adds one to the total per game with a winner. -/
theorem leaderboardLoop_counts :
    ∀ (order : List (String × Game)) (wins : GoMap Int),
      (∀ n : String, ((leaderboardLoop wins order).find n).getD 0
          = (wins.find n).getD 0 + (order.countP fun e => wonBy n e.2)) ∧
      (∀ n : String, (leaderboardLoop wins order).find n = none ↔
          wins.find n = none ∧ (order.countP fun e => wonBy n e.2) = 0) ∧
      (wins.keys.Nodup → (leaderboardLoop wins order).keys.Nodup ∧
        (leaderboardLoop wins order).total
          = wins.total + (order.countP fun e => hasWinner e.2)) := by
  intro order
  induction order with
  | nil =>
    intro wins
    simp [leaderboardLoop]
  | cons e rest ih =>
    intro wins
    obtain ⟨key, game⟩ := e
    by_cases h1 : game.Winner = Player1
    · have h2 : ¬ game.Winner = Player2 := by rw [h1]; decide
      have hw : ∀ n, wonBy n game = decide (game.Player1 = n) := by
        intro n; simp [wonBy, h1, h2]
      have hh : hasWinner game = true := by simp [hasWinner, h1]
      obtain ⟨ih1, ih2, ih3⟩ := ih (increment wins game.Player1)
      simp only [leaderboardLoop, if_pos h1, List.countP_cons, hw, hh, if_true]
      refine ⟨?_, ?_, ?_⟩
      · intro n
        rw [ih1, increment_find]
        by_cases e : n = game.Player1
        · simp [e]; ring
        · have e' : ¬ game.Player1 = n := fun h => e h.symm
          simp [e, e']
      · intro n
        rw [ih2, increment_find_none]
        by_cases e : n = game.Player1
        · simp [e]
        · have e' : ¬ game.Player1 = n := fun h => e h.symm
          simp [e, e']
      · intro hnd
        obtain ⟨hnd', ht⟩ := increment_total wins game.Player1 hnd
        obtain ⟨a, b⟩ := ih3 hnd'
        refine ⟨a, ?_⟩
        rw [b, ht]
        push_cast
        ring
    · by_cases h2 : game.Winner = Player2
      · have hw : ∀ n, wonBy n game = decide (game.Player2 = n) := by
          intro n; simp [wonBy, h1, h2]
        have hh : hasWinner game = true := by simp [hasWinner, h2]
        obtain ⟨ih1, ih2, ih3⟩ := ih (increment wins game.Player2)
        simp only [leaderboardLoop, if_neg h1, if_pos h2, List.countP_cons, hw, hh, if_true]
        refine ⟨?_, ?_, ?_⟩
        · intro n
          rw [ih1, increment_find]
          by_cases e : n = game.Player2
          · simp [e]; ring
          · have e' : ¬ game.Player2 = n := fun h => e h.symm
            simp [e, e']
        · intro n
          rw [ih2, increment_find_none]
          by_cases e : n = game.Player2
          · simp [e]
          · have e' : ¬ game.Player2 = n := fun h => e h.symm
            simp [e, e']
        · intro hnd
          obtain ⟨hnd', ht⟩ := increment_total wins game.Player2 hnd
          obtain ⟨a, b⟩ := ih3 hnd'
          refine ⟨a, ?_⟩
          rw [b, ht]
          push_cast
          ring
      · have hw : ∀ n, wonBy n game = false := by
          intro n; simp [wonBy, h1, h2]
        have hh : hasWinner game = false := by simp [hasWinner, h1, h2]
        obtain ⟨ih1, ih2, ih3⟩ := ih wins
        simp only [leaderboardLoop, if_neg h1, if_neg h2, List.countP_cons, hw, hh,
          Bool.false_eq_true, if_false, add_zero]
        exact ⟨ih1, ih2, ih3⟩

/-- C22: for every name `n`, the value `GetLeaderboard` returns for `n` is the
number of games in the completed map with (Winner = Player1 and Player1 = n) or
(Winner = Player2 and Player2 = n); a name with no such game is absent from the
result; no name occurs twice, and the values sum to the number of completed
games whose Winner is Player1 or Player2, so draws add nothing; and the games
in the active map play no part. -/
theorem GetLeaderboard_counts_wins (gm : GameManager) (order : List (String × Game))
    (horder : order.Perm gm.completedGames.entries) :
    (∀ n : String, ((gm.GetLeaderboard order).find n).getD 0
        = (gm.completedGames.entries.countP fun e => wonBy n e.2)) ∧
    (∀ n : String, (gm.GetLeaderboard order).find n = none ↔
        (gm.completedGames.entries.countP fun e => wonBy n e.2) = 0) ∧
    (gm.GetLeaderboard order).keys.Nodup ∧
    (gm.GetLeaderboard order).total
        = (gm.completedGames.entries.countP fun e => hasWinner e.2) ∧
    (∀ games : GoMap Game,
      GameManager.GetLeaderboard { gm with games := games } order = gm.GetLeaderboard order) := by
  obtain ⟨h1, h2, h3⟩ := leaderboardLoop_counts order GoMap.empty
  have hnd : (GoMap.empty : GoMap Int).keys.Nodup := List.nodup_nil
  refine ⟨?_, ?_, (h3 hnd).1, ?_, fun _ => rfl⟩
  · intro n
    unfold GameManager.GetLeaderboard
    rw [h1 n, horder.countP_eq]
    show (0 : Int) + _ = _
    rw [zero_add]
  · intro n
    unfold GameManager.GetLeaderboard
    rw [h2 n, horder.countP_eq]
    exact ⟨fun h => h.2, fun h => ⟨rfl, h⟩⟩
  · unfold GameManager.GetLeaderboard
    rw [(h3 hnd).2, horder.countP_eq]
    show (0 : Int) + _ = _
    rw [zero_add]

theorem GetLeaderboard_counts_wins_witness :
    ((sampleRegistry.GetLeaderboard sampleRegistry.completedGames.entries).find "alice").getD 0
        = 2 ∧
      (sampleRegistry.GetLeaderboard sampleRegistry.completedGames.entries).find "carol"
        = none ∧
      (sampleRegistry.GetLeaderboard sampleRegistry.completedGames.entries).total = 2 :=
  ⟨((GetLeaderboard_counts_wins sampleRegistry sampleRegistry.completedGames.entries
      (List.Perm.refl _)).1 "alice").trans (by decide),
    ((GetLeaderboard_counts_wins sampleRegistry sampleRegistry.completedGames.entries
      (List.Perm.refl _)).2.1 "carol").2 (by decide),
    (GetLeaderboard_counts_wins sampleRegistry sampleRegistry.completedGames.entries
      (List.Perm.refl _)).2.2.2.1.trans (by decide)⟩

/-! ## The watchdog -/

theorem find_map_modify {α : Type} (k : String) (f : α → α) :
    ∀ es : List (String × α),
      (es.map fun e => if e.1 = k then (e.1, f e.2) else e).find? (fun e => decide (e.1 = k))
        = (es.find? fun e => decide (e.1 = k)).map fun e => (e.1, f e.2) := by
  intro es
  induction es with
  | nil => rfl
  | cons e rest ih =>
    by_cases he : e.1 = k
    · have h2 : decide (e.1 = k) = true := decide_eq_true he
      simp only [List.map_cons, if_pos he, List.find?_cons, h2, Option.map_some']
    · have h2 : decide (e.1 = k) = false := decide_eq_false he
      simp only [List.map_cons, if_neg he, List.find?_cons, h2, ih]

theorem GoMap.find_modify_same {α : Type} (m : GoMap α) (k : String) (f : α → α) :
    (m.modify k f).find k = (m.find k).map f := by
  unfold GoMap.find GoMap.modify
  rw [find_map_modify k f m.entries]
  cases m.entries.find? fun e => decide (e.1 = k) with
  | none => rfl
  | some e => rfl

/-- A forfeit of a game registered under its ID moves the game, with the three
fields written, from the active to the completed map. -/
theorem declareForfeit_moves (s : Server) (game : Game) (winner : Player)
    (winnerName : String) (now stamp : Time)
    (hreg : s.gameManager.games.find game.ID = some game) :
    (declareForfeit s game winner winnerName now stamp).gameManager.games.find game.ID = none ∧
      (declareForfeit s game winner winnerName now stamp).gameManager.completedGames.find game.ID
        = some { game with State := Finished, Winner := winner, EndedAt := some now } := by
  have hmod : (s.gameManager.games.modify game.ID fun g =>
        { g with State := Finished, Winner := winner, EndedAt := some now }).find game.ID
      = some { game with State := Finished, Winner := winner, EndedAt := some now } := by
    rw [GoMap.find_modify_same, hreg]; rfl
  unfold declareForfeit GameManager.CompleteGame
  simp only [hmod]
  exact ⟨GoMap.find_delete_same _ _, GoMap.find_store_same _ _ _⟩

theorem inactive_iff (lastActivity lastMoveAt tActivity tMove : Time) :
    inactive lastActivity lastMoveAt tActivity tMove = true ↔
      tActivity - lastActivity > 30 * Second ∧ tMove - lastMoveAt > 30 * Second := by
  unfold inactive
  simp only [Bool.and_eq_true, decide_eq_true_eq]

/-- The three outcomes of one check: the forfeit of Player1, the forfeit of
Player2, or no change. -/
theorem checkGame_cases (s : Server) (game : Game) (lastActivity : ConnRef → Time)
    (clock : Nat → Time) :
    ((∃ c, game.Player1Conn = some c ∧
        inactive (lastActivity c) game.LastMoveAt (clock 0) (clock 1) = true) ∧
      checkGame s game lastActivity clock
        = declareForfeit s game Player2 game.Player2 (clock 2) (clock 3)) ∨
    ((¬ ∃ c, game.Player1Conn = some c ∧
        inactive (lastActivity c) game.LastMoveAt (clock 0) (clock 1) = true) ∧
      (∃ c, game.Player2Conn = some c ∧ game.IsBotGame = false ∧
        inactive (lastActivity c) game.LastMoveAt (clock 4) (clock 5) = true) ∧
      checkGame s game lastActivity clock
        = declareForfeit s game Player1 game.Player1 (clock 6) (clock 7)) ∨
    ((¬ ∃ c, game.Player1Conn = some c ∧
        inactive (lastActivity c) game.LastMoveAt (clock 0) (clock 1) = true) ∧
      (¬ ∃ c, game.Player2Conn = some c ∧ game.IsBotGame = false ∧
        inactive (lastActivity c) game.LastMoveAt (clock 4) (clock 5) = true) ∧
      checkGame s game lastActivity clock = s) := by
  unfold checkGame
  cases h1 : game.Player1Conn with
  | some c1 =>
    by_cases a1 : inactive (lastActivity c1) game.LastMoveAt (clock 0) (clock 1) = true
    · left
      exact ⟨⟨c1, rfl, a1⟩, by simp only [a1, if_true]⟩
    · right
      have n1 : ¬ ∃ c, some c1 = some c ∧
          inactive (lastActivity c) game.LastMoveAt (clock 0) (clock 1) = true := by
        rintro ⟨c, hc, hi⟩
        cases hc
        exact a1 hi
      cases h2 : game.Player2Conn with
      | some c2 =>
        by_cases a2 : (!game.IsBotGame &&
            inactive (lastActivity c2) game.LastMoveAt (clock 4) (clock 5)) = true
        · left
          refine ⟨n1, ⟨c2, rfl, ?_, ?_⟩, by simp only [a1, a2, if_true]; rfl⟩
          · have hb := (Bool.and_eq_true _ _ ▸ a2).1
            cases hg : game.IsBotGame with
            | false => rfl
            | true => rw [hg] at hb; exact absurd hb (by decide)
          · exact (Bool.and_eq_true _ _ ▸ a2).2
        · right
          refine ⟨n1, ?_, by simp only [a1, a2]; rfl⟩
          rintro ⟨c, hc, hb, hi⟩
          cases hc
          exact a2 (by rw [hb, hi]; rfl)
      | none =>
        right
        refine ⟨n1, ?_, by simp only [a1]; rfl⟩
        rintro ⟨c, hc, _⟩
        cases hc
  | none =>
    have n1 : ¬ ∃ c, (none : Option ConnRef) = some c ∧
        inactive (lastActivity c) game.LastMoveAt (clock 0) (clock 1) = true := by
      rintro ⟨c, hc, _⟩
      cases hc
    right
    cases h2 : game.Player2Conn with
    | some c2 =>
      by_cases a2 : (!game.IsBotGame &&
          inactive (lastActivity c2) game.LastMoveAt (clock 4) (clock 5)) = true
      · left
        refine ⟨n1, ⟨c2, rfl, ?_, ?_⟩, by simp only [a2, if_true]⟩
        · have hb := (Bool.and_eq_true _ _ ▸ a2).1
          cases hg : game.IsBotGame with
          | false => rfl
          | true => rw [hg] at hb; exact absurd hb (by decide)
        · exact (Bool.and_eq_true _ _ ▸ a2).2
      · right
        refine ⟨n1, ?_, by simp only [a2]; rfl⟩
        rintro ⟨c, hc, hb, hi⟩
        cases hc
        exact a2 (by rw [hb, hi]; rfl)
    | none =>
      right
      refine ⟨n1, ?_, rfl⟩
      rintro ⟨c, hc, _⟩
      cases hc

/-- C23: when the last move of a registered game is at most 30 seconds old at
both places where the check reads its age, one watchdog check of the game,
whatever the last-activity times of the connections and the other clock
readings are, changes nothing: the game stays in the active map with its State,
Winner and EndedAt, the completed map is as before and no event is published. -/
theorem recent_move_blocks_forfeit (s : Server) (game : Game) (lastActivity : ConnRef → Time)
    (clock : Nat → Time) (hreg : s.gameManager.games.find game.ID = some game)
    (h1 : clock 1 - game.LastMoveAt ≤ 30 * Second)
    (h5 : clock 5 - game.LastMoveAt ≤ 30 * Second) :
    checkGame s game lastActivity clock = s ∧
      (checkGame s game lastActivity clock).gameManager.games.find game.ID = some game ∧
      (checkGame s game lastActivity clock).gameManager.completedGames
        = s.gameManager.completedGames ∧
      (checkGame s game lastActivity clock).eventProducer = s.eventProducer := by
  have hs : checkGame s game lastActivity clock = s := by
    rcases checkGame_cases s game lastActivity clock with
      ⟨⟨c, _, hi⟩, _⟩ | ⟨_, ⟨c, _, _, hi⟩, _⟩ | ⟨_, _, h⟩
    · exact absurd ((inactive_iff _ _ _ _).1 hi).2 (not_lt.2 h1)
    · exact absurd ((inactive_iff _ _ _ _).1 hi).2 (not_lt.2 h5)
    · exact h
  rw [hs]
  exact ⟨rfl, hreg, rfl, rfl⟩

theorem recent_move_blocks_forfeit_witness :
    watchedServer.gameManager.games.find watchedGame.ID = some watchedGame ∧
      (35 * Second - watchedGame.LastMoveAt ≤ 30 * Second) ∧
      checkGame watchedServer watchedGame (fun _ => 0) (fun _ => 35 * Second) = watchedServer :=
  ⟨rfl, by decide,
    (recent_move_blocks_forfeit watchedServer watchedGame (fun _ => 0) (fun _ => 35 * Second)
      rfl (by decide) (by decide)).1⟩

/-- C24: when one watchdog check of a registered game declares a forfeit (the
check changes the state), the game leaves the active map and is in the
completed map with State = Finished and IsDraw, names and board as before, and
its Winner is the opponent of a side whose connection is bound and was last
active more than 30 seconds before the reading of the clock: Player2 wins when
that holds of Player1 and the last move is also more than 30 seconds old at the
first reading of its age (the block of Player1 comes first, whatever holds of
Player2), Player1 wins only when it holds of Player2 and the game is not a bot
game, and in a bot game the winner is Player2, the side of the bot. -/
theorem forfeit_goes_to_opponent (s : Server) (game : Game) (lastActivity : ConnRef → Time)
    (clock : Nat → Time) (hreg : s.gameManager.games.find game.ID = some game)
    (hforfeit : checkGame s game lastActivity clock ≠ s) :
    (checkGame s game lastActivity clock).gameManager.games.find game.ID = none ∧
    ∃ ended : Game,
      (checkGame s game lastActivity clock).gameManager.completedGames.find game.ID
        = some ended ∧
      ended.State = Finished ∧ ended.IsDraw = game.IsDraw ∧ ended.ID = game.ID ∧
      ended.Player1 = game.Player1 ∧ ended.Player2 = game.Player2 ∧
      ended.Board = game.Board ∧
      ((ended.Winner = Player2 ∧ ∃ c, game.Player1Conn = some c ∧
          clock 0 - lastActivity c > 30 * Second ∧ clock 1 - game.LastMoveAt > 30 * Second) ∨
        (ended.Winner = Player1 ∧ game.IsBotGame = false ∧ ∃ c, game.Player2Conn = some c ∧
          clock 4 - lastActivity c > 30 * Second ∧ clock 5 - game.LastMoveAt > 30 * Second)) ∧
      (∀ c, game.Player1Conn = some c → clock 0 - lastActivity c > 30 * Second →
        (clock 5 - game.LastMoveAt > 30 * Second → clock 1 - game.LastMoveAt > 30 * Second) →
        ended.Winner = Player2) ∧
      (game.IsBotGame = true → ended.Winner = Player2) := by
  rcases checkGame_cases s game lastActivity clock with
    ⟨⟨c, hc, hi⟩, h⟩ | ⟨hn, ⟨c, hc, hb, hi⟩, h⟩ | ⟨_, _, h⟩
  · rw [h]
    obtain ⟨ha, hm⟩ := declareForfeit_moves s game Player2 game.Player2 (clock 2) (clock 3) hreg
    refine ⟨ha, _, hm, rfl, rfl, rfl, rfl, rfl, rfl, ?_, fun _ _ _ _ => rfl, fun _ => rfl⟩
    exact Or.inl ⟨rfl, c, hc, (inactive_iff _ _ _ _).1 hi⟩
  · rw [h]
    obtain ⟨ha, hm⟩ := declareForfeit_moves s game Player1 game.Player1 (clock 6) (clock 7) hreg
    refine ⟨ha, _, hm, rfl, rfl, rfl, rfl, rfl, rfl, ?_, ?_, ?_⟩
    · exact Or.inr ⟨rfl, hb, c, hc, (inactive_iff _ _ _ _).1 hi⟩
    · intro c1 hc1 hact hage
      exact absurd ⟨c1, hc1, (inactive_iff _ _ _ _).2
        ⟨hact, hage ((inactive_iff _ _ _ _).1 hi).2⟩⟩ hn
    · intro hbot
      rw [hb] at hbot
      exact absurd hbot (by decide)
  · exact absurd h hforfeit

theorem forfeit_goes_to_opponent_witness :
    watchedServer.gameManager.games.find watchedGame.ID = some watchedGame ∧
      ((checkGame watchedServer watchedGame (fun _ => 0)
          (fun _ => 40 * Second)).gameManager.completedGames.find "g7").map
        (fun g => (g.State, g.Winner)) = some (Finished, Player2) ∧
      (checkGame watchedServer watchedGame (fun _ => 0)
        (fun _ => 40 * Second)).gameManager.games.find watchedGame.ID = none :=
  ⟨rfl, by decide,
    (forfeit_goes_to_opponent watchedServer watchedGame (fun _ => 0) (fun _ => 40 * Second) rfl
      (fun h => absurd
        (congrArg (fun r : Server => (r.gameManager.games.find "g7").isSome) h)
        (by decide))).1⟩

/-! ## The waiting queue -/

/-- C27: in every state reached from an empty waiting queue through `AddPlayer`,
`startMatchmakingTimeout` and `RemovePlayer` steps (and steps of the other
components), the waiting map holds at most one entry, and every entry is stored
under the key equal to its own Username. -/
theorem waiting_queue_invariant (s : Server) (h : ServerReachable s) :
    s.matchmakingQueue.waitingPlayers.entries.length ≤ 1 ∧
      ∀ e ∈ s.matchmakingQueue.waitingPlayers.entries, e.2.Username = e.1 :=
  h.queueInv

theorem waiting_queue_invariant_witness :
    joinedAlice.1.matchmakingQueue.waitingPlayers.entries.length ≤ 1 ∧
      rejoinedAlice.1.matchmakingQueue.waitingPlayers.entries.length ≤ 1 :=
  ⟨(waiting_queue_invariant joinedAlice.1
      (ServerReachable.addPlayer "alice" (some 1) [] "g1" 10 11 12 List.Perm.nil
        (ServerReachable.start Server.init rfl))).1,
    (waiting_queue_invariant rejoinedAlice.1
      (ServerReachable.addPlayer "alice" (some 3) _ "g2" 30 31 32 (List.Perm.refl _)
        (ServerReachable.addPlayer "bob" (some 2) _ "g9" 20 21 22 (List.Perm.refl _)
          (ServerReachable.addPlayer "alice" (some 1) [] "g1" 10 11 12 List.Perm.nil
            (ServerReachable.start Server.init rfl))))).1⟩

end ConnectFour
